import Mathlib

/-! Key repeat and lifecycle control of the RDK Cobalt port.

A shallow embedding of

* `EssInput` (`third_party/starboard/wpe/shared/window/window_internal.cc`): the
  translation of Essos key notifications into Starboard input events, with the
  key-repeat timer;
* `APIContext` (`third_party/starboard/rdk/shared/libcobalt.cc`): the lifecycle
  API that caller threads use against the application run loop.

Machine integers are natural numbers or integers; where the source narrows a value
(`unsigned int` to `uint16_t`, `~` on a 32-bit word) the narrowing is written out.
-/

set_option maxRecDepth 4000

namespace Cobalt

/-! ## Constants of `linux/input.h`

The header is not part of the repository; the values are those of
`linux/input-event-codes.h`. `KEY_INFO_BUTTON` is defined by the source itself. -/

def KEY_BACKSPACE : Nat := 14
def KEY_DELETE : Nat := 111
def KEY_TAB : Nat := 15
def KEY_LINEFEED : Nat := 101
def KEY_ENTER : Nat := 28
def KEY_KPENTER : Nat := 96
def KEY_CLEAR : Nat := 355
def KEY_SPACE : Nat := 57
def KEY_HOME : Nat := 102
def KEY_END : Nat := 107
def KEY_PAGEUP : Nat := 104
def KEY_PAGEDOWN : Nat := 109
def KEY_LEFT : Nat := 105
def KEY_RIGHT : Nat := 106
def KEY_DOWN : Nat := 108
def KEY_UP : Nat := 103
def KEY_ESC : Nat := 1
def KEY_KATAKANA : Nat := 90
def KEY_HIRAGANA : Nat := 91
def KEY_KATAKANAHIRAGANA : Nat := 93
def KEY_HANGEUL : Nat := 122
def KEY_HANJA : Nat := 123
def KEY_HENKAN : Nat := 92
def KEY_MUHENKAN : Nat := 94
def KEY_ZENKAKUHANKAKU : Nat := 85
def KEY_A : Nat := 30
def KEY_B : Nat := 48
def KEY_C : Nat := 46
def KEY_D : Nat := 32
def KEY_E : Nat := 18
def KEY_F : Nat := 33
def KEY_G : Nat := 34
def KEY_H : Nat := 35
def KEY_I : Nat := 23
def KEY_J : Nat := 36
def KEY_K : Nat := 37
def KEY_L : Nat := 38
def KEY_M : Nat := 50
def KEY_N : Nat := 49
def KEY_O : Nat := 24
def KEY_P : Nat := 25
def KEY_Q : Nat := 16
def KEY_R : Nat := 19
def KEY_S : Nat := 31
def KEY_T : Nat := 20
def KEY_U : Nat := 22
def KEY_V : Nat := 47
def KEY_W : Nat := 17
def KEY_X : Nat := 45
def KEY_Y : Nat := 21
def KEY_Z : Nat := 44
def KEY_0 : Nat := 11
def KEY_1 : Nat := 2
def KEY_2 : Nat := 3
def KEY_3 : Nat := 4
def KEY_4 : Nat := 5
def KEY_5 : Nat := 6
def KEY_6 : Nat := 7
def KEY_7 : Nat := 8
def KEY_8 : Nat := 9
def KEY_9 : Nat := 10
def KEY_NUMERIC_0 : Nat := 512
def KEY_NUMERIC_1 : Nat := 513
def KEY_NUMERIC_2 : Nat := 514
def KEY_NUMERIC_3 : Nat := 515
def KEY_NUMERIC_4 : Nat := 516
def KEY_NUMERIC_5 : Nat := 517
def KEY_NUMERIC_6 : Nat := 518
def KEY_NUMERIC_7 : Nat := 519
def KEY_NUMERIC_8 : Nat := 520
def KEY_NUMERIC_9 : Nat := 521
def KEY_KP0 : Nat := 82
def KEY_KP1 : Nat := 79
def KEY_KP2 : Nat := 80
def KEY_KP3 : Nat := 81
def KEY_KP4 : Nat := 75
def KEY_KP5 : Nat := 76
def KEY_KP6 : Nat := 77
def KEY_KP7 : Nat := 71
def KEY_KP8 : Nat := 72
def KEY_KP9 : Nat := 73
def KEY_KPASTERISK : Nat := 55
def KEY_KPDOT : Nat := 83
def KEY_KPSLASH : Nat := 98
def KEY_KPPLUS : Nat := 78
def KEY_EQUAL : Nat := 13
def KEY_COMMA : Nat := 51
def KEY_KPMINUS : Nat := 74
def KEY_MINUS : Nat := 12
def KEY_DOT : Nat := 52
def KEY_SEMICOLON : Nat := 39
def KEY_SLASH : Nat := 53
def KEY_GRAVE : Nat := 41
def KEY_LEFTBRACE : Nat := 26
def KEY_BACKSLASH : Nat := 43
def KEY_RIGHTBRACE : Nat := 27
def KEY_APOSTROPHE : Nat := 40
def KEY_LEFTSHIFT : Nat := 42
def KEY_RIGHTSHIFT : Nat := 54
def KEY_LEFTCTRL : Nat := 29
def KEY_RIGHTCTRL : Nat := 97
def KEY_LEFTMETA : Nat := 125
def KEY_RIGHTMETA : Nat := 126
def KEY_LEFTALT : Nat := 56
def KEY_RIGHTALT : Nat := 100
def KEY_PAUSE : Nat := 119
def KEY_CAPSLOCK : Nat := 58
def KEY_NUMLOCK : Nat := 69
def KEY_SCROLLLOCK : Nat := 70
def KEY_SELECT : Nat := 353
def KEY_PRINT : Nat := 210
def KEY_INSERT : Nat := 110
def KEY_HELP : Nat := 138
def KEY_MENU : Nat := 139
def KEY_FN_F1 : Nat := 466
def KEY_FN_F2 : Nat := 467
def KEY_FN_F3 : Nat := 468
def KEY_FN_F4 : Nat := 469
def KEY_FN_F5 : Nat := 470
def KEY_FN_F6 : Nat := 471
def KEY_FN_F7 : Nat := 472
def KEY_FN_F8 : Nat := 473
def KEY_FN_F9 : Nat := 474
def KEY_FN_F10 : Nat := 475
def KEY_FN_F11 : Nat := 476
def KEY_FN_F12 : Nat := 477
def KEY_BACK : Nat := 158
def KEY_FORWARD : Nat := 159
def KEY_REFRESH : Nat := 173
def KEY_STOP : Nat := 128
def KEY_SEARCH : Nat := 217
def KEY_FAVORITES : Nat := 364
def KEY_HOMEPAGE : Nat := 172
def KEY_MUTE : Nat := 113
def KEY_VOLUMEDOWN : Nat := 114
def KEY_VOLUMEUP : Nat := 115
def KEY_NEXTSONG : Nat := 163
def KEY_PREVIOUSSONG : Nat := 165
def KEY_STOPCD : Nat := 166
def KEY_PLAYPAUSE : Nat := 164
def KEY_MAIL : Nat := 155
def KEY_CALC : Nat := 140
def KEY_WLAN : Nat := 238
def KEY_POWER : Nat := 116
def KEY_BRIGHTNESSDOWN : Nat := 224
def KEY_BRIGHTNESSUP : Nat := 225
def KEY_INFO_BUTTON : Nat := 188
def KEY_REWIND : Nat := 168
def KEY_FASTFORWARD : Nat := 208
def KEY_RED : Nat := 398
def KEY_GREEN : Nat := 399
def KEY_YELLOW : Nat := 400
def KEY_BLUE : Nat := 401

/-! ## Constants of the Starboard headers

`starboard/key.h`, `starboard/input.h`, `starboard/event.h` and `starboard/time.h` are
not part of the repository; the values below are the ones these headers give. -/

/-- The type `SbKey` of `starboard/key.h`: a virtual key code. -/
abbrev SbKey := Nat

def kSbKeyUnknown : SbKey := 0
def kSbKeyBack : SbKey := 8
def kSbKeyDelete : SbKey := 46
def kSbKeyTab : SbKey := 9
def kSbKeyReturn : SbKey := 13
def kSbKeyClear : SbKey := 12
def kSbKeySpace : SbKey := 32
def kSbKeyHome : SbKey := 36
def kSbKeyEnd : SbKey := 35
def kSbKeyPrior : SbKey := 33
def kSbKeyNext : SbKey := 34
def kSbKeyLeft : SbKey := 37
def kSbKeyRight : SbKey := 39
def kSbKeyDown : SbKey := 40
def kSbKeyUp : SbKey := 38
def kSbKeyEscape : SbKey := 27
def kSbKeyKana : SbKey := 21
def kSbKeyHangul : SbKey := 21
def kSbKeyHanja : SbKey := 25
def kSbKeyConvert : SbKey := 28
def kSbKeyNonconvert : SbKey := 29
def kSbKeyDbeDbcschar : SbKey := 244
def kSbKeyA : SbKey := 65
def kSbKeyB : SbKey := 66
def kSbKeyC : SbKey := 67
def kSbKeyD : SbKey := 68
def kSbKeyE : SbKey := 69
def kSbKeyF : SbKey := 70
def kSbKeyG : SbKey := 71
def kSbKeyH : SbKey := 72
def kSbKeyI : SbKey := 73
def kSbKeyJ : SbKey := 74
def kSbKeyK : SbKey := 75
def kSbKeyL : SbKey := 76
def kSbKeyM : SbKey := 77
def kSbKeyN : SbKey := 78
def kSbKeyO : SbKey := 79
def kSbKeyP : SbKey := 80
def kSbKeyQ : SbKey := 81
def kSbKeyR : SbKey := 82
def kSbKeyS : SbKey := 83
def kSbKeyT : SbKey := 84
def kSbKeyU : SbKey := 85
def kSbKeyV : SbKey := 86
def kSbKeyW : SbKey := 87
def kSbKeyX : SbKey := 88
def kSbKeyY : SbKey := 89
def kSbKeyZ : SbKey := 90
def kSbKey0 : SbKey := 48
def kSbKey1 : SbKey := 49
def kSbKey2 : SbKey := 50
def kSbKey3 : SbKey := 51
def kSbKey4 : SbKey := 52
def kSbKey5 : SbKey := 53
def kSbKey6 : SbKey := 54
def kSbKey7 : SbKey := 55
def kSbKey8 : SbKey := 56
def kSbKey9 : SbKey := 57
def kSbKeyNumpad0 : SbKey := 96
def kSbKeyNumpad1 : SbKey := 97
def kSbKeyNumpad2 : SbKey := 98
def kSbKeyNumpad3 : SbKey := 99
def kSbKeyNumpad4 : SbKey := 100
def kSbKeyNumpad5 : SbKey := 101
def kSbKeyNumpad6 : SbKey := 102
def kSbKeyNumpad7 : SbKey := 103
def kSbKeyNumpad8 : SbKey := 104
def kSbKeyNumpad9 : SbKey := 105
def kSbKeyMultiply : SbKey := 106
def kSbKeyDecimal : SbKey := 110
def kSbKeyDivide : SbKey := 111
def kSbKeyOemPlus : SbKey := 187
def kSbKeyOemComma : SbKey := 188
def kSbKeyOemMinus : SbKey := 189
def kSbKeyOemPeriod : SbKey := 190
def kSbKeyOem1 : SbKey := 186
def kSbKeyOem2 : SbKey := 191
def kSbKeyOem3 : SbKey := 192
def kSbKeyOem4 : SbKey := 219
def kSbKeyOem5 : SbKey := 220
def kSbKeyOem6 : SbKey := 221
def kSbKeyOem7 : SbKey := 222
def kSbKeyShift : SbKey := 16
def kSbKeyControl : SbKey := 17
def kSbKeyMenu : SbKey := 18
def kSbKeyPause : SbKey := 19
def kSbKeyCapital : SbKey := 20
def kSbKeyNumlock : SbKey := 144
def kSbKeyScroll : SbKey := 145
def kSbKeySelect : SbKey := 41
def kSbKeyPrint : SbKey := 42
def kSbKeyInsert : SbKey := 45
def kSbKeyHelp : SbKey := 47
def kSbKeyApps : SbKey := 93
def kSbKeyF1 : SbKey := 112
def kSbKeyBrowserBack : SbKey := 166
def kSbKeyBrowserForward : SbKey := 167
def kSbKeyBrowserRefresh : SbKey := 168
def kSbKeyBrowserStop : SbKey := 169
def kSbKeyBrowserSearch : SbKey := 170
def kSbKeyBrowserFavorites : SbKey := 171
def kSbKeyBrowserHome : SbKey := 172
def kSbKeyVolumeMute : SbKey := 173
def kSbKeyVolumeDown : SbKey := 174
def kSbKeyVolumeUp : SbKey := 175
def kSbKeyMediaNextTrack : SbKey := 176
def kSbKeyMediaPrevTrack : SbKey := 177
def kSbKeyMediaStop : SbKey := 178
def kSbKeyMediaPlayPause : SbKey := 179
def kSbKeyMediaLaunchMail : SbKey := 180
def kSbKeyMediaLaunchApp2 : SbKey := 183
def kSbKeyWlan : SbKey := 151
def kSbKeyPower : SbKey := 152
def kSbKeyBrightnessDown : SbKey := 216
def kSbKeyBrightnessUp : SbKey := 217
def kSbKeyMediaRewind : SbKey := 227
def kSbKeyMediaFastForward : SbKey := 228
def kSbKeyRed : SbKey := 403
def kSbKeyGreen : SbKey := 404
def kSbKeyYellow : SbKey := 405
def kSbKeyBlue : SbKey := 406

/-- The type `SbKeyModifiers` of `starboard/key.h`, a bit mask. -/
abbrev SbKeyModifiers := Nat

def kSbKeyModifiersNone : SbKeyModifiers := 0
def kSbKeyModifiersAlt : SbKeyModifiers := 1
def kSbKeyModifiersCtrl : SbKeyModifiers := 2
def kSbKeyModifiersMeta : SbKeyModifiers := 4
def kSbKeyModifiersShift : SbKeyModifiers := 8

/-- The type `SbKeyLocation` of `starboard/key.h`. -/
inductive SbKeyLocation where
  | kSbKeyLocationUnspecified
  | kSbKeyLocationLeft
  | kSbKeyLocationRight
  deriving DecidableEq, Repr

/-- The type `SbInputEventType` of `starboard/input.h`. -/
inductive SbInputEventType where
  | kSbInputEventTypeMove
  | kSbInputEventTypePress
  | kSbInputEventTypeUnpress
  | kSbInputEventTypeWheel
  | kSbInputEventTypeInput
  deriving DecidableEq, Repr

/-- The type `SbInputDeviceType` of `starboard/input.h`. -/
inductive SbInputDeviceType where
  | kSbInputDeviceTypeGesture
  | kSbInputDeviceTypeGamepad
  | kSbInputDeviceTypeKeyboard
  | kSbInputDeviceTypeMouse
  | kSbInputDeviceTypeRemote
  | kSbInputDeviceTypeTouchScreen
  | kSbInputDeviceTypeTouchPad
  deriving DecidableEq, Repr

/-- The type `SbTime`: a signed count of microseconds. -/
abbrev SbTime := Int

def kSbTimeMillisecond : SbTime := 1000

/-- The type `SbEventId`: the handle of a scheduled callback. -/
abbrev SbEventId := Nat

def kSbEventIdInvalid : SbEventId := 0

/-! ## `window_internal.cc` -/

def kKeyHoldTime : SbTime := 500 * kSbTimeMillisecond
def kKeyRepeatTime : SbTime := 50 * kSbTimeMillisecond

/-- Narrowing of an `unsigned int` argument to the `uint16_t` parameter of the three
`KeyCodeTo...` functions. -/
def toUInt16 (key : Nat) : Nat := key % 65536

/-- Converts an input_event code into an SbKey (the `switch` of the source, case by
case; the final `SB_DLOG` only logs). -/
def KeyCodeToSbKey (code : Nat) : SbKey :=
  if code = KEY_BACKSPACE then kSbKeyBack
  else if code = KEY_DELETE then kSbKeyDelete
  else if code = KEY_TAB then kSbKeyTab
  else if code = KEY_LINEFEED ∨ code = KEY_ENTER ∨ code = KEY_KPENTER then kSbKeyReturn
  else if code = KEY_CLEAR then kSbKeyClear
  else if code = KEY_SPACE then kSbKeySpace
  else if code = KEY_HOME then kSbKeyHome
  else if code = KEY_END then kSbKeyEnd
  else if code = KEY_PAGEUP then kSbKeyPrior
  else if code = KEY_PAGEDOWN then kSbKeyNext
  else if code = KEY_LEFT then kSbKeyLeft
  else if code = KEY_RIGHT then kSbKeyRight
  else if code = KEY_DOWN then kSbKeyDown
  else if code = KEY_UP then kSbKeyUp
  else if code = KEY_ESC then kSbKeyEscape
  else if code = KEY_KATAKANA ∨ code = KEY_HIRAGANA ∨ code = KEY_KATAKANAHIRAGANA then kSbKeyKana
  else if code = KEY_HANGEUL then kSbKeyHangul
  else if code = KEY_HANJA then kSbKeyHanja
  else if code = KEY_HENKAN then kSbKeyConvert
  else if code = KEY_MUHENKAN then kSbKeyNonconvert
  else if code = KEY_ZENKAKUHANKAKU then kSbKeyDbeDbcschar
  else if code = KEY_A then kSbKeyA
  else if code = KEY_B then kSbKeyB
  else if code = KEY_C then kSbKeyC
  else if code = KEY_D then kSbKeyD
  else if code = KEY_E then kSbKeyE
  else if code = KEY_F then kSbKeyF
  else if code = KEY_G then kSbKeyG
  else if code = KEY_H then kSbKeyH
  else if code = KEY_I then kSbKeyI
  else if code = KEY_J then kSbKeyJ
  else if code = KEY_K then kSbKeyK
  else if code = KEY_L then kSbKeyL
  else if code = KEY_M then kSbKeyM
  else if code = KEY_N then kSbKeyN
  else if code = KEY_O then kSbKeyO
  else if code = KEY_P then kSbKeyP
  else if code = KEY_Q then kSbKeyQ
  else if code = KEY_R then kSbKeyR
  else if code = KEY_S then kSbKeyS
  else if code = KEY_T then kSbKeyT
  else if code = KEY_U then kSbKeyU
  else if code = KEY_V then kSbKeyV
  else if code = KEY_W then kSbKeyW
  else if code = KEY_X then kSbKeyX
  else if code = KEY_Y then kSbKeyY
  else if code = KEY_Z then kSbKeyZ
  else if code = KEY_0 then kSbKey0
  else if code = KEY_1 then kSbKey1
  else if code = KEY_2 then kSbKey2
  else if code = KEY_3 then kSbKey3
  else if code = KEY_4 then kSbKey4
  else if code = KEY_5 then kSbKey5
  else if code = KEY_6 then kSbKey6
  else if code = KEY_7 then kSbKey7
  else if code = KEY_8 then kSbKey8
  else if code = KEY_9 then kSbKey9
  else if code = KEY_NUMERIC_0 ∨ code = KEY_NUMERIC_1 ∨ code = KEY_NUMERIC_2 ∨ code = KEY_NUMERIC_3 ∨ code = KEY_NUMERIC_4 ∨ code = KEY_NUMERIC_5 ∨ code = KEY_NUMERIC_6 ∨ code = KEY_NUMERIC_7 ∨ code = KEY_NUMERIC_8 ∨ code = KEY_NUMERIC_9 then kSbKey0 + (code - KEY_NUMERIC_0)
  else if code = KEY_KP0 then kSbKeyNumpad0
  else if code = KEY_KP1 then kSbKeyNumpad1
  else if code = KEY_KP2 then kSbKeyNumpad2
  else if code = KEY_KP3 then kSbKeyNumpad3
  else if code = KEY_KP4 then kSbKeyNumpad4
  else if code = KEY_KP5 then kSbKeyNumpad5
  else if code = KEY_KP6 then kSbKeyNumpad6
  else if code = KEY_KP7 then kSbKeyNumpad7
  else if code = KEY_KP8 then kSbKeyNumpad8
  else if code = KEY_KP9 then kSbKeyNumpad9
  else if code = KEY_KPASTERISK then kSbKeyMultiply
  else if code = KEY_KPDOT then kSbKeyDecimal
  else if code = KEY_KPSLASH then kSbKeyDivide
  else if code = KEY_KPPLUS ∨ code = KEY_EQUAL then kSbKeyOemPlus
  else if code = KEY_COMMA then kSbKeyOemComma
  else if code = KEY_KPMINUS ∨ code = KEY_MINUS then kSbKeyOemMinus
  else if code = KEY_DOT then kSbKeyOemPeriod
  else if code = KEY_SEMICOLON then kSbKeyOem1
  else if code = KEY_SLASH then kSbKeyOem2
  else if code = KEY_GRAVE then kSbKeyOem3
  else if code = KEY_LEFTBRACE then kSbKeyOem4
  else if code = KEY_BACKSLASH then kSbKeyOem5
  else if code = KEY_RIGHTBRACE then kSbKeyOem6
  else if code = KEY_APOSTROPHE then kSbKeyOem7
  else if code = KEY_LEFTSHIFT ∨ code = KEY_RIGHTSHIFT then kSbKeyShift
  else if code = KEY_LEFTCTRL ∨ code = KEY_RIGHTCTRL then kSbKeyControl
  else if code = KEY_LEFTMETA ∨ code = KEY_RIGHTMETA ∨ code = KEY_LEFTALT ∨ code = KEY_RIGHTALT then kSbKeyMenu
  else if code = KEY_PAUSE then kSbKeyPause
  else if code = KEY_CAPSLOCK then kSbKeyCapital
  else if code = KEY_NUMLOCK then kSbKeyNumlock
  else if code = KEY_SCROLLLOCK then kSbKeyScroll
  else if code = KEY_SELECT then kSbKeySelect
  else if code = KEY_PRINT then kSbKeyPrint
  else if code = KEY_INSERT then kSbKeyInsert
  else if code = KEY_HELP then kSbKeyHelp
  else if code = KEY_MENU then kSbKeyApps
  else if code = KEY_FN_F1 ∨ code = KEY_FN_F2 ∨ code = KEY_FN_F3 ∨ code = KEY_FN_F4 ∨ code = KEY_FN_F5 ∨ code = KEY_FN_F6 ∨ code = KEY_FN_F7 ∨ code = KEY_FN_F8 ∨ code = KEY_FN_F9 ∨ code = KEY_FN_F10 ∨ code = KEY_FN_F11 ∨ code = KEY_FN_F12 then kSbKeyF1 + (code - KEY_FN_F1)
  else if code = KEY_BACK then kSbKeyBrowserBack
  else if code = KEY_FORWARD then kSbKeyBrowserForward
  else if code = KEY_REFRESH then kSbKeyBrowserRefresh
  else if code = KEY_STOP then kSbKeyBrowserStop
  else if code = KEY_SEARCH then kSbKeyBrowserSearch
  else if code = KEY_FAVORITES then kSbKeyBrowserFavorites
  else if code = KEY_HOMEPAGE then kSbKeyBrowserHome
  else if code = KEY_MUTE then kSbKeyVolumeMute
  else if code = KEY_VOLUMEDOWN then kSbKeyVolumeDown
  else if code = KEY_VOLUMEUP then kSbKeyVolumeUp
  else if code = KEY_NEXTSONG then kSbKeyMediaNextTrack
  else if code = KEY_PREVIOUSSONG then kSbKeyMediaPrevTrack
  else if code = KEY_STOPCD then kSbKeyMediaStop
  else if code = KEY_PLAYPAUSE then kSbKeyMediaPlayPause
  else if code = KEY_MAIL then kSbKeyMediaLaunchMail
  else if code = KEY_CALC then kSbKeyMediaLaunchApp2
  else if code = KEY_WLAN then kSbKeyWlan
  else if code = KEY_POWER then kSbKeyPower
  else if code = KEY_BRIGHTNESSDOWN then kSbKeyBrightnessDown
  else if code = KEY_BRIGHTNESSUP then kSbKeyBrightnessUp
  else if code = KEY_INFO_BUTTON then kSbKeyF1
  else if code = KEY_REWIND then kSbKeyMediaRewind
  else if code = KEY_FASTFORWARD then kSbKeyMediaFastForward
  else if code = KEY_RED then kSbKeyRed
  else if code = KEY_GREEN then kSbKeyGreen
  else if code = KEY_YELLOW then kSbKeyYellow
  else if code = KEY_BLUE then kSbKeyBlue
  else kSbKeyUnknown

/-- Get a SbKeyLocation from an input_event.code. -/
def KeyCodeToSbKeyLocation (code : Nat) : SbKeyLocation :=
  if code = KEY_LEFTALT ∨ code = KEY_LEFTCTRL ∨ code = KEY_LEFTMETA ∨ code = KEY_LEFTSHIFT then
    .kSbKeyLocationLeft
  else if code = KEY_RIGHTALT ∨ code = KEY_RIGHTCTRL ∨ code = KEY_RIGHTMETA
      ∨ code = KEY_RIGHTSHIFT then
    .kSbKeyLocationRight
  else .kSbKeyLocationUnspecified

/-- The modifier bit of a modifier key code, `kSbKeyModifiersNone` for any other code. -/
def KeyCodeToSbKeyModifiers (code : Nat) : SbKeyModifiers :=
  if code = KEY_LEFTCTRL ∨ code = KEY_RIGHTCTRL then kSbKeyModifiersCtrl
  else if code = KEY_LEFTSHIFT ∨ code = KEY_RIGHTSHIFT then kSbKeyModifiersShift
  else if code = KEY_LEFTALT ∨ code = KEY_RIGHTALT then kSbKeyModifiersAlt
  else if code = KEY_LEFTMETA ∨ code = KEY_RIGHTMETA then kSbKeyModifiersMeta
  else kSbKeyModifiersNone

/-- The fields of `SbInputData` that `EssInput::CreateKey` sets to a non-zero value
(`timestamp` and `window` are the clock reading and the window handle; they play no part
in key repeat and are left out). -/
structure SbInputData where
  type : SbInputEventType
  device_type : SbInputDeviceType
  device_id : Int
  key : SbKey
  key_location : SbKeyLocation
  key_modifiers : Nat
  deriving DecidableEq, Repr

/-- What `EssInput` does to its surroundings: an input event handed to
`Application::InjectInputEvent`, a callback scheduled with `SbEventSchedule` (the handle
returned and the delay asked for), a handle given to `SbEventCancel`. -/
inductive Effect where
  | inject (data : SbInputData)
  | schedule (id : SbEventId) (delay : SbTime)
  | cancel (id : SbEventId)
  deriving DecidableEq, Repr

/-- The member variables of `class EssInput` that key handling reads and writes, with
their default member initialisers as defaults. -/
structure EssInput where
  key_modifiers_ : Nat := 0
  key_repeat_key_ : Nat := 0
  key_repeat_state_ : Int := 0
  key_repeat_event_id_ : SbEventId := kSbEventIdInvalid
  key_repeat_interval_ : SbTime := kKeyHoldTime
  deriving DecidableEq, Repr

/-- An `EssInput` together with the Starboard event scheduler it talks to: the callbacks
scheduled and neither fired nor cancelled yet (`pending`, handle and delay, oldest first),
the next handle `SbEventSchedule` returns, and the record of every effect so far. -/
structure Host where
  input : EssInput := {}
  pending : List (SbEventId × SbTime) := []
  next_event_id : SbEventId := 1
  log : List Effect := []
  deriving DecidableEq, Repr

/-- `SbEventSchedule(callback, context, delay)`: a fresh handle, different from
`kSbEventIdInvalid`, and the callback becomes pending. -/
def SbEventSchedule (h : Host) (delay : SbTime) : SbEventId × Host :=
  (h.next_event_id,
    { h with
      pending := h.pending ++ [(h.next_event_id, delay)]
      next_event_id := h.next_event_id + 1
      log := h.log ++ [Effect.schedule h.next_event_id delay] })

/-- `SbEventCancel(id)`: the callback with this handle is no longer pending; nothing
happens for a handle that is not pending. -/
def SbEventCancel (h : Host) (id : SbEventId) : Host :=
  { h with
    pending := h.pending.filter (fun t => t.1 ≠ id)
    log := h.log ++ [Effect.cancel id] }

/-- The call `Application::Get()->InjectInputEvent(data)`. -/
def InjectInputEvent (h : Host) (data : SbInputData) : Host :=
  { h with log := h.log ++ [Effect.inject data] }

/-- `EssInput::DeleteRepeatKey`. -/
def EssInput.DeleteRepeatKey (h : Host) : Host :=
  let h := { h with input := { h.input with key_repeat_state_ := 0 } }
  if h.input.key_repeat_event_id_ ≠ kSbEventIdInvalid then
    let h := SbEventCancel h h.input.key_repeat_event_id_
    { h with input := { h.input with key_repeat_event_id_ := kSbEventIdInvalid } }
  else h

/-- The `switch` in `EssInput::CreateKey`, entered when Ctrl is the only modifier set:
the new values of `key` and of the local `modifiers`. -/
def remapCtrl (key : Nat) (modifiers : Nat) : Nat × Nat :=
  if key = KEY_L then (KEY_BACKSPACE, 0)
  else if key = KEY_F then (KEY_FASTFORWARD, 0)
  else if key = KEY_W then (KEY_REWIND, 0)
  else if key = KEY_P then (KEY_PLAYPAUSE, 0)
  else if key = KEY_0 then (KEY_RED, 0)
  else if key = KEY_1 then (KEY_GREEN, 0)
  else if key = KEY_2 then (KEY_YELLOW, 0)
  else if key = KEY_3 then (KEY_BLUE, 0)
  else (key, modifiers)

/-- The head of `EssInput::CreateKey`: the local `modifiers`, and the remap of `key` when
Ctrl is the only modifier set. The result is the pair of `key` and `modifiers` as the rest
of `CreateKey` sees them. -/
def remapKey (key_modifiers : Nat) (key : Nat) : Nat × Nat :=
  if key_modifiers = kSbKeyModifiersCtrl then remapCtrl key key_modifiers
  else (key, key_modifiers)

/-- The `SbInputData` that `EssInput::CreateKey` fills in, from the event type and the
pair of key code and modifiers after the remap. -/
def keyEvent (type : SbInputEventType) (km : Nat × Nat) : SbInputData :=
  { type := type
    device_type := .kSbInputDeviceTypeRemote
    device_id := 1
    key := KeyCodeToSbKey (toUInt16 km.1)
    key_location := KeyCodeToSbKeyLocation (toUInt16 km.1)
    key_modifiers := km.2 }

/-- `EssInput::CreateKey`. The parameter `key` of the source is reassigned by the remap;
here `km.1` is its value after the remap and `km.2` the local `modifiers`. -/
def EssInput.CreateKey (h : Host) (key : Nat) (type : SbInputEventType)
    (repeatable : Bool) : Host :=
  let km := remapKey h.input.key_modifiers_ key
  let h := InjectInputEvent h (keyEvent type km)
  let h := EssInput.DeleteRepeatKey h
  if repeatable = true ∧ type = .kSbInputEventTypePress then
    let h := { h with input := { h.input with key_repeat_key_ := km.1, key_repeat_state_ := 1 } }
    let r := SbEventSchedule h h.input.key_repeat_interval_
    { r.2 with input := { r.2.input with key_repeat_event_id_ := r.1 } }
  else
    { h with input := { h.input with key_repeat_interval_ := kKeyHoldTime } }

/-- `EssInput::CreateRepeatKey`, the callback that `CreateKey` schedules. -/
def EssInput.CreateRepeatKey (h : Host) : Host :=
  if h.input.key_repeat_state_ = 0 then h
  else
    let h := if h.input.key_repeat_interval_ ≠ 0 then
               { h with input := { h.input with key_repeat_interval_ := kKeyRepeatTime } }
             else h
    EssInput.CreateKey h h.input.key_repeat_key_ .kSbInputEventTypePress true

/-- `~modifiers` as a 32-bit word. -/
def not32 (m : Nat) : Nat := 4294967295 - m % 4294967296

/-- `EssInput::UpdateModifiers`: the new state and the value returned. -/
def EssInput.UpdateModifiers (h : Host) (key : Nat) (type : SbInputEventType) :
    Host × Bool :=
  let modifiers := KeyCodeToSbKeyModifiers (toUInt16 key)
  if modifiers ≠ kSbKeyModifiersNone then
    if type = .kSbInputEventTypePress then
      ({ h with input := { h.input with key_modifiers_ := h.input.key_modifiers_ ||| modifiers } },
        true)
    else
      ({ h with input :=
          { h.input with key_modifiers_ := h.input.key_modifiers_ &&& not32 modifiers } },
        true)
  else (h, false)

/-- The local `repeatable` of `EssInput::OnKeyboardHandleKey`. -/
def isRepeatable (key : Nat) (key_modifiers : Nat) : Bool :=
  (key = KEY_LEFT ∨ key = KEY_RIGHT ∨ key = KEY_UP ∨ key = KEY_DOWN) ∨
  ((key = KEY_F ∨ key = KEY_W) ∧ key_modifiers = kSbKeyModifiersCtrl)

/-- `EssInput::OnKeyboardHandleKey`. -/
def EssInput.OnKeyboardHandleKey (h : Host) (key : Nat) (type : SbInputEventType) : Host :=
  let u := EssInput.UpdateModifiers h key type
  if u.2 = true then u.1
  else
    let h := u.1
    let repeatable := isRepeatable key h.input.key_modifiers_
    if type = .kSbInputEventTypePress ∧ repeatable = true ∧ key = h.input.key_repeat_key_
        ∧ h.input.key_repeat_state_ ≠ 0 then h
    else if repeatable = true then EssInput.CreateKey h key type true
    else EssInput.CreateKey h key type false

/-- `EssInput::OnKeyPressed`. -/
def EssInput.OnKeyPressed (h : Host) (key : Nat) : Host :=
  EssInput.OnKeyboardHandleKey h key .kSbInputEventTypePress

/-- `EssInput::OnKeyReleased`. -/
def EssInput.OnKeyReleased (h : Host) (key : Nat) : Host :=
  EssInput.OnKeyboardHandleKey h key .kSbInputEventTypeUnpress

/-- What can happen to an `EssInput`: the two key notifications of Essos, and the
scheduler running the callback of a pending handle. -/
inductive Input where
  | keyPressed (key : Nat)
  | keyReleased (key : Nat)
  | timerFired (id : SbEventId)
  deriving DecidableEq, Repr

/-- The scheduler runs the callback scheduled under `id`: a one-shot, so it stops being
pending and `CreateRepeatKey` runs. A handle that is not pending cannot fire. -/
def fireTimer (h : Host) (id : SbEventId) : Host :=
  if h.pending.any (fun t => t.1 = id) then
    EssInput.CreateRepeatKey { h with pending := h.pending.filter (fun t => t.1 ≠ id) }
  else h

/-- One input. -/
def step (h : Host) : Input → Host
  | .keyPressed key => EssInput.OnKeyPressed h key
  | .keyReleased key => EssInput.OnKeyReleased h key
  | .timerFired id => fireTimer h id

/-- A sequence of inputs, in order. -/
def run (h : Host) (inputs : List Input) : Host := inputs.foldl step h

/-- A freshly constructed `EssInput`, nothing scheduled. -/
def Host.fresh : Host := {}

/-- The states that some sequence of inputs leads to from a fresh `EssInput`. -/
def Reachable (h : Host) : Prop := ∃ inputs : List Input, run Host.fresh inputs = h

/-- The scheduler runs the callback that is pending, the oldest one if there are
several; nothing happens when none is. -/
def fireScheduled (h : Host) : Host :=
  match h.pending with
  | [] => h
  | t :: _ => step h (.timerFired t.1)

/-- A press of `key` on a fresh `EssInput`, then `n` firings of the pending callback and
no other input. -/
def holdKey (key : Nat) : Nat → Host
  | 0 => step Host.fresh (.keyPressed key)
  | n + 1 => fireScheduled (holdKey key n)

/-- The input events in a record of effects, in order. -/
def injected : List Effect → List SbInputData
  | [] => []
  | .inject d :: es => d :: injected es
  | _ :: es => injected es

/-- The delays of the callbacks scheduled in a record of effects, in order. -/
def scheduledDelays : List Effect → List SbTime
  | [] => []
  | .schedule _ d :: es => d :: scheduledDelays es
  | _ :: es => scheduledDelays es

/-- The effects that one input adds to the record. -/
def emitted (h : Host) (i : Input) : List Effect := (step h i).log.drop h.log.length

/-- The four directional keys. -/
def isDirectional (key : Nat) : Prop :=
  key = KEY_LEFT ∨ key = KEY_RIGHT ∨ key = KEY_UP ∨ key = KEY_DOWN

instance (key : Nat) : Decidable (isDirectional key) := by
  unfold isDirectional; infer_instance

/-- The key codes that `CreateKey` can have left in `key_repeat_key_`: the initial 0, a
directional key, or the code a repeatable chord was remapped to. -/
def storedKey (k : Nat) : Prop :=
  k = 0 ∨ k = KEY_LEFT ∨ k = KEY_RIGHT ∨ k = KEY_UP ∨ k = KEY_DOWN ∨ k = KEY_FASTFORWARD
    ∨ k = KEY_REWIND

/-- What holds of every state a fresh `EssInput` can reach: when idle nothing is pending
and the next delay is the hold time; when armed exactly the callback of
`key_repeat_event_id_` is pending. -/
structure Inv (h : Host) : Prop where
  idle : h.input.key_repeat_state_ = 0 →
    h.input.key_repeat_event_id_ = kSbEventIdInvalid ∧ h.pending = [] ∧
      h.input.key_repeat_interval_ = kKeyHoldTime
  armed : h.input.key_repeat_state_ ≠ 0 →
    h.input.key_repeat_state_ = 1 ∧ h.input.key_repeat_event_id_ ≠ kSbEventIdInvalid ∧
      h.pending = [(h.input.key_repeat_event_id_, h.input.key_repeat_interval_)]
  stored : storedKey h.input.key_repeat_key_
  next_pos : h.next_event_id ≠ kSbEventIdInvalid
  below : h.input.key_repeat_event_id_ < h.next_event_id
  interval : h.input.key_repeat_interval_ = kKeyHoldTime ∨
    h.input.key_repeat_interval_ = kKeyRepeatTime

/-- The code that `CreateKey` stores in `key_repeat_key_` for a repeatable key: the code
itself for a directional key, the remapped code for the chord keys F and W. -/
def storedCode (key : Nat) : Nat :=
  if key = KEY_F then KEY_FASTFORWARD else if key = KEY_W then KEY_REWIND else key

/-- The `key` is the one armed or repeating: the repeat state is not idle and
`key_repeat_key_` holds its code, or the code its chord was remapped to. -/
def armedFor (h : Host) (key : Nat) : Prop :=
  h.input.key_repeat_state_ ≠ 0 ∧
    (h.input.key_repeat_key_ = key ∨
      (key = KEY_F ∧ h.input.key_repeat_key_ = KEY_FASTFORWARD) ∨
      (key = KEY_W ∧ h.input.key_repeat_key_ = KEY_REWIND))

/-- The effects of `DeleteRepeatKey`: the cancellation of the handle held, if one is. -/
def cancelLog (h : Host) : List Effect :=
  if h.input.key_repeat_event_id_ ≠ kSbEventIdInvalid then
    [Effect.cancel h.input.key_repeat_event_id_] else []

/-- The callbacks still pending after `DeleteRepeatKey`. -/
def pendingAfterDelete (h : Host) : List (SbEventId × SbTime) :=
  if h.input.key_repeat_event_id_ ≠ kSbEventIdInvalid then
    h.pending.filter (fun t => t.1 ≠ h.input.key_repeat_event_id_) else h.pending

/-! ## `libcobalt.cc` -/

/-- The type `SbRdkCallbackFunc`, `int (*)(void*)`: a function pointer is its address,
0 for `nullptr`. What calling it returns is a parameter of the operations that call. -/
abbrev SbRdkCallbackFunc := Nat

/-- The member variables of `struct APIContext` other than the mutex and the condition
variable, with their default member initialisers. Pointers are addresses, 0 for
`nullptr`. -/
structure APIContext where
  running_ : Bool := false
  stop_request_cb_ : SbRdkCallbackFunc := 0
  stop_request_cb_data_ : Nat := 0
  conceal_request_cb_ : SbRdkCallbackFunc := 0
  conceal_request_cb_data_ : Nat := 0
  exit_strategy_ : String := "stop"
  deriving DecidableEq, Repr

/-- The member functions of the Starboard `Application` that `APIContext` calls. -/
inductive AppCall where
  | Freeze
  | Suspend
  | Focus
  | Unpause
  | Blur
  | Pause
  | Conceal
  | Link (link : Option String)
  | Stop (error_level : Int)
  deriving DecidableEq, Repr

/-- One call into the application: the member function and the `context` argument passed
with the completion callback. The only callback `APIContext` ever passes is the one that
does `Put` on the semaphore `context` points to, and that semaphore is a local of the
calling thread, so `context` is the calling thread; `none` is `NULL, NULL`, or a call that
takes no callback. -/
structure AppEvent where
  call : AppCall
  context : Option Nat
  deriving DecidableEq, Repr

/-- What a run of an `APIContext` operation does that can be seen from outside: a
registered callback invoked with its user data, the entry into `RequestQuit`, a call
into the application. -/
inductive Obs where
  | callback (cb : SbRdkCallbackFunc) (user_data : Nat)
  | RequestQuit
  | app (e : AppEvent)
  deriving DecidableEq, Repr

/-- `APIContext::RequestQuit`, run to completion under its lock. -/
def APIContext.RequestQuit (c : APIContext) : APIContext × List Obs :=
  let c := { c with stop_request_cb_ := 0, stop_request_cb_data_ := 0 }
  if c.running_ = true then
    (c, [Obs.RequestQuit, Obs.app { call := .Stop 0, context := none }])
  else (c, [Obs.RequestQuit])

/-- `APIContext::SetStopRequestHandler`. -/
def APIContext.SetStopRequestHandler (c : APIContext) (cb : SbRdkCallbackFunc)
    (user_data : Nat) : APIContext :=
  { c with stop_request_cb_ := cb, stop_request_cb_data_ := user_data }

/-- `APIContext::RequestStop`, with no other thread interleaved; `invoke cb user_data`
is what the call `cb(user_data)` returns. -/
def APIContext.RequestStop (invoke : SbRdkCallbackFunc → Nat → Int) (c : APIContext) :
    APIContext × List Obs :=
  let cb := c.stop_request_cb_
  let user_data := c.stop_request_cb_data_
  let r : Int × List Obs :=
    if cb ≠ 0 then (invoke cb user_data, [Obs.callback cb user_data]) else (1, [])
  if r.1 ≠ 0 then
    let q := APIContext.RequestQuit c
    (q.1, r.2 ++ q.2)
  else (c, r.2)

/-- The invocations of registered callbacks in a record, in order. -/
def callbacks : List Obs → List (SbRdkCallbackFunc × Nat)
  | [] => []
  | .callback cb d :: os => (cb, d) :: callbacks os
  | _ :: os => callbacks os

/-- The calls into the application in a record, in order. -/
def appCalls : List Obs → List AppEvent
  | [] => []
  | .app e :: os => e :: appCalls os
  | _ :: os => appCalls os

/-! ### Caller threads and the run loop

The blocking operations of `APIContext` as a transition system: every step is one thread
passing one synchronisation point of the source. -/

/-- The operations of `APIContext` that go through `WaitForApp`. -/
inductive BlockingOp where
  | SendLink (link : Option String)
  | RequestSuspend
  | RequestResume
  | RequestPause
  | RequestUnpause
  deriving DecidableEq, Repr

/-- The four operations that pass a semaphore and wait on it; `SendLink` does not. -/
def BlockingOp.usesSemaphore : BlockingOp → Bool
  | .SendLink _ => false
  | _ => true

/-- The member function of the application that an operation calls, under
`SB_API_VERSION >= 13` and otherwise. -/
def transitionOf (sb_api_version : Nat) : BlockingOp → AppCall
  | .SendLink link => .Link link
  | .RequestSuspend => if sb_api_version ≥ 13 then .Freeze else .Suspend
  | .RequestResume => if sb_api_version ≥ 13 then .Focus else .Unpause
  | .RequestPause => if sb_api_version ≥ 13 then .Blur else .Pause
  | .RequestUnpause => if sb_api_version ≥ 13 then .Focus else .Unpause

/-- Where a caller thread stands in a blocking operation:
`lockWait` at the constructor of the `ScopedLock`; `atTest` at the test of the `while` in
`WaitForApp`; `condWait` inside `condition_.Wait()`, asleep; `condWake` inside
`condition_.Wait()`, woken and waiting for the mutex; `ready` after `WaitForApp`, before
the call into the application; `take` at `sem.Take()`; `done` returned. -/
inductive Pc where
  | lockWait
  | atTest
  | condWait
  | condWake
  | ready
  | take
  | done
  deriving DecidableEq, Repr

/-- A caller thread inside one blocking operation; `sem` is the count of its local
`starboard::Semaphore`. -/
structure Thread where
  op : BlockingOp
  pc : Pc
  sem : Nat
  deriving DecidableEq, Repr

/-- Where the run-loop thread stands: in its loop, or at the `ScopedLock` of
`OnInitialize` or of `OnTeardown`. -/
inductive RunLoopPc where
  | idle
  | onInit
  | onTeardown
  deriving DecidableEq, Repr

/-- The `APIContext`; the caller thread that holds `mutex_` inside a blocking operation
(the run-loop thread and the operations that do not block hold it within one step only);
the caller threads (a thread is named by its position); and the application: the events
handed to it and not yet dispatched, the events the run loop has dispatched,
`Application::Get() != nullptr`, and `SB_API_VERSION`. -/
structure Sys where
  ctx : APIContext := {}
  mutex_ : Option Nat := none
  threads : List Thread := []
  queue : List AppEvent := []
  handled : List AppEvent := []
  runloop : RunLoopPc := .idle
  application : Bool := true
  sb_api_version : Nat := 13
  deriving DecidableEq, Repr

/-- The steps of the system. `call`: a new thread enters a blocking operation.
`acquire`: a thread gets `mutex_` (in the `ScopedLock`, or coming back from
`condition_.Wait()`). `test`: the `while` test of `WaitForApp`. `wake`: a thread asleep in
`condition_.Wait()` wakes without a broadcast. `submit`: the call into the application.
`takeSem`: `sem.Take()` goes through and the operation returns. `beginInit`,
`beginTeardown`: the run-loop thread calls `OnInitialize`, `OnTeardown`. `enter`: it gets
the mutex and runs the body. `dispatch`: the run loop handles the oldest event and then
runs its completion callback. The rest are the operations that do not block, each in one
step: `quit` is `RequestQuit` (also at the end of `RequestStop`), `conceal` the call into
the application at the end of `RequestConceal`. -/
inductive Action where
  | call (op : BlockingOp)
  | acquire (tid : Nat)
  | test (tid : Nat)
  | wake (tid : Nat)
  | submit (tid : Nat)
  | takeSem (tid : Nat)
  | beginInit
  | beginTeardown
  | enter
  | dispatch
  | quit
  | setStopRequestHandler (cb : SbRdkCallbackFunc) (user_data : Nat)
  | setConcealRequestHandler (cb : SbRdkCallbackFunc) (user_data : Nat)
  | conceal
  | setCobaltExitStrategy (strategy : String)
  deriving DecidableEq, Repr

/-- The event an operation of thread `tid` hands to the application: with the thread's
semaphore as context when the operation passes one. -/
def eventOf (sb_api_version : Nat) (tid : Nat) (op : BlockingOp) : AppEvent :=
  { call := transitionOf sb_api_version op
    context := if op.usesSemaphore = true then some tid else none }

/-- `condition_.Broadcast()`: every thread asleep in `condition_.Wait()` is woken. -/
def broadcast (threads : List Thread) : List Thread :=
  threads.map (fun th => if th.pc = .condWait then { th with pc := .condWake } else th)

/-- `Put` on the semaphore an event carries, if it carries one. -/
def putSemaphore (threads : List Thread) : Option Nat → List Thread
  | none => threads
  | some tid =>
    match threads[tid]? with
    | none => threads
    | some th => threads.set tid { th with sem := th.sem + 1 }

/-- `APIContext::SetConcealRequestHandler`. -/
def APIContext.SetConcealRequestHandler (c : APIContext) (cb : SbRdkCallbackFunc)
    (user_data : Nat) : APIContext :=
  { c with conceal_request_cb_ := cb, conceal_request_cb_data_ := user_data }

/-- `APIContext::SetCobaltExitStrategy`; `strncmp(strategy, "suspend", 7) == 0` says that
`strategy` begins with `suspend`. -/
def APIContext.SetCobaltExitStrategy (c : APIContext) (strategy : String) : APIContext :=
  if c.running_ = true then c
  else if "suspend".toList.isPrefixOf strategy.toList = true then
    { c with exit_strategy_ := "suspend" }
  else if "noexit".toList.isPrefixOf strategy.toList = true then
    { c with exit_strategy_ := "noexit" }
  else { c with exit_strategy_ := "stop" }

/-- `APIContext::GetCobaltExitStrategy`. -/
def APIContext.GetCobaltExitStrategy (c : APIContext) : String := c.exit_strategy_

/-- The call into the application at the end of `APIContext::RequestConceal`. -/
def concealEvent (sb_api_version : Nat) : AppEvent :=
  { call := if sb_api_version ≥ 13 then .Conceal else .Suspend, context := none }

/-- One step of a caller thread `th` named `tid`; `none` when the thread cannot take the
step where it stands. -/
def Sys.threadStep (s : Sys) (tid : Nat) (th : Thread) : Action → Option Sys
  | .acquire _ =>
    -- `starboard::ScopedLock lock(mutex_)`, or the re-acquisition at the end of `Wait()`
    if (th.pc = .lockWait ∨ th.pc = .condWake) ∧ s.mutex_ = none then
      some { s with mutex_ := some tid
                    threads := s.threads.set tid { th with pc := .atTest } }
    else none
  | .test _ =>
    -- `while ( running_ == false ) condition_.Wait();`
    if th.pc = .atTest then
      if s.ctx.running_ = false then
        some { s with mutex_ := none
                      threads := s.threads.set tid { th with pc := .condWait } }
      else some { s with threads := s.threads.set tid { th with pc := .ready } }
    else none
  | .wake _ =>
    if th.pc = .condWait then
      some { s with threads := s.threads.set tid { th with pc := .condWake } }
    else none
  | .submit _ =>
    -- `starboard::Semaphore sem; Application::Get()->Freeze(&sem, ...)`, or `Link(link)`
    -- followed by the return
    if th.pc = .ready then
      if th.op.usesSemaphore = true then
        some { s with queue := s.queue ++ [eventOf s.sb_api_version tid th.op]
                      threads := s.threads.set tid { th with pc := .take, sem := 0 } }
      else
        some { s with queue := s.queue ++ [eventOf s.sb_api_version tid th.op]
                      mutex_ := none
                      threads := s.threads.set tid { th with pc := .done } }
    else none
  | .takeSem _ =>
    -- `sem.Take();` and the return, which releases the `ScopedLock`
    if th.pc = .take ∧ 0 < th.sem then
      some { s with mutex_ := none
                    threads := s.threads.set tid { th with pc := .done, sem := th.sem - 1 } }
    else none
  | _ => none

/-- One step of the system; `none` when the step is not possible in this state. -/
def Sys.step (s : Sys) : Action → Option Sys
  | .call op => some { s with threads := s.threads ++ [{ op := op, pc := .lockWait, sem := 0 }] }
  | .acquire tid => (s.threads[tid]?).bind (fun th => s.threadStep tid th (.acquire tid))
  | .test tid => (s.threads[tid]?).bind (fun th => s.threadStep tid th (.test tid))
  | .wake tid => (s.threads[tid]?).bind (fun th => s.threadStep tid th (.wake tid))
  | .submit tid => (s.threads[tid]?).bind (fun th => s.threadStep tid th (.submit tid))
  | .takeSem tid => (s.threads[tid]?).bind (fun th => s.threadStep tid th (.takeSem tid))
  | .beginInit =>
    if s.runloop = .idle then some { s with runloop := .onInit } else none
  | .beginTeardown =>
    if s.runloop = .idle then some { s with runloop := .onTeardown } else none
  | .enter =>
    if s.mutex_ = none then
      match s.runloop with
      | .idle => none
      | .onInit =>
        -- `running_ = (nullptr != Application::Get()); condition_.Broadcast();`
        some { s with ctx := { s.ctx with running_ := s.application }
                      threads := broadcast s.threads
                      runloop := .idle }
      | .onTeardown =>
        -- `running_ = false;`
        some { s with ctx := { s.ctx with running_ := false }, runloop := .idle }
    else none
  | .dispatch =>
    if s.runloop = .idle then
      match s.queue with
      | [] => none
      | e :: rest =>
        some { s with queue := rest
                      handled := s.handled ++ [e]
                      threads := putSemaphore s.threads e.context }
    else none
  | .quit =>
    if s.mutex_ = none then
      some { s with ctx := (APIContext.RequestQuit s.ctx).1
                    queue := s.queue ++ appCalls (APIContext.RequestQuit s.ctx).2 }
    else none
  | .setStopRequestHandler cb user_data =>
    if s.mutex_ = none then
      some { s with ctx := APIContext.SetStopRequestHandler s.ctx cb user_data }
    else none
  | .setConcealRequestHandler cb user_data =>
    if s.mutex_ = none then
      some { s with ctx := APIContext.SetConcealRequestHandler s.ctx cb user_data }
    else none
  | .conceal => some { s with queue := s.queue ++ [concealEvent s.sb_api_version] }
  | .setCobaltExitStrategy strategy =>
    some { s with ctx := APIContext.SetCobaltExitStrategy s.ctx strategy }

/-- A sequence of steps, in order; `none` as soon as one is not possible. -/
def Sys.exec (s : Sys) : List Action → Option Sys
  | [] => some s
  | a :: as => (s.step a).bind (fun s' => s'.exec as)

/-- The states some sequence of steps leads to from the initial state, for any
`SB_API_VERSION` and whether or not the application object exists. -/
def Sys.Reachable (s : Sys) : Prop :=
  ∃ (application : Bool) (sb_api_version : Nat) (as : List Action),
    Sys.exec { application := application, sb_api_version := sb_api_version } as = some s

/-- What holds of every reachable state of the system: a thread between the lock and the
return holds `mutex_`; a thread past `WaitForApp` has seen `running_` true, and it still
is; an event that carries a semaphore is the event of the thread that owns it; and a
semaphore has a permit, and an operation that waits on one has returned, only when the
run loop has dispatched the event of that thread. -/
structure Sys.Inv (s : Sys) : Prop where
  holds : ∀ (tid : Nat) (th : Thread), s.threads[tid]? = some th →
    (th.pc = .atTest ∨ th.pc = .ready ∨ th.pc = .take) → s.mutex_ = some tid
  running : ∀ (tid : Nat) (th : Thread), s.threads[tid]? = some th → th.pc = .ready → s.ctx.running_ = true
  queued : ∀ e ∈ s.queue, ∀ tid : Nat, e.context = some tid →
    ∃ th, s.threads[tid]? = some th ∧ e = eventOf s.sb_api_version tid th.op
  put : ∀ (tid : Nat) (th : Thread), s.threads[tid]? = some th → 0 < th.sem →
    eventOf s.sb_api_version tid th.op ∈ s.handled
  returned : ∀ (tid : Nat) (th : Thread), s.threads[tid]? = some th → th.pc = .done →
    th.op.usesSemaphore = true → eventOf s.sb_api_version tid th.op ∈ s.handled

/-- A thread is inside `WaitForApp`. -/
def Pc.inWaitForApp (pc : Pc) : Prop := pc = .atTest ∨ pc = .condWait ∨ pc = .condWake

/-- The run in which `RequestSuspend` is called before the run loop is ready: the caller
goes to sleep in `WaitForApp`, the run loop runs `OnInitialize`, the caller wakes, hands
over the transition and waits; the run loop dispatches it, and the caller returns. -/
def suspendBeforeReady : List Action :=
  [.call .RequestSuspend, .acquire 0, .test 0, .beginInit, .enter, .acquire 0, .test 0,
   .submit 0, .dispatch, .takeSem 0]

/-- The state at the end of `suspendBeforeReady`. -/
def suspendReturned : Sys :=
  { ctx := { running_ := true }
    threads := [{ op := .RequestSuspend, pc := .done, sem := 0 }]
    handled := [{ call := .Freeze, context := some 0 }] }

/-- The state of `suspendBeforeReady` in which the caller has passed `WaitForApp` and is
about to call into the application. -/
def suspendReady : Sys :=
  { ctx := { running_ := true }
    mutex_ := some 0
    threads := [{ op := .RequestSuspend, pc := .ready, sem := 0 }] }

/-! ### The operations of `APIContext` one after the other -/

/-- `APIContext::OnInitialize`; `application` is `nullptr != Application::Get()`. The
broadcast wakes waiting threads and changes no member variable. -/
def APIContext.OnInitialize (c : APIContext) (application : Bool) : APIContext :=
  { c with running_ := application }

/-- `APIContext::OnTeardown`. -/
def APIContext.OnTeardown (c : APIContext) : APIContext :=
  { c with running_ := false }

/-- `APIContext::RequestConceal`, with no other thread interleaved; `invoke cb user_data`
is what the call `cb(user_data)` returns. The function takes no lock around the call into
the application, does not look at `running_` and has no semaphore. -/
def APIContext.RequestConceal (sb_api_version : Nat)
    (invoke : SbRdkCallbackFunc → Nat → Int) (c : APIContext) : APIContext × List Obs :=
  let cb := c.conceal_request_cb_
  let user_data := c.conceal_request_cb_data_
  let r : Int × List Obs :=
    if cb ≠ 0 then (invoke cb user_data, [Obs.callback cb user_data]) else (1, [])
  if r.1 ≠ 0 then (c, r.2 ++ [Obs.app (concealEvent sb_api_version)])
  else (c, r.2)

/-- A call of one operation of `APIContext`. The five blocking operations are the ones
of `BlockingOp`; `OnInitialize` comes with the value of `nullptr != Application::Get()`. -/
inductive ApiOp where
  | OnInitialize (application : Bool)
  | OnTeardown
  | blocking (op : BlockingOp)
  | RequestQuit
  | SetStopRequestHandler (cb : SbRdkCallbackFunc) (user_data : Nat)
  | RequestStop
  | SetConcealRequestHandler (cb : SbRdkCallbackFunc) (user_data : Nat)
  | RequestConceal
  | SetCobaltExitStrategy (strategy : String)
  deriving DecidableEq, Repr

/-- The member variables after one operation has run with no other thread interleaved.
A blocking operation writes no member variable, whether or not it gets to return. -/
def APIContext.apply (sb_api_version : Nat) (invoke : SbRdkCallbackFunc → Nat → Int)
    (c : APIContext) : ApiOp → APIContext
  | .OnInitialize application => c.OnInitialize application
  | .OnTeardown => c.OnTeardown
  | .blocking _ => c
  | .RequestQuit => c.RequestQuit.1
  | .SetStopRequestHandler cb user_data => c.SetStopRequestHandler cb user_data
  | .RequestStop => (APIContext.RequestStop invoke c).1
  | .SetConcealRequestHandler cb user_data => c.SetConcealRequestHandler cb user_data
  | .RequestConceal => (APIContext.RequestConceal sb_api_version invoke c).1
  | .SetCobaltExitStrategy strategy => c.SetCobaltExitStrategy strategy

/-- A sequence of operations, in order. -/
def APIContext.run (sb_api_version : Nat) (invoke : SbRdkCallbackFunc → Nat → Int)
    (c : APIContext) (ops : List ApiOp) : APIContext :=
  ops.foldl (APIContext.apply sb_api_version invoke) c

/-- The stop override a context holds: callback and user data. -/
def APIContext.stopOverride (c : APIContext) : SbRdkCallbackFunc × Nat :=
  (c.stop_request_cb_, c.stop_request_cb_data_)

/-- The conceal override a context holds: callback and user data. -/
def APIContext.concealOverride (c : APIContext) : SbRdkCallbackFunc × Nat :=
  (c.conceal_request_cb_, c.conceal_request_cb_data_)

/-- The arguments of the most recent `SetConcealRequestHandler` call in a sequence of
operations, `start` when there is none: the conceal override as the interface table
describes it (replaced by the setter, last write wins). -/
def lastConcealHandler (start : SbRdkCallbackFunc × Nat) :
    List ApiOp → SbRdkCallbackFunc × Nat
  | [] => start
  | .SetConcealRequestHandler cb user_data :: ops => lastConcealHandler (cb, user_data) ops
  | _ :: ops => lastConcealHandler start ops

/-- An operation that writes the stop override: the setter, `RequestQuit`, and
`RequestStop`, which may end in `RequestQuit`. -/
def ApiOp.touchesStopOverride : ApiOp → Bool
  | .SetStopRequestHandler _ _ => true
  | .RequestQuit => true
  | .RequestStop => true
  | _ => false

/-- The operations that write `running_`. -/
def ApiOp.writesRunning : ApiOp → Bool
  | .OnInitialize _ => true
  | .OnTeardown => true
  | _ => false

/-! ## `application_rdk.cc` -/

/-- The period of the display-drive action, in microseconds. -/
def kEssRunLoopPeriod : SbTime := 16666

/-- One second in `SbTime`, from `starboard/time.h`. -/
def kSbTimeSecond : SbTime := 1000000

/-- Nanoseconds in a microsecond, from `starboard/time.h`. -/
def kSbTimeNanosecondsPerMicrosecond : SbTime := 1000

/-- The event bit `POLLIN` of `poll.h`. -/
def POLLIN : Nat := 1

/-- Modelled from the spec: the class `HangMonitor` is not under src/. `Reset()` records
that the run loop is alive, counted here; `GetResetInterval()` returns the configured
period. -/
structure HangMonitor where
  reset_interval : SbTime
  resets : Nat := 0
  deriving DecidableEq, Repr

/-- `HangMonitor::Reset`. -/
def HangMonitor.Reset (m : HangMonitor) : HangMonitor := { m with resets := m.resets + 1 }

/-- `HangMonitor::GetResetInterval`. -/
def HangMonitor.GetResetInterval (m : HangMonitor) : SbTime := m.reset_interval

/-- The member variables of `Application` that the event loop uses: the three descriptors,
the `unique_ptr` to the hang monitor (`none` for null) and the time of the last
display-drive action. -/
structure Application where
  ess_timer_fd_ : Int
  wakeup_fd_ : Int
  monitor_timer_fd_ : Int
  hang_monitor_ : Option HangMonitor
  ess_loop_last_ts_ : SbTime
  deriving DecidableEq, Repr

/-- A `struct timespec`. -/
structure Timespec where
  tv_sec : Int
  tv_nsec : Int
  deriving DecidableEq, Repr

/-- A `struct pollfd`. -/
structure PollFd where
  fd : Int
  events : Nat
  revents : Nat
  deriving DecidableEq, Repr

/-- What the event loop does to its surroundings. -/
inductive AppEffect where
  | timerfd_settime (fd : Int) (it_value it_interval : Timespec)
  | ppoll (fds : List PollFd) (timeout : Timespec)
  | read (fd : Int)
  | HangMonitorReset
  | EssContextRunEventLoopOnce
  | SbAudioSinkInitialize
  | libcobaltInitialize
  deriving DecidableEq, Repr

/-- The `timespec` of a duration in microseconds, as `setTimerInterval` and
`WaitForSystemEventWithTimeout` compute it; `/` and `%` of C truncate towards zero. -/
def toTimespec (time : SbTime) : Timespec :=
  { tv_sec := Int.tdiv time kSbTimeSecond
    tv_nsec := Int.tmod time kSbTimeSecond * kSbTimeNanosecondsPerMicrosecond }

/-- The static function `setTimerInterval`: the `timerfd_settime` call it makes (the
result of the call is only logged). -/
def setTimerInterval (fd : Int) (time : SbTime) : AppEffect :=
  .timerfd_settime fd (toTimespec time) (toTimespec time)

/-- `Application::Initialize`, given what `eventfd` and the two `timerfd_create` calls
return. `none` stands for the dereference of a null `hang_monitor_`. -/
def Application.Initialize (a : Application) (eventfd_result : Int)
    (ess_timerfd_result : Int) (monitor_timerfd_result : Int) :
    Option (Application × List AppEffect) :=
  let a := { a with wakeup_fd_ := eventfd_result }
  let a := { a with ess_timer_fd_ := ess_timerfd_result }
  let e1 :=
    if a.ess_timer_fd_ = -1 then [] else [setTimerInterval a.ess_timer_fd_ kEssRunLoopPeriod]
  let a := { a with monitor_timer_fd_ := monitor_timerfd_result }
  if a.monitor_timer_fd_ = -1 then
    some ({ a with hang_monitor_ := none },
      e1 ++ [.SbAudioSinkInitialize, .libcobaltInitialize])
  else
    match a.hang_monitor_ with
    | none => none
    | some m =>
      some (a, e1 ++ [setTimerInterval a.monitor_timer_fd_ m.GetResetInterval,
        .SbAudioSinkInitialize, .libcobaltInitialize])

/-- `Application::PollNextSystemEvent`, given the reading of the monotonic clock. Clock
readings are non-negative and far below `2^63`, so the subtraction is the exact one. -/
def Application.PollNextSystemEvent (a : Application) (now : SbTime) :
    Application × List AppEffect :=
  if now - a.ess_loop_last_ts_ > kEssRunLoopPeriod then
    ({ a with ess_loop_last_ts_ := now }, [.EssContextRunEventLoopOnce])
  else (a, [])

/-- The array `fds` that `WaitForSystemEventWithTimeout` fills before the poll: an entry
for each descriptor that is not negative, in the order display-drive timer, wakeup
signal, heartbeat timer. Its length is `fds_sz`. -/
def Application.pollSet (a : Application) : List PollFd :=
  (if ¬ (a.ess_timer_fd_ < 0) then
      [{ fd := a.ess_timer_fd_, events := POLLIN, revents := 0 }] else []) ++
  (if ¬ (a.wakeup_fd_ < 0) then
      [{ fd := a.wakeup_fd_, events := POLLIN, revents := 0 }] else []) ++
  (if ¬ (a.monitor_timer_fd_ < 0) then
      [{ fd := a.monitor_timer_fd_, events := POLLIN, revents := 0 }] else [])

/-- What `ppoll` reports: the value returned and the `revents` it has written, entry by
entry (an entry it has not written keeps 0). -/
structure PollResult where
  rc : Int
  revents : List Nat
  deriving DecidableEq, Repr

/-- The array `fds` after the poll. -/
def writeRevents : List PollFd → List Nat → List PollFd
  | [], _ => []
  | p :: ps, [] => p :: writeRevents ps []
  | p :: ps, r :: rs => { p with revents := r } :: writeRevents ps rs

/-- The `for` loop of `WaitForSystemEventWithTimeout` over the entries of `fds`: an entry
without `POLLIN` is skipped; the others are read, and the hang monitor is reset for the
entry of the heartbeat timer. `none` stands for the dereference of a null
`hang_monitor_`. -/
def Application.drain : Application → List PollFd → Option (Application × List AppEffect)
  | a, [] => some (a, [])
  | a, p :: ps =>
    if p.revents &&& POLLIN ≠ POLLIN then Application.drain a ps
    else if p.fd = a.monitor_timer_fd_ then
      match a.hang_monitor_ with
      | none => none
      | some m =>
        match Application.drain { a with hang_monitor_ := some m.Reset } ps with
        | none => none
        | some r => some (r.1, [AppEffect.read p.fd, AppEffect.HangMonitorReset] ++ r.2)
    else
      match Application.drain a ps with
      | none => none
      | some r => some (r.1, [AppEffect.read p.fd] ++ r.2)

/-- `Application::WaitForSystemEventWithTimeout`; `ppoll` says what the poll reports for
the array and the timeout it is given. -/
def Application.WaitForSystemEventWithTimeout (a : Application)
    (ppoll : List PollFd → Timespec → PollResult) (time : SbTime) :
    Option (Application × List AppEffect) :=
  let fds := a.pollSet
  if fds.length ≠ 0 then
    let timeout := toTimespec time
    let r := ppoll fds timeout
    if r.rc > 0 then
      match a.drain (writeRevents fds r.revents) with
      | none => none
      | some d => some (d.1, [AppEffect.ppoll fds timeout] ++ d.2)
    else some (a, [AppEffect.ppoll fds timeout])
  else some (a, [])

/-- A sequence of `WaitForSystemEventWithTimeout` calls, each with what its poll reports
and its timeout. -/
def Application.waitAll (a : Application) :
    List ((List PollFd → Timespec → PollResult) × SbTime) →
      Option (Application × List AppEffect)
  | [] => some (a, [])
  | w :: ws =>
    match a.WaitForSystemEventWithTimeout w.1 w.2 with
    | none => none
    | some r =>
      match r.1.waitAll ws with
      | none => none
      | some r' => some (r'.1, r.2 ++ r'.2)

/-- A sequence of `PollNextSystemEvent` calls with the given clock readings: the readings
at which the display-drive action was invoked, in order. -/
def Application.driveTimes (a : Application) : List SbTime → List SbTime
  | [] => []
  | now :: rest =>
    if (a.PollNextSystemEvent now).2 = [] then (a.PollNextSystemEvent now).1.driveTimes rest
    else now :: (a.PollNextSystemEvent now).1.driveTimes rest

/-- The entries of the polled array that report `POLLIN`. -/
def readyEntries (fds : List PollFd) : List PollFd :=
  fds.filter (fun p => p.revents &&& POLLIN = POLLIN)

/-! ## `system_get_path.cc`

A C string is the list of its characters before the terminating NUL; a buffer is the
string it holds. -/

/-- `starboard::strlcpy<char>(dst, src, dst_size)` of `starboard/common/string.h`, which is
not under src/: at most `dst_size - 1` characters of `src` go to `dst`, NUL-terminated,
and the length of `src` is returned. The pair is the new content of `dst` and the value
returned. -/
def strlcpy (dst src : List Char) (dst_size : Int) : List Char × Int :=
  if dst_size ≤ 0 then (dst, src.length)
  else (src.take (dst_size.toNat - 1), src.length)

/-- `starboard::strlcat<char>(dst, src, dst_size)` of `starboard/common/string.h`: `src` is
copied behind the string in `dst` as far as `dst_size` allows; the value returned is the
length the concatenation would have. -/
def strlcat (dst src : List Char) (dst_size : Int) : List Char × Int :=
  let dst_length : Nat := if dst_size ≤ 0 then 0 else min dst.length dst_size.toNat
  let r := strlcpy (dst.drop dst_length) src (dst_size - dst_length)
  (dst.take dst_length ++ r.1, r.2 + dst_length)

/-- `SbStringFormatF(out, size, format, ...)`, a `vsnprintf`: `formatted` is the text the
format produces; at most `size - 1` characters of it go to `out`, and its length is
returned. -/
def SbStringFormatF (out formatted : List Char) (size : Int) : List Char × Int :=
  strlcpy out formatted size

/-- `strrchr(s, '/')`: the position of the last slash, `none` for a null result. -/
def lastSlash : List Char → Option Nat
  | [] => none
  | c :: cs =>
    match lastSlash cs with
    | some i => some (i + 1)
    | none => if c = '/' then some 0 else none

/-- The strings that `getline(stream, line, delim)` reads from a stream one after the
other until it fails: the pieces between delimiters, without a last empty piece. `cur` is
the piece being read, last character first. -/
def getlines (delim : Char) : List Char → List Char → List (List Char)
  | cur, [] => if cur = [] then [] else [cur.reverse]
  | cur, c :: cs =>
    if c = delim then cur.reverse :: getlines delim [] cs
    else getlines delim (c :: cur) cs

/-- What the functions of `system_get_path.cc` take from their surroundings: the two
environment variables, `SbFileExists`, the home directory that `SbUserGetProperty` gives
(`none` when it fails), `SbDirectoryCreate`, the target of `/proc/self/exe` (`none` when
`readlink` fails), `getpid()`, and the constant `kSbFileMaxPath`. -/
structure PathEnv where
  COBALT_CONTENT_DIR : Option (List Char)
  COBALT_TEMP : Option (List Char)
  SbFileExists : List Char → Bool
  home : Option (List Char)
  SbDirectoryCreate : List Char → Bool
  exe : Option (List Char)
  pid : Int
  kSbFileMaxPath : Nat

/-- The value a function returns together with the content of its out buffer. -/
structure PathResult where
  ok : Bool
  out_path : List Char
  deriving DecidableEq, Repr

/-- The loop of `GetContentDirectory` over the entries of `COBALT_CONTENT_DIR`. -/
def searchContentDir (env : PathEnv) (out_path : List Char) (path_size : Int) :
    List (List Char) → PathResult
  | [] => { ok := false, out_path := out_path }
  | contentPath :: rest =>
    if env.SbFileExists (contentPath ++ "/fonts/fonts.xml".toList) = true then
      let r := strlcat out_path contentPath path_size
      { ok := decide (r.2 < path_size), out_path := r.1 }
    else searchContentDir env out_path path_size rest

/-- `GetContentDirectory`. -/
def GetContentDirectory (env : PathEnv) (out_path : List Char) (path_size : Int) :
    PathResult :=
  match env.COBALT_CONTENT_DIR with
  | some paths => searchContentDir env out_path path_size (getlines ':' [] paths)
  | none =>
    let r := strlcat out_path "/usr/share/content/data".toList path_size
    { ok := decide (r.2 < path_size), out_path := r.1 }

/-- `GetCacheDirectory`. -/
def GetCacheDirectory (env : PathEnv) (out_path : List Char) (path_size : Int) :
    PathResult :=
  match env.home with
  | none => { ok := false, out_path := out_path }
  | some home_path =>
    let r := SbStringFormatF out_path (home_path ++ "/.cache".toList) path_size
    if r.2 < 0 ∨ r.2 ≥ path_size then { ok := false, out_path := [] }
    else { ok := env.SbDirectoryCreate r.1, out_path := r.1 }

/-- `GetExecutablePath`: `readlink` puts at most `kSbFileMaxPath` bytes of the target into
the local `path`. -/
def GetExecutablePath (env : PathEnv) (out_path : List Char) (path_size : Int) :
    PathResult :=
  if path_size < 1 then { ok := false, out_path := out_path }
  else
    match env.exe with
    | none => { ok := false, out_path := out_path }
    | some target =>
      let path := target.take env.kSbFileMaxPath
      let bytes_read : Int := path.length
      if bytes_read < 1 then { ok := false, out_path := out_path }
      else if bytes_read > path_size then { ok := false, out_path := out_path }
      else { ok := true, out_path := (strlcpy out_path path path_size).1 }

/-- `GetExecutableDirectory`. -/
def GetExecutableDirectory (env : PathEnv) (out_path : List Char) (path_size : Int) :
    PathResult :=
  let r := GetExecutablePath env out_path path_size
  if r.ok = false then { ok := false, out_path := r.out_path }
  else
    match lastSlash r.out_path with
    | none => { ok := false, out_path := r.out_path }
    | some i => { ok := true, out_path := r.out_path.take i }

/-- `GetExecutableName`; `none` stands for the use of `last_slash + 1` when `strrchr` has
returned null. -/
def GetExecutableName (env : PathEnv) (out_path : List Char) (path_size : Int) :
    Option PathResult :=
  let r := GetExecutablePath env [] env.kSbFileMaxPath
  if r.ok = false then some { ok := false, out_path := out_path }
  else
    match lastSlash r.out_path with
    | none => none
    | some i =>
      let c := strlcpy out_path (r.out_path.drop (i + 1)) path_size
      if c.2 ≥ path_size then some { ok := false, out_path := c.1 }
      else some { ok := true, out_path := c.1 }

/-- The decimal digits of a natural number, as `%d` prints them. -/
def decimal (n : Nat) : List Char := (Nat.repr n).toList

/-- The text that `%d` prints for an `int`. -/
def formatInt (i : Int) : List Char :=
  if i < 0 then '-' :: decimal i.natAbs else decimal i.natAbs

/-- `GetTemporaryDirectory`. With `COBALT_TEMP` set, the assignment `out_path = temp`
changes the local pointer only: the buffer of the caller keeps its content. -/
def GetTemporaryDirectory (env : PathEnv) (out_path : List Char) (path_size : Int) :
    Option PathResult :=
  match env.COBALT_TEMP with
  | some _ => some { ok := true, out_path := out_path }
  | none =>
    match GetExecutableName env [] env.kSbFileMaxPath with
    | none => none
    | some n =>
      if n.ok = false then some { ok := false, out_path := out_path }
      else
        let r := SbStringFormatF out_path
          ("/tmp/".toList ++ n.out_path ++ ['-'] ++ formatInt env.pid) path_size
        if r.2 < 0 ∨ r.2 ≥ path_size then some { ok := false, out_path := [] }
        else some { ok := true, out_path := r.1 }

/-- The type `SbSystemPathId` of `starboard/system.h`, with `other` for the values the
`switch` of `SbSystemGetPath` has no case for. -/
inductive SbSystemPathId where
  | kSbSystemPathContentDirectory
  | kSbSystemPathCacheDirectory
  | kSbSystemPathDebugOutputDirectory
  | kSbSystemPathFontDirectory
  | kSbSystemPathFontConfigurationDirectory
  | kSbSystemPathTempDirectory
  | kSbSystemPathTestOutputDirectory
  | kSbSystemPathExecutableFile
  | other (id : Nat)
  deriving DecidableEq, Repr

/-- The end of `SbSystemGetPath`, after the `switch`: the length test on the local `path`
and the copy into `out_path`. -/
def copyOut (path out_path : List Char) (path_size : Int) : PathResult :=
  let length : Int := path.length
  if length < 1 ∨ length > path_size then { ok := false, out_path := out_path }
  else { ok := true, out_path := (strlcpy out_path path path_size).1 }

/-- `SbSystemGetPath`, with `fuel` bounding the depth of its calls of itself (the test
output directory asks for the debug output directory, which asks for the temporary
directory). `out_path` is `none` for a null pointer. The result is `none` when the fuel
runs out and for the undefined use of a null pointer in `GetExecutableName`. -/
def SbSystemGetPathFuel (env : PathEnv) :
    Nat → SbSystemPathId → Option (List Char) → Int → Option (Bool × Option (List Char))
  | 0, _, _, _ => none
  | fuel + 1, path_id, out_path, path_size =>
    match out_path with
    | none => some (false, none)
    | some out =>
      if path_size = 0 then some (false, some out)
      else
        match path_id with
        | .kSbSystemPathContentDirectory =>
          let r := GetContentDirectory env [] env.kSbFileMaxPath
          if r.ok = false then some (false, some out)
          else
            let c := copyOut r.out_path out path_size
            some (c.ok, some c.out_path)
        | .kSbSystemPathCacheDirectory =>
          let r := GetCacheDirectory env [] env.kSbFileMaxPath
          if r.ok = false then some (false, some out)
          else
            let t := strlcat r.out_path "/cobalt".toList env.kSbFileMaxPath
            if t.2 ≥ env.kSbFileMaxPath then some (false, some out)
            else if env.SbDirectoryCreate t.1 = false then some (false, some out)
            else
              let c := copyOut t.1 out path_size
              some (c.ok, some c.out_path)
        | .kSbSystemPathDebugOutputDirectory =>
          match SbSystemGetPathFuel env fuel .kSbSystemPathTempDirectory (some [])
              env.kSbFileMaxPath with
          | none => none
          | some (ok, path) =>
            if ok = false then some (false, some out)
            else
              let t := strlcat (path.getD []) "/log".toList env.kSbFileMaxPath
              if t.2 ≥ env.kSbFileMaxPath then some (false, some out)
              else
                let c := copyOut t.1 out path_size
                some (c.ok, some c.out_path)
        | .kSbSystemPathTempDirectory =>
          match GetTemporaryDirectory env [] env.kSbFileMaxPath with
          | none => none
          | some r =>
            if r.ok = false then some (false, some out)
            else
              let c := copyOut r.out_path out path_size
              some (c.ok, some c.out_path)
        | .kSbSystemPathTestOutputDirectory =>
          SbSystemGetPathFuel env fuel .kSbSystemPathDebugOutputDirectory (some out) path_size
        | .kSbSystemPathExecutableFile =>
          let r := GetExecutablePath env out path_size
          some (r.ok, some r.out_path)
        | .kSbSystemPathFontConfigurationDirectory => some (false, some out)
        | .kSbSystemPathFontDirectory => some (false, some out)
        | .other _ => some (false, some out)

/-- `SbSystemGetPath`: three levels of calls are the most the `switch` can nest. -/
def SbSystemGetPath (env : PathEnv) (path_id : SbSystemPathId)
    (out_path : Option (List Char)) (path_size : Int) : Option (Bool × Option (List Char)) :=
  SbSystemGetPathFuel env 3 path_id out_path path_size

/-- An environment with no variable set, the executable at `/usr/bin/cobalt`, the home
directory `/home/root`, every file present and every directory created. -/
def plainEnv : PathEnv :=
  { COBALT_CONTENT_DIR := none
    COBALT_TEMP := none
    SbFileExists := fun _ => true
    home := some "/home/root".toList
    SbDirectoryCreate := fun _ => true
    exe := some "/usr/bin/cobalt".toList
    pid := 4711
    kSbFileMaxPath := 4096 }

/-! ## `libcobalt.cc`: `SbRdkGetSetting` -/

/-- What the two getters of `rdkservices.cc` give when `SbRdkGetSetting` calls them: the
value returned and the string left in `out_json`. -/
structure SettingsGetters where
  accessibility : Bool × String
  systemproperties : Bool × String

/-- `SbRdkGetSetting`. `key` is `none` for a null pointer; `out_json` is `none` for a null
pointer and otherwise holds `*out_json`, itself `none` for null. The result is the value
returned and `*out_json` after the call (`malloc` is taken to succeed). -/
def SbRdkGetSetting (g : SettingsGetters) (key : Option String)
    (out_json : Option (Option String)) : Int × Option (Option String) :=
  match key, out_json with
  | none, _ => (-1, out_json)
  | some _, none => (-1, out_json)
  | some k, some target =>
    if k = "" ∨ target ≠ none then (-1, out_json)
    else
      let r : Bool × String :=
        if k = "accessibility" then g.accessibility
        else if k = "systemproperties" then g.systemproperties
        else (false, "")
      if r.1 = true ∧ r.2 ≠ "" then (0, some (some r.2))
      else (-1, out_json)

/-- The string `s` begins with `p`: it is `p` followed by something. -/
def beginsWith (p s : String) : Prop := ∃ rest : List Char, s.toList = p.toList ++ rest

/-! ## Observations on the effects of the event loop -/

/-- The number of calls of `HangMonitor::Reset` among the effects. -/
def resets : List AppEffect → Nat
  | [] => 0
  | .HangMonitorReset :: es => resets es + 1
  | _ :: es => resets es

/-- The descriptors that the effects read, one for each `read`, in order. -/
def reads : List AppEffect → List Int
  | [] => []
  | .read fd :: es => fd :: reads es
  | _ :: es => reads es

/-- The entry `p` of the polled array reports `POLLIN`. -/
def reportsPOLLIN (p : PollFd) : Bool := decide (p.revents &&& POLLIN = POLLIN)

/-- The handles among `ess_timer_fd_`, `wakeup_fd_` and `monitor_timer_fd_` that are not
negative, in the order display-drive timer, wakeup signal, heartbeat timer. -/
def Application.nonNegativeHandles (a : Application) : List Int :=
  [a.ess_timer_fd_, a.wakeup_fd_, a.monitor_timer_fd_].filter (fun fd => decide (0 ≤ fd))

/-! ### A caller waiting at `sem.Take()` while the run loop tears down -/

/-- The run in which `RequestSuspend` is called on a running application and the run loop
goes into `OnTeardown` before it has dispatched the transition. -/
def suspendThenTeardown : List Action :=
  [.beginInit, .enter, .call .RequestSuspend, .acquire 0, .test 0, .submit 0, .beginTeardown]

/-- The state at the end of `suspendThenTeardown`. -/
def suspendStuck : Sys :=
  { ctx := { running_ := true }
    mutex_ := some 0
    threads := [{ op := .RequestSuspend, pc := .take, sem := 0 }]
    queue := [{ call := .Freeze, context := some 0 }]
    runloop := .onTeardown }

/-- Thread `tid` waits at `sem.Take()` without a permit and holds `mutex_`, and the
run-loop thread waits for `mutex_` at the `ScopedLock` of `OnTeardown`. -/
def Sys.Stuck (s : Sys) (tid : Nat) : Prop :=
  s.runloop = .onTeardown ∧ s.mutex_ = some tid ∧
    ∃ th, s.threads[tid]? = some th ∧ th.pc = .take ∧ th.sem = 0

/-! ## Cancellation before scheduling -/

/-- A record of effects read from its start, `live` being the handles scheduled and not
cancelled so far: the handles scheduled and not cancelled at its end, or `none` if a
callback is scheduled at a moment when a handle scheduled before has not been
cancelled. -/
def uncancelled : List SbEventId → List Effect → Option (List SbEventId)
  | live, [] => some live
  | live, .schedule id _ :: es => if live = [] then uncancelled [id] es else none
  | live, .cancel id :: es => uncancelled (live.filter (fun x => x ≠ id)) es
  | live, .inject _ :: es => uncancelled live es

/-- The handles scheduled and not cancelled in the record of a state: none when idle,
the handle held when armed. -/
def liveOf (h : Host) : List SbEventId :=
  if h.input.key_repeat_state_ = 0 then [] else [h.input.key_repeat_event_id_]

/-! ## The entries of a search path -/

/-- A list of pieces without an empty last piece. -/
def dropEmptyLast (pieces : List (List Char)) : List (List Char) :=
  if pieces.getLast? = some [] then pieces.dropLast else pieces

/-- The entries of a PATH-like list, in the words of the specification: the pieces
between the colons, in order; nothing after the last colon, and nothing at all in an empty
list, is no entry. -/
def colonSeparated (paths : List Char) : List (List Char) :=
  dropEmptyLast (paths.splitOn ':')

/-- The file whose presence `GetContentDirectory` tests in an entry. -/
def fontsFile (entry : List Char) : List Char := entry ++ "/fonts/fonts.xml".toList

/-- An environment with the content directories `/a:/b:/c` of which only `/b` and `/c`
hold the fonts. -/
def searchEnv : PathEnv :=
  { plainEnv with
    COBALT_CONTENT_DIR := some "/a:/b:/c".toList
    SbFileExists := fun p =>
      decide (p = "/b/fonts/fonts.xml".toList ∨ p = "/c/fonts/fonts.xml".toList) }

/-! ## The modifier mask -/

/-- The modifier of a key code as `UpdateModifiers` computes it; `kSbKeyModifiersNone` for
a key that is no modifier. -/
def modifierOf (key : Nat) : SbKeyModifiers := KeyCodeToSbKeyModifiers (toUInt16 key)

/-- The four bits of the modifier mask. -/
def modifierBits : List SbKeyModifiers :=
  [kSbKeyModifiersAlt, kSbKeyModifiersCtrl, kSbKeyModifiersMeta, kSbKeyModifiersShift]

/-- In the words of the specification: whether, after the inputs, the last press or
release of a key of the modifier `bit` was a press; `held` says so for the time before
the inputs. -/
def lastModifierEventWasPress (bit : SbKeyModifiers) : Bool → List Input → Bool
  | held, [] => held
  | held, .keyPressed key :: rest =>
    lastModifierEventWasPress bit (if modifierOf key = bit then true else held) rest
  | held, .keyReleased key :: rest =>
    lastModifierEventWasPress bit (if modifierOf key = bit then false else held) rest
  | held, .timerFired _ :: rest => lastModifierEventWasPress bit held rest

/-- The keys that `CreateKey` remaps when Ctrl is the only modifier set. -/
def ctrlChordKeys : List Nat := [KEY_L, KEY_F, KEY_W, KEY_P, KEY_0, KEY_1, KEY_2, KEY_3]

/-! ## Theorems: `EssInput` -/

theorem remapCtrl_of_stored {k m : Nat} (hk : storedKey k) : remapCtrl k m = (k, m) := by
  rcases hk with h | h | h | h | h | h | h <;> subst h <;> rfl

theorem remapKey_of_stored {k m : Nat} (hk : storedKey k) : remapKey m k = (k, m) := by
  unfold remapKey
  split
  · exact remapCtrl_of_stored hk
  · rfl

theorem CreateKey_arm (h : Host) (key : Nat) :
    EssInput.CreateKey h key .kSbInputEventTypePress true =
      { input := { h.input with
                    key_repeat_key_ := (remapKey h.input.key_modifiers_ key).1
                    key_repeat_state_ := 1
                    key_repeat_event_id_ := h.next_event_id }
        pending := pendingAfterDelete h ++ [(h.next_event_id, h.input.key_repeat_interval_)]
        next_event_id := h.next_event_id + 1
        log := h.log ++ [Effect.inject (keyEvent .kSbInputEventTypePress
                  (remapKey h.input.key_modifiers_ key))] ++ cancelLog h ++
                [Effect.schedule h.next_event_id h.input.key_repeat_interval_] } := by
  unfold EssInput.CreateKey EssInput.DeleteRepeatKey InjectInputEvent SbEventSchedule
    SbEventCancel cancelLog pendingAfterDelete
  by_cases h2 : h.input.key_repeat_event_id_ = kSbEventIdInvalid <;> simp [h2]

theorem CreateKey_idle (h : Host) (key : Nat) (type : SbInputEventType) (rep : Bool)
    (hn : ¬ (rep = true ∧ type = .kSbInputEventTypePress)) :
    EssInput.CreateKey h key type rep =
      { input := { h.input with
                    key_repeat_state_ := 0
                    key_repeat_event_id_ := kSbEventIdInvalid
                    key_repeat_interval_ := kKeyHoldTime }
        pending := pendingAfterDelete h
        next_event_id := h.next_event_id
        log := h.log ++ [Effect.inject (keyEvent type (remapKey h.input.key_modifiers_ key))]
                ++ cancelLog h } := by
  unfold EssInput.CreateKey EssInput.DeleteRepeatKey InjectInputEvent SbEventCancel cancelLog pendingAfterDelete
  by_cases h2 : h.input.key_repeat_event_id_ = kSbEventIdInvalid <;> simp [h2, hn]

theorem pendingAfterDelete_of_inv {h : Host} (hi : Inv h) : pendingAfterDelete h = [] := by
  unfold pendingAfterDelete
  by_cases hs : h.input.key_repeat_state_ = 0
  · obtain ⟨h1, h2, -⟩ := hi.idle hs
    simp [h1, h2]
  · obtain ⟨-, h1, h2⟩ := hi.armed hs
    simp [h1, h2]

theorem UpdateModifiers_snd (h : Host) (key : Nat) (type : SbInputEventType) :
    (EssInput.UpdateModifiers h key type).2 =
      decide (KeyCodeToSbKeyModifiers (toUInt16 key) ≠ kSbKeyModifiersNone) := by
  unfold EssInput.UpdateModifiers
  by_cases hm : KeyCodeToSbKeyModifiers (toUInt16 key) = kSbKeyModifiersNone
  · simp [hm]
  · by_cases ht : type = .kSbInputEventTypePress <;> simp [hm, ht]

theorem UpdateModifiers_fst_of_none (h : Host) (key : Nat) (type : SbInputEventType)
    (hm : KeyCodeToSbKeyModifiers (toUInt16 key) = kSbKeyModifiersNone) :
    (EssInput.UpdateModifiers h key type).1 = h := by
  unfold EssInput.UpdateModifiers
  simp [hm]

/-- A modifier key only changes `key_modifiers_`. -/
theorem UpdateModifiers_fst_frame (h : Host) (key : Nat) (type : SbInputEventType) :
    ∃ m, (EssInput.UpdateModifiers h key type).1 =
      { h with input := { h.input with key_modifiers_ := m } } := by
  unfold EssInput.UpdateModifiers
  by_cases hm : KeyCodeToSbKeyModifiers (toUInt16 key) = kSbKeyModifiersNone
  · exact ⟨h.input.key_modifiers_, by simp [hm]⟩
  · by_cases ht : type = .kSbInputEventTypePress
    · exact ⟨h.input.key_modifiers_ ||| KeyCodeToSbKeyModifiers (toUInt16 key),
        by simp [hm, ht]⟩
    · exact ⟨h.input.key_modifiers_ &&& not32 (KeyCodeToSbKeyModifiers (toUInt16 key)),
        by simp [hm, ht]⟩

theorem handleKey_modifier (h : Host) (key : Nat) (type : SbInputEventType)
    (hm : KeyCodeToSbKeyModifiers (toUInt16 key) ≠ kSbKeyModifiersNone) :
    EssInput.OnKeyboardHandleKey h key type = (EssInput.UpdateModifiers h key type).1 := by
  unfold EssInput.OnKeyboardHandleKey
  simp [UpdateModifiers_snd, hm]

theorem handleKey_suppressed (h : Host) (key : Nat)
    (hm : KeyCodeToSbKeyModifiers (toUInt16 key) = kSbKeyModifiersNone)
    (hr : isRepeatable key h.input.key_modifiers_ = true)
    (hk : key = h.input.key_repeat_key_) (hs : h.input.key_repeat_state_ ≠ 0) :
    EssInput.OnKeyboardHandleKey h key .kSbInputEventTypePress = h := by
  unfold EssInput.OnKeyboardHandleKey
  simp [UpdateModifiers_snd, UpdateModifiers_fst_of_none, hm, hr, hs, ← hk]

theorem handleKey_arm (h : Host) (key : Nat)
    (hm : KeyCodeToSbKeyModifiers (toUInt16 key) = kSbKeyModifiersNone)
    (hr : isRepeatable key h.input.key_modifiers_ = true)
    (hk : ¬ (key = h.input.key_repeat_key_ ∧ h.input.key_repeat_state_ ≠ 0)) :
    EssInput.OnKeyboardHandleKey h key .kSbInputEventTypePress =
      EssInput.CreateKey h key .kSbInputEventTypePress true := by
  unfold EssInput.OnKeyboardHandleKey
  simp only [UpdateModifiers_snd, UpdateModifiers_fst_of_none _ _ _ hm, hm, hr]
  simp
  intro h1 h2
  exact absurd ⟨h1, h2⟩ hk

theorem handleKey_idle (h : Host) (key : Nat) (type : SbInputEventType)
    (hm : KeyCodeToSbKeyModifiers (toUInt16 key) = kSbKeyModifiersNone)
    (hn : type ≠ .kSbInputEventTypePress ∨ isRepeatable key h.input.key_modifiers_ = false) :
    EssInput.OnKeyboardHandleKey h key type =
      EssInput.CreateKey h key type (isRepeatable key h.input.key_modifiers_) := by
  unfold EssInput.OnKeyboardHandleKey
  simp only [UpdateModifiers_snd, UpdateModifiers_fst_of_none _ _ _ hm, hm]
  rcases hn with hn | hn
  · by_cases hr : isRepeatable key h.input.key_modifiers_ = true
    · simp [hn, hr]
    · simp [hn, hr]
  · simp [hn]

theorem interval_ne_zero {h : Host} (hi : Inv h) : h.input.key_repeat_interval_ ≠ 0 := by
  rcases hi.interval with h1 | h1 <;> rw [h1] <;> decide

theorem fireTimer_armed {h : Host} (hi : Inv h) (hs : h.input.key_repeat_state_ ≠ 0) :
    fireTimer h h.input.key_repeat_event_id_ =
      { input := { h.input with
                    key_repeat_state_ := 1
                    key_repeat_event_id_ := h.next_event_id
                    key_repeat_interval_ := kKeyRepeatTime }
        pending := [(h.next_event_id, kKeyRepeatTime)]
        next_event_id := h.next_event_id + 1
        log := h.log ++ [Effect.inject (keyEvent .kSbInputEventTypePress
                  (h.input.key_repeat_key_, h.input.key_modifiers_)),
                Effect.cancel h.input.key_repeat_event_id_,
                Effect.schedule h.next_event_id kKeyRepeatTime] } := by
  obtain ⟨h1, h2, h3⟩ := hi.armed hs
  have h4 := interval_ne_zero hi
  have h5 : remapKey h.input.key_modifiers_ h.input.key_repeat_key_ =
      (h.input.key_repeat_key_, h.input.key_modifiers_) := remapKey_of_stored hi.stored
  unfold fireTimer EssInput.CreateRepeatKey
  simp only [h3, CreateKey_arm, pendingAfterDelete, cancelLog]
  simp [hs, h4, h2, h5]

theorem fireTimer_none {h : Host} (hi : Inv h) (id : SbEventId)
    (hn : h.input.key_repeat_state_ = 0 ∨ id ≠ h.input.key_repeat_event_id_) :
    fireTimer h id = h := by
  unfold fireTimer
  by_cases hs : h.input.key_repeat_state_ = 0
  · simp [(hi.idle hs).2.1]
  · obtain ⟨-, -, h3⟩ := hi.armed hs
    rcases hn with hn | hn
    · exact absurd hn hs
    · simp [h3, Ne.symm hn]

theorem isRepeatable_stored {key m : Nat} (hr : isRepeatable key m = true) :
    storedKey (remapKey m key).1 := by
  unfold isRepeatable at hr
  simp only [decide_eq_true_eq] at hr
  rcases hr with (h | h | h | h) | ⟨h | h, hm⟩
  · subst h; rw [remapKey_of_stored (by unfold storedKey; simp)]; unfold storedKey; simp
  · subst h; rw [remapKey_of_stored (by unfold storedKey; simp)]; unfold storedKey; simp
  · subst h; rw [remapKey_of_stored (by unfold storedKey; simp)]; unfold storedKey; simp
  · subst h; rw [remapKey_of_stored (by unfold storedKey; simp)]; unfold storedKey; simp
  · subst h; subst hm; unfold storedKey; decide
  · subst h; subst hm; unfold storedKey; decide

theorem Inv_fresh : Inv Host.fresh :=
  ⟨by decide, by decide, Or.inl rfl, by decide, by decide, by decide⟩

theorem Inv_CreateKey_arm {h : Host} (hi : Inv h) (key : Nat)
    (hr : isRepeatable key h.input.key_modifiers_ = true) :
    Inv (EssInput.CreateKey h key .kSbInputEventTypePress true) := by
  rw [CreateKey_arm, pendingAfterDelete_of_inv hi]
  constructor
  · intro h0; simp at h0
  · intro _; exact ⟨rfl, hi.next_pos, by simp⟩
  · exact isRepeatable_stored hr
  · simp [kSbEventIdInvalid]
  · exact Nat.lt_succ_self _
  · exact hi.interval

theorem Inv_CreateKey_idle {h : Host} (hi : Inv h) (key : Nat) (type : SbInputEventType)
    (rep : Bool) (hn : ¬ (rep = true ∧ type = .kSbInputEventTypePress)) :
    Inv (EssInput.CreateKey h key type rep) := by
  rw [CreateKey_idle h key type rep hn, pendingAfterDelete_of_inv hi]
  constructor
  · intro _; exact ⟨rfl, rfl, rfl⟩
  · intro h0; simp at h0
  · exact hi.stored
  · exact hi.next_pos
  · exact Nat.pos_of_ne_zero hi.next_pos
  · exact Or.inl rfl

theorem Inv_handleKey {h : Host} (hi : Inv h) (key : Nat) (type : SbInputEventType) :
    Inv (EssInput.OnKeyboardHandleKey h key type) := by
  by_cases hm : KeyCodeToSbKeyModifiers (toUInt16 key) = kSbKeyModifiersNone
  · by_cases hn : type ≠ .kSbInputEventTypePress ∨
        isRepeatable key h.input.key_modifiers_ = false
    · rw [handleKey_idle h key type hm hn]
      apply Inv_CreateKey_idle hi
      rcases hn with hn | hn
      · exact fun hc => hn hc.2
      · rw [hn]; simp
    · have ht : type = .kSbInputEventTypePress := by
        by_contra hc; exact hn (Or.inl hc)
      have hr : isRepeatable key h.input.key_modifiers_ = true := by
        by_contra hc; exact hn (Or.inr (by simpa using hc))
      subst ht
      by_cases hk : key = h.input.key_repeat_key_ ∧ h.input.key_repeat_state_ ≠ 0
      · rw [handleKey_suppressed h key hm hr hk.1 hk.2]; exact hi
      · rw [handleKey_arm h key hm hr hk]
        exact Inv_CreateKey_arm hi key hr
  · rw [handleKey_modifier h key type hm]
    obtain ⟨m, hm2⟩ := UpdateModifiers_fst_frame h key type
    rw [hm2]
    exact ⟨hi.idle, hi.armed, hi.stored, hi.next_pos, hi.below, hi.interval⟩

theorem Inv_fireTimer {h : Host} (hi : Inv h) (id : SbEventId) : Inv (fireTimer h id) := by
  by_cases hn : h.input.key_repeat_state_ = 0 ∨ id ≠ h.input.key_repeat_event_id_
  · rw [fireTimer_none hi id hn]; exact hi
  · have hs : h.input.key_repeat_state_ ≠ 0 := fun hc => hn (Or.inl hc)
    have hid : id = h.input.key_repeat_event_id_ := by
      by_contra hc; exact hn (Or.inr hc)
    subst hid
    rw [fireTimer_armed hi hs]
    constructor
    · intro h0; simp at h0
    · intro _; exact ⟨rfl, hi.next_pos, rfl⟩
    · exact hi.stored
    · simp [kSbEventIdInvalid]
    · exact Nat.lt_succ_self _
    · exact Or.inr rfl

theorem Inv_step {h : Host} (hi : Inv h) (i : Input) : Inv (step h i) := by
  cases i with
  | keyPressed key => exact Inv_handleKey hi key _
  | keyReleased key => exact Inv_handleKey hi key _
  | timerFired id => exact Inv_fireTimer hi id

theorem Inv_run {h : Host} (hi : Inv h) (inputs : List Input) : Inv (run h inputs) := by
  induction inputs generalizing h with
  | nil => exact hi
  | cons i is ih => exact ih (Inv_step hi i)

theorem Inv_of_reachable {h : Host} (hr : Reachable h) : Inv h := by
  obtain ⟨inputs, rfl⟩ := hr
  exact Inv_run Inv_fresh inputs

theorem injected_append (a b : List Effect) : injected (a ++ b) = injected a ++ injected b := by
  induction a with
  | nil => rfl
  | cons e es ih => cases e <;> simp [injected, ih]

theorem scheduledDelays_append (a b : List Effect) :
    scheduledDelays (a ++ b) = scheduledDelays a ++ scheduledDelays b := by
  induction a with
  | nil => rfl
  | cons e es ih => cases e <;> simp [scheduledDelays, ih]

theorem not_modifier_of_directional {k : Nat} (hk : isDirectional k) :
    KeyCodeToSbKeyModifiers (toUInt16 k) = kSbKeyModifiersNone := by
  rcases hk with h | h | h | h <;> subst h <;> decide

theorem isRepeatable_of_directional {k : Nat} (hk : isDirectional k) (m : Nat) :
    isRepeatable k m = true := by
  unfold isRepeatable
  unfold isDirectional at hk
  simp [hk]

theorem storedKey_of_directional {k : Nat} (hk : isDirectional k) : storedKey k := by
  unfold storedKey
  rcases hk with h | h | h | h <;> simp [h]

theorem fireScheduled_armed {h : Host} (hi : Inv h) (hs : h.input.key_repeat_state_ ≠ 0) :
    fireScheduled h = fireTimer h h.input.key_repeat_event_id_ := by
  unfold fireScheduled
  rw [(hi.armed hs).2.2]
  rfl

theorem fireScheduled_idle {h : Host} (hi : Inv h) (hs : h.input.key_repeat_state_ = 0) :
    fireScheduled h = h := by
  unfold fireScheduled
  rw [(hi.idle hs).2.1]

/-- The state of a directional key held through `n` firings: armed for that key, with
`n + 1` press events emitted, the first callback scheduled after the hold time and each
later one after the repeat time. -/
theorem holdKey_shape {k : Nat} (hk : isDirectional k) (n : Nat) :
    Inv (holdKey k n) ∧ (holdKey k n).input.key_repeat_state_ ≠ 0 ∧
    (holdKey k n).input.key_repeat_key_ = k ∧ (holdKey k n).input.key_modifiers_ = 0 ∧
    injected (holdKey k n).log =
      List.replicate (n + 1) (keyEvent .kSbInputEventTypePress (k, 0)) ∧
    scheduledDelays (holdKey k n).log = kKeyHoldTime :: List.replicate n kKeyRepeatTime := by
  induction n with
  | zero =>
    have h0 : step Host.fresh (.keyPressed k) =
        EssInput.CreateKey Host.fresh k .kSbInputEventTypePress true :=
      handleKey_arm Host.fresh k (not_modifier_of_directional hk)
        (isRepeatable_of_directional hk _) (by rintro ⟨-, h2⟩; exact h2 rfl)
    have hi : Inv (holdKey k 0) := Inv_step Inv_fresh _
    refine ⟨hi, ?_, ?_, ?_, ?_, ?_⟩ <;>
      simp only [holdKey, h0, CreateKey_arm] <;>
      simp [Host.fresh, remapKey_of_stored (storedKey_of_directional hk), cancelLog,
        injected, scheduledDelays, kSbEventIdInvalid]
  | succ n ih =>
    obtain ⟨hi, hs, hkey, hmod, hinj, hdel⟩ := ih
    have hf : holdKey k (n + 1) = fireTimer (holdKey k n) (holdKey k n).input.key_repeat_event_id_ := by
      rw [holdKey, fireScheduled_armed hi hs]
    rw [hf, fireTimer_armed hi hs]
    refine ⟨?_, ?_, ?_, ?_, ?_, ?_⟩
    · rw [← fireTimer_armed hi hs]; exact Inv_fireTimer hi _
    · simp
    · exact hkey
    · exact hmod
    · simp only [injected_append, hinj, injected, hkey, hmod]
      rw [← List.replicate_succ']
    · simp only [scheduledDelays_append, hdel, scheduledDelays]
      rw [List.cons_append, ← List.replicate_succ']

theorem run_append (h : Host) (a b : List Input) : run h (a ++ b) = run (run h a) b := by
  simp [run, List.foldl_append]

theorem run_timers_idle {h : Host} (hi : Inv h) (hs : h.input.key_repeat_state_ = 0)
    (ids : List SbEventId) : run h (ids.map Input.timerFired) = h := by
  induction ids with
  | nil => rfl
  | cons id ids ih =>
    show run (step h (.timerFired id)) (ids.map Input.timerFired) = h
    have : step h (.timerFired id) = h := fireTimer_none hi id (Or.inl hs)
    rw [this, ih]

/-- C3: from a fresh `EssInput` with no modifier held, a press of a directional key
followed by `n` firings of the scheduled repeat callback emits exactly `n + 1` press events
for that key; the callback scheduled by the press has delay 500 ms and each callback
scheduled by a firing has delay 50 ms; and when the key is released before the first
firing, no firing of any callback afterwards emits anything: the events are the press
and the release, and the only callback ever scheduled is the cancelled one. -/
theorem press_and_hold_directional (k : Nat) (hk : isDirectional k) (n : Nat) :
    injected (holdKey k n).log =
        List.replicate (n + 1) (keyEvent .kSbInputEventTypePress (k, 0)) ∧
      scheduledDelays (holdKey k n).log =
        (500 * kSbTimeMillisecond) :: List.replicate n (50 * kSbTimeMillisecond) ∧
      ∀ ids : List SbEventId,
        injected (run Host.fresh
            (.keyPressed k :: .keyReleased k :: ids.map Input.timerFired)).log =
          [keyEvent .kSbInputEventTypePress (k, 0), keyEvent .kSbInputEventTypeUnpress (k, 0)] ∧
        (run Host.fresh
            (.keyPressed k :: .keyReleased k :: ids.map Input.timerFired)).pending = [] := by
  obtain ⟨hi, hs, hkey, hmod, hinj, hdel⟩ := holdKey_shape hk 0
  refine ⟨(holdKey_shape hk n).2.2.2.2.1, (holdKey_shape hk n).2.2.2.2.2, ?_⟩
  intro ids
  have hrel : step (holdKey k 0) (.keyReleased k) =
      EssInput.CreateKey (holdKey k 0) k .kSbInputEventTypeUnpress
        (isRepeatable k (holdKey k 0).input.key_modifiers_) :=
    handleKey_idle _ k _ (not_modifier_of_directional hk) (Or.inl (by decide))
  have hidle := CreateKey_idle (holdKey k 0) k .kSbInputEventTypeUnpress
      (isRepeatable k (holdKey k 0).input.key_modifiers_) (by simp)
  have hi2 : Inv (step (holdKey k 0) (.keyReleased k)) := Inv_step hi _
  have hs2 : (step (holdKey k 0) (.keyReleased k)).input.key_repeat_state_ = 0 := by
    rw [hrel, hidle]
  have hrun : run Host.fresh (.keyPressed k :: .keyReleased k :: ids.map Input.timerFired) =
      step (holdKey k 0) (.keyReleased k) := by
    show run (step (step Host.fresh (.keyPressed k)) (.keyReleased k)) _ = _
    exact run_timers_idle hi2 hs2 ids
  rw [hrun]
  refine ⟨?_, (hi2.idle hs2).2.1⟩
  rw [hrel, hidle]
  simp only [injected_append, hinj, injected, hmod, cancelLog]
  rw [remapKey_of_stored (storedKey_of_directional hk)]
  split <;> simp [injected]

/-- Witness for C3: the left key held through two firings. -/
theorem press_and_hold_directional_witness :
    isDirectional KEY_LEFT ∧
      injected (holdKey KEY_LEFT 2).log =
        List.replicate 3 (keyEvent .kSbInputEventTypePress (KEY_LEFT, 0)) ∧
      scheduledDelays (holdKey KEY_LEFT 2).log = [500000, 50000, 50000] :=
  ⟨by decide, (press_and_hold_directional KEY_LEFT (by decide) 2).1,
    (press_and_hold_directional KEY_LEFT (by decide) 2).2.1⟩

/-- C4, the code at the failing input: the left key is held until its first repeat, so it
is in the repeating phase, and the right key is pressed without a release of the left
key. The press cancels the pending callback and emits one press event, and it schedules
the new callback with the repeat delay of 50 ms, not the hold delay of 500 ms. -/
theorem press_other_key_while_repeating :
    (run Host.fresh [.keyPressed KEY_LEFT, .timerFired 1]).input.key_repeat_state_ = 1 ∧
    (run Host.fresh [.keyPressed KEY_LEFT, .timerFired 1]).input.key_repeat_key_ = KEY_LEFT ∧
    (run Host.fresh [.keyPressed KEY_LEFT, .timerFired 1]).pending =
      [(2, 50 * kSbTimeMillisecond)] ∧
    emitted (run Host.fresh [.keyPressed KEY_LEFT, .timerFired 1]) (.keyPressed KEY_RIGHT) =
      [Effect.inject (keyEvent .kSbInputEventTypePress (KEY_RIGHT, 0)),
       Effect.cancel 2,
       Effect.schedule 3 (50 * kSbTimeMillisecond)] ∧
    (50 * kSbTimeMillisecond : SbTime) ≠ kKeyHoldTime := by
  decide

/-- C5, the code at the failing input: with Ctrl held, F is pressed twice with no release
in between. After the first press the chord is armed, with the remapped code
`KEY_FASTFORWARD` in `key_repeat_key_`; the second press is not suppressed: it emits a
second press event, cancels the pending callback and schedules a new one. -/
theorem duplicate_chord_press_not_suppressed :
    (run Host.fresh [.keyPressed KEY_LEFTCTRL, .keyPressed KEY_F]).input.key_repeat_state_ = 1 ∧
    (run Host.fresh [.keyPressed KEY_LEFTCTRL, .keyPressed KEY_F]).input.key_repeat_key_ =
      KEY_FASTFORWARD ∧
    (run Host.fresh [.keyPressed KEY_LEFTCTRL, .keyPressed KEY_F]).pending = [(1, kKeyHoldTime)] ∧
    emitted (run Host.fresh [.keyPressed KEY_LEFTCTRL, .keyPressed KEY_F]) (.keyPressed KEY_F) =
      [Effect.inject (keyEvent .kSbInputEventTypePress (KEY_FASTFORWARD, 0)),
       Effect.cancel 1,
       Effect.schedule 2 kKeyHoldTime] ∧
    (run Host.fresh [.keyPressed KEY_LEFTCTRL, .keyPressed KEY_F, .keyPressed KEY_F]).pending =
      [(2, kKeyHoldTime)] := by
  decide

/-- C9, the code at the failing input: with Ctrl held, F is pressed and held until its
first repeat. The initial press carries `kSbKeyMediaFastForward` and no modifier; the
synthetic repeat carries `kSbKeyMediaFastForward` with `key_modifiers` equal to
`kSbKeyModifiersCtrl`, not 0. -/
theorem chord_repeat_keeps_ctrl :
    injected (emitted (run Host.fresh [.keyPressed KEY_LEFTCTRL]) (.keyPressed KEY_F)) =
      [{ type := .kSbInputEventTypePress, device_type := .kSbInputDeviceTypeRemote,
         device_id := 1, key := kSbKeyMediaFastForward,
         key_location := .kSbKeyLocationUnspecified, key_modifiers := 0 }] ∧
    (run Host.fresh [.keyPressed KEY_LEFTCTRL, .keyPressed KEY_F]).input.key_modifiers_ =
      kSbKeyModifiersCtrl ∧
    injected (emitted (run Host.fresh [.keyPressed KEY_LEFTCTRL, .keyPressed KEY_F])
        (.timerFired 1)) =
      [{ type := .kSbInputEventTypePress, device_type := .kSbInputDeviceTypeRemote,
         device_id := 1, key := kSbKeyMediaFastForward,
         key_location := .kSbKeyLocationUnspecified, key_modifiers := kSbKeyModifiersCtrl }] ∧
    kSbKeyModifiersCtrl ≠ 0 := by
  decide

/-- C8 fails as stated: while the left key is armed, a press of Enter, which is neither
repeatable nor a modifier, cancels the pending callback and puts the repeat state back to
idle. -/
theorem enter_cancels_left_repeat :
    (run Host.fresh [.keyPressed KEY_LEFT]).input.key_repeat_state_ = 1 ∧
    (run Host.fresh [.keyPressed KEY_LEFT]).input.key_repeat_key_ = KEY_LEFT ∧
    (run Host.fresh [.keyPressed KEY_LEFT]).pending = [(1, kKeyHoldTime)] ∧
    isRepeatable KEY_ENTER (run Host.fresh [.keyPressed KEY_LEFT]).input.key_modifiers_ = false ∧
    KeyCodeToSbKeyModifiers (toUInt16 KEY_ENTER) = kSbKeyModifiersNone ∧
    emitted (run Host.fresh [.keyPressed KEY_LEFT]) (.keyPressed KEY_ENTER) =
      [Effect.inject (keyEvent .kSbInputEventTypePress (KEY_ENTER, 0)), Effect.cancel 1] ∧
    (step (run Host.fresh [.keyPressed KEY_LEFT]) (.keyPressed KEY_ENTER)).input.key_repeat_state_
      = 0 ∧
    (step (run Host.fresh [.keyPressed KEY_LEFT]) (.keyPressed KEY_ENTER)).pending = [] ∧
    (step (run Host.fresh [.keyPressed KEY_LEFT]) (.keyPressed KEY_ENTER)).input.key_repeat_event_id_
      = kSbEventIdInvalid := by
  decide

theorem emitted_of_log {h : Host} {i : Input} {es : List Effect}
    (he : (step h i).log = h.log ++ es) : emitted h i = es := by
  unfold emitted
  rw [he, List.drop_left]

theorem not_modifier_of_stored {k : Nat} (hk : storedKey k) :
    KeyCodeToSbKeyModifiers (toUInt16 k) = kSbKeyModifiersNone := by
  rcases hk with h | h | h | h | h | h | h <;> subst h <;> decide

theorem not_modifier_of_repeatable {k m : Nat} (hr : isRepeatable k m = true) :
    KeyCodeToSbKeyModifiers (toUInt16 k) = kSbKeyModifiersNone := by
  unfold isRepeatable at hr
  simp only [decide_eq_true_eq] at hr
  rcases hr with (h | h | h | h) | ⟨h | h, -⟩ <;> subst h <;> decide

theorem cancelLog_armed {h : Host} (hi : Inv h) (hs : h.input.key_repeat_state_ ≠ 0) :
    cancelLog h = [Effect.cancel h.input.key_repeat_event_id_] := by
  unfold cancelLog
  simp [(hi.armed hs).2.1]

theorem cancelLog_idle {h : Host} (hi : Inv h) (hs : h.input.key_repeat_state_ = 0) :
    cancelLog h = [] := by
  unfold cancelLog
  simp [(hi.idle hs).1]

/-- A press or release of a key that is not a modifier and does not arm a repeat: one
event, the cancellation of the handle held, and the idle state. -/
theorem step_idle {h : Host} (hi : Inv h) (key : Nat) (type : SbInputEventType)
    (hm : KeyCodeToSbKeyModifiers (toUInt16 key) = kSbKeyModifiersNone)
    (hn : type ≠ .kSbInputEventTypePress ∨ isRepeatable key h.input.key_modifiers_ = false) :
    EssInput.OnKeyboardHandleKey h key type =
      { input := { h.input with
                    key_repeat_state_ := 0
                    key_repeat_event_id_ := kSbEventIdInvalid
                    key_repeat_interval_ := kKeyHoldTime }
        pending := []
        next_event_id := h.next_event_id
        log := h.log ++ ([Effect.inject (keyEvent type (remapKey h.input.key_modifiers_ key))]
                ++ cancelLog h) } := by
  rw [handleKey_idle h key type hm hn, CreateKey_idle, pendingAfterDelete_of_inv hi,
    List.append_assoc]
  rcases hn with hn | hn
  · exact fun hc => hn hc.2
  · rw [hn]; simp

/-- A press of a repeatable key that is not suppressed: one event, the cancellation of the
handle held, and a new callback with the delay in `key_repeat_interval_`. -/
theorem step_arm {h : Host} (hi : Inv h) (key : Nat)
    (hr : isRepeatable key h.input.key_modifiers_ = true)
    (hk : ¬ (key = h.input.key_repeat_key_ ∧ h.input.key_repeat_state_ ≠ 0)) :
    EssInput.OnKeyboardHandleKey h key .kSbInputEventTypePress =
      { input := { h.input with
                    key_repeat_key_ := (remapKey h.input.key_modifiers_ key).1
                    key_repeat_state_ := 1
                    key_repeat_event_id_ := h.next_event_id }
        pending := [(h.next_event_id, h.input.key_repeat_interval_)]
        next_event_id := h.next_event_id + 1
        log := h.log ++ ([Effect.inject (keyEvent .kSbInputEventTypePress
                  (remapKey h.input.key_modifiers_ key))] ++ cancelLog h ++
                [Effect.schedule h.next_event_id h.input.key_repeat_interval_]) } := by
  rw [handleKey_arm h key (not_modifier_of_repeatable hr) hr hk, CreateKey_arm,
    pendingAfterDelete_of_inv hi]
  simp

/-- The four ways one input acts on a reachable state. -/
theorem step_cases {h : Host} (hi : Inv h) (i : Input) :
    (∃ m, step h i = { h with input := { h.input with key_modifiers_ := m } } ∧
        ∃ key, (i = .keyPressed key ∨ i = .keyReleased key) ∧
          (KeyCodeToSbKeyModifiers (toUInt16 key) ≠ kSbKeyModifiersNone ∨
            (i = .keyPressed key ∧ isRepeatable key h.input.key_modifiers_ = true ∧
              key = h.input.key_repeat_key_ ∧ h.input.key_repeat_state_ ≠ 0 ∧
              m = h.input.key_modifiers_)))
    ∨ (∃ id, i = .timerFired id ∧ step h i = h)
    ∨ (∃ key type, (i = .keyPressed key ∧ type = .kSbInputEventTypePress ∧
            isRepeatable key h.input.key_modifiers_ = false ∨
          i = .keyReleased key ∧ type = .kSbInputEventTypeUnpress) ∧
        KeyCodeToSbKeyModifiers (toUInt16 key) = kSbKeyModifiersNone ∧
        step h i =
          { input := { h.input with
                        key_repeat_state_ := 0
                        key_repeat_event_id_ := kSbEventIdInvalid
                        key_repeat_interval_ := kKeyHoldTime }
            pending := []
            next_event_id := h.next_event_id
            log := h.log ++ ([Effect.inject (keyEvent type
                      (remapKey h.input.key_modifiers_ key))] ++ cancelLog h) })
    ∨ (∃ key, i = .keyPressed key ∧ isRepeatable key h.input.key_modifiers_ = true ∧
        ¬ (key = h.input.key_repeat_key_ ∧ h.input.key_repeat_state_ ≠ 0) ∧
        step h i =
          { input := { h.input with
                        key_repeat_key_ := (remapKey h.input.key_modifiers_ key).1
                        key_repeat_state_ := 1
                        key_repeat_event_id_ := h.next_event_id }
            pending := [(h.next_event_id, h.input.key_repeat_interval_)]
            next_event_id := h.next_event_id + 1
            log := h.log ++ ([Effect.inject (keyEvent .kSbInputEventTypePress
                      (remapKey h.input.key_modifiers_ key))] ++ cancelLog h ++
                    [Effect.schedule h.next_event_id h.input.key_repeat_interval_]) })
    ∨ (∃ id, i = .timerFired id ∧ id = h.input.key_repeat_event_id_ ∧
        h.input.key_repeat_state_ ≠ 0 ∧
        step h i =
          { input := { h.input with
                        key_repeat_state_ := 1
                        key_repeat_event_id_ := h.next_event_id
                        key_repeat_interval_ := kKeyRepeatTime }
            pending := [(h.next_event_id, kKeyRepeatTime)]
            next_event_id := h.next_event_id + 1
            log := h.log ++ [Effect.inject (keyEvent .kSbInputEventTypePress
                      (h.input.key_repeat_key_, h.input.key_modifiers_)),
                    Effect.cancel h.input.key_repeat_event_id_,
                    Effect.schedule h.next_event_id kKeyRepeatTime] }) := by
  cases i with
  | keyPressed key =>
    by_cases hm : KeyCodeToSbKeyModifiers (toUInt16 key) = kSbKeyModifiersNone
    · by_cases hr : isRepeatable key h.input.key_modifiers_ = true
      · by_cases hk : key = h.input.key_repeat_key_ ∧ h.input.key_repeat_state_ ≠ 0
        · exact Or.inl ⟨h.input.key_modifiers_, handleKey_suppressed h key hm hr hk.1 hk.2,
            key, Or.inl rfl, Or.inr ⟨rfl, hr, hk.1, hk.2, rfl⟩⟩
        · exact Or.inr (Or.inr (Or.inr (Or.inl ⟨key, rfl, hr, hk, step_arm hi key hr hk⟩)))
      · have hr2 : isRepeatable key h.input.key_modifiers_ = false := by simpa using hr
        exact Or.inr (Or.inr (Or.inl ⟨key, .kSbInputEventTypePress,
          Or.inl ⟨rfl, rfl, hr2⟩, hm, step_idle hi key _ hm (Or.inr hr2)⟩))
    · obtain ⟨m, hm2⟩ := UpdateModifiers_fst_frame h key .kSbInputEventTypePress
      exact Or.inl ⟨m, (handleKey_modifier h key _ hm).trans hm2, key, Or.inl rfl, Or.inl hm⟩
  | keyReleased key =>
    by_cases hm : KeyCodeToSbKeyModifiers (toUInt16 key) = kSbKeyModifiersNone
    · exact Or.inr (Or.inr (Or.inl ⟨key, .kSbInputEventTypeUnpress, Or.inr ⟨rfl, rfl⟩, hm,
        step_idle hi key _ hm (Or.inl (by decide))⟩))
    · obtain ⟨m, hm2⟩ := UpdateModifiers_fst_frame h key .kSbInputEventTypeUnpress
      exact Or.inl ⟨m, (handleKey_modifier h key _ hm).trans hm2, key, Or.inr rfl, Or.inl hm⟩
  | timerFired id =>
    by_cases hn : h.input.key_repeat_state_ = 0 ∨ id ≠ h.input.key_repeat_event_id_
    · exact Or.inr (Or.inl ⟨id, rfl, fireTimer_none hi id hn⟩)
    · have hs : h.input.key_repeat_state_ ≠ 0 := fun hc => hn (Or.inl hc)
      have hid : id = h.input.key_repeat_event_id_ := by
        by_contra hc; exact hn (Or.inr hc)
      refine Or.inr (Or.inr (Or.inr (Or.inr ⟨id, rfl, hid, hs, ?_⟩)))
      subst hid
      exact fireTimer_armed hi hs

theorem remapKey_repeatable {key m : Nat} (hr : isRepeatable key m = true) :
    (remapKey m key).1 = storedCode key := by
  unfold isRepeatable at hr
  simp only [decide_eq_true_eq] at hr
  rcases hr with (h | h | h | h) | ⟨h | h, hm⟩
  · subst h; rw [remapKey_of_stored (by unfold storedKey; simp)]; rfl
  · subst h; rw [remapKey_of_stored (by unfold storedKey; simp)]; rfl
  · subst h; rw [remapKey_of_stored (by unfold storedKey; simp)]; rfl
  · subst h; rw [remapKey_of_stored (by unfold storedKey; simp)]; rfl
  · subst h; subst hm; rfl
  · subst h; subst hm; rfl

/-- The six raw key codes that can be repeatable. -/
theorem raw_of_repeatable {key m : Nat} (hr : isRepeatable key m = true) :
    key = KEY_LEFT ∨ key = KEY_RIGHT ∨ key = KEY_UP ∨ key = KEY_DOWN ∨ key = KEY_F
      ∨ key = KEY_W := by
  unfold isRepeatable at hr
  simp only [decide_eq_true_eq] at hr
  rcases hr with (h | h | h | h) | ⟨h | h, -⟩ <;> simp [h]

theorem storedCode_injective {a b m n : Nat} (ha : isRepeatable a m = true)
    (hb : isRepeatable b n = true) (hab : a ≠ b) : storedCode a ≠ storedCode b := by
  revert hab
  rcases raw_of_repeatable ha with h | h | h | h | h | h <;>
    rcases raw_of_repeatable hb with h' | h' | h' | h' | h' | h' <;>
    subst h <;> subst h' <;> decide

theorem raw_ne_storedCode {a b m n : Nat} (ha : isRepeatable a m = true)
    (hb : isRepeatable b n = true) (hab : a ≠ b) : b ≠ storedCode a := by
  revert hab
  rcases raw_of_repeatable ha with h | h | h | h | h | h <;>
    rcases raw_of_repeatable hb with h' | h' | h' | h' | h' | h' <;>
    subst h <;> subst h' <;> decide

/-- The event key tells the stored codes apart, and no stored code other than the one of a
repeatable key `a` gives the event key of `a` or of its stored code. -/
theorem eventKey_ne {s a m : Nat} (hs : storedKey s) (ha : isRepeatable a m = true)
    (hne : s ≠ storedCode a) :
    KeyCodeToSbKey (toUInt16 s) ≠ KeyCodeToSbKey (toUInt16 a) ∧
      KeyCodeToSbKey (toUInt16 s) ≠ KeyCodeToSbKey (toUInt16 (storedCode a)) := by
  revert hne
  rcases hs with h | h | h | h | h | h | h <;>
    rcases raw_of_repeatable ha with h' | h' | h' | h' | h' | h' <;>
    subst h <;> subst h' <;> decide

/-- While `key_repeat_key_` differs from the stored code of `a` and `a` is not pressed,
it keeps differing. -/
theorem run_keeps_other_key {a m : Nat} (ha : isRepeatable a m = true) (rest : List Input) :
    ∀ h : Host, Inv h → h.input.key_repeat_key_ ≠ storedCode a →
      (∀ i ∈ rest, i ≠ .keyPressed a) →
      (run h rest).input.key_repeat_key_ ≠ storedCode a := by
  induction rest with
  | nil => intro h _ hne _; exact hne
  | cons i is ih =>
    intro h hi hne hno
    have hia : i ≠ .keyPressed a := hno i (List.mem_cons_self _ _)
    apply ih (step h i) (Inv_step hi i) _ (fun j hj => hno j (List.mem_cons_of_mem _ hj))
    rcases step_cases hi i with ⟨m', he, -⟩ | ⟨id, -, he⟩ | ⟨key, type, -, -, he⟩ |
        ⟨key, hik, hr, -, he⟩ | ⟨id, -, -, -, he⟩
    · rw [he]; exact hne
    · rw [he]; exact hne
    · rw [he]; exact hne
    · rw [he]
      show (remapKey h.input.key_modifiers_ key).1 ≠ storedCode a
      rw [remapKey_repeatable hr]
      apply storedCode_injective hr ha
      rintro rfl
      exact hia hik
    · rw [he]; exact hne

/-- What a firing emits in a reachable state: nothing, or one press event for
`key_repeat_key_` with the modifiers held, the cancellation of the fired handle and the
next callback after the repeat time. -/
theorem emitted_timerFired {h : Host} (hi : Inv h) (id : SbEventId) :
    emitted h (.timerFired id) = [] ∨
      emitted h (.timerFired id) =
        [Effect.inject (keyEvent .kSbInputEventTypePress
            (h.input.key_repeat_key_, h.input.key_modifiers_)),
         Effect.cancel h.input.key_repeat_event_id_,
         Effect.schedule h.next_event_id kKeyRepeatTime] := by
  by_cases hn : h.input.key_repeat_state_ = 0 ∨ id ≠ h.input.key_repeat_event_id_
  · left
    apply emitted_of_log
    show (fireTimer h id).log = _
    rw [fireTimer_none hi id hn]; simp
  · have hs : h.input.key_repeat_state_ ≠ 0 := fun hc => hn (Or.inl hc)
    have hid : id = h.input.key_repeat_event_id_ := by
      by_contra hc; exact hn (Or.inr hc)
    right
    apply emitted_of_log
    show (fireTimer h id).log = _
    rw [hid, fireTimer_armed hi hs]

/-- After a press of a repeatable key `a` in a reachable state, `a` is the key armed:
the state is not idle, `key_repeat_key_` is the stored code of `a`, and the modifiers are
as before. -/
theorem armed_after_press {h : Host} (hi : Inv h) {a : Nat}
    (ha : isRepeatable a h.input.key_modifiers_ = true) :
    (step h (.keyPressed a)).input.key_repeat_state_ ≠ 0 ∧
      (step h (.keyPressed a)).input.key_repeat_key_ = storedCode a ∧
      (step h (.keyPressed a)).input.key_modifiers_ = h.input.key_modifiers_ := by
  by_cases hk : a = h.input.key_repeat_key_ ∧ h.input.key_repeat_state_ ≠ 0
  · have he : step h (.keyPressed a) = h :=
      handleKey_suppressed h a (not_modifier_of_repeatable ha) ha hk.1 hk.2
    rw [he]
    refine ⟨hk.2, ?_, rfl⟩
    have hst := hi.stored
    rw [← hk.1] at hst ⊢
    rcases raw_of_repeatable ha with h' | h' | h' | h' | h' | h' <;> subst h' <;>
      first | rfl | (exfalso; revert hst; unfold storedKey; decide)
  · have he : step h (.keyPressed a) = _ := step_arm hi a ha hk
    rw [he]
    exact ⟨by simp, remapKey_repeatable ha, rfl⟩

/-- C6: in a reachable state, let two distinct repeatable keys A and B be pressed one
after the other, B before the callback of A fires. Then the callback pending after the
press of A is cancelled by the press of B and is not pending afterwards, the key armed is
B, and in every continuation that has no press of A, no firing of a callback emits an
event for A (neither with the key of A nor with the key its chord is remapped to). -/
theorem second_key_cancels_first (h : Host) (hr : Reachable h) (A B : Nat)
    (hA : isRepeatable A h.input.key_modifiers_ = true)
    (hB : isRepeatable B h.input.key_modifiers_ = true) (hAB : A ≠ B) :
    (step h (.keyPressed A)).pending =
        [((step h (.keyPressed A)).input.key_repeat_event_id_,
          (step h (.keyPressed A)).input.key_repeat_interval_)] ∧
      Effect.cancel (step h (.keyPressed A)).input.key_repeat_event_id_ ∈
        emitted (step h (.keyPressed A)) (.keyPressed B) ∧
      (∀ t ∈ (run h [.keyPressed A, .keyPressed B]).pending,
        t.1 ≠ (step h (.keyPressed A)).input.key_repeat_event_id_) ∧
      (run h [.keyPressed A, .keyPressed B]).input.key_repeat_state_ = 1 ∧
      (run h [.keyPressed A, .keyPressed B]).input.key_repeat_key_ =
        (remapKey h.input.key_modifiers_ B).1 ∧
      ∀ rest : List Input, (∀ i ∈ rest, i ≠ .keyPressed A) →
        ∀ (id : SbEventId) (d : SbInputData),
          Effect.inject d ∈
            emitted (run h (.keyPressed A :: .keyPressed B :: rest)) (.timerFired id) →
          d.key ≠ KeyCodeToSbKey (toUInt16 A) ∧
            d.key ≠ KeyCodeToSbKey (toUInt16 (remapKey h.input.key_modifiers_ A).1) := by
  have hi := Inv_of_reachable hr
  have hi1 : Inv (step h (.keyPressed A)) := Inv_step hi _
  obtain ⟨hs1, hk1, hm1⟩ := armed_after_press hi hA
  have hB1 : isRepeatable B (step h (.keyPressed A)).input.key_modifiers_ = true := by
    rw [hm1]; exact hB
  have hnk : ¬ (B = (step h (.keyPressed A)).input.key_repeat_key_ ∧
      (step h (.keyPressed A)).input.key_repeat_state_ ≠ 0) := by
    rintro ⟨hc, -⟩
    rw [hk1] at hc
    exact raw_ne_storedCode hA hB hAB hc
  have he2 : step (step h (.keyPressed A)) (.keyPressed B) = _ := step_arm hi1 B hB1 hnk
  have hrun2 : run h [.keyPressed A, .keyPressed B] =
      step (step h (.keyPressed A)) (.keyPressed B) := rfl
  have hi2 : Inv (step (step h (.keyPressed A)) (.keyPressed B)) := Inv_step hi1 _
  refine ⟨(hi1.armed hs1).2.2, ?_, ?_, ?_, ?_, ?_⟩
  · rw [emitted_of_log (congrArg Host.log he2), cancelLog_armed hi1 hs1]
    simp
  · rw [hrun2, he2]
    intro t ht
    simp only [List.mem_singleton] at ht
    rw [ht]
    exact Nat.ne_of_gt hi1.below
  · rw [hrun2, he2]
  · rw [hrun2, he2, hm1]
  · intro rest hrest id d hd
    have hrun : run h (.keyPressed A :: .keyPressed B :: rest) =
        run (step (step h (.keyPressed A)) (.keyPressed B)) rest := rfl
    rw [hrun] at hd
    have hi3 : Inv (run (step (step h (.keyPressed A)) (.keyPressed B)) rest) :=
      Inv_run hi2 rest
    have hk2 : (step (step h (.keyPressed A)) (.keyPressed B)).input.key_repeat_key_ ≠
        storedCode A := by
      rw [he2]
      show (remapKey _ B).1 ≠ storedCode A
      rw [remapKey_repeatable hB1]
      exact storedCode_injective hB hA (Ne.symm hAB)
    have hk3 := run_keeps_other_key hA rest _ hi2 hk2 hrest
    rcases emitted_timerFired hi3 id with he | he
    · rw [he] at hd; simp at hd
    · rw [he] at hd
      simp only [List.mem_cons, Effect.inject.injEq, List.mem_singleton, reduceCtorEq,
        or_false, List.not_mem_nil] at hd
      subst hd
      rw [remapKey_repeatable hA]
      exact eventKey_ne hi3.stored hA hk3

/-- Witness for C6: on a fresh `EssInput`, the left key and then the right key. -/
theorem second_key_cancels_first_witness :
    Reachable Host.fresh ∧ isRepeatable KEY_LEFT Host.fresh.input.key_modifiers_ = true ∧
      isRepeatable KEY_RIGHT Host.fresh.input.key_modifiers_ = true ∧ KEY_LEFT ≠ KEY_RIGHT ∧
      (run Host.fresh [.keyPressed KEY_LEFT, .keyPressed KEY_RIGHT]).input.key_repeat_state_
        = 1 :=
  ⟨⟨[], rfl⟩, by decide, by decide, by decide,
    (second_key_cancels_first Host.fresh ⟨[], rfl⟩ KEY_LEFT KEY_RIGHT (by decide) (by decide)
      (by decide)).2.2.2.1⟩

theorem not_modifier_of_armedFor {h : Host} (hi : Inv h) {k : Nat} (hk : armedFor h k) :
    KeyCodeToSbKeyModifiers (toUInt16 k) = kSbKeyModifiersNone := by
  rcases hk.2 with h1 | ⟨h1, -⟩ | ⟨h1, -⟩
  · rw [← h1]; exact not_modifier_of_stored hi.stored
  · subst h1; decide
  · subst h1; decide

/-- From an idle reachable state, inputs that are not presses add only release events to
the record and schedule nothing, and the state stays idle. -/
theorem run_no_press (rest : List Input) :
    ∀ h : Host, Inv h → h.input.key_repeat_state_ = 0 →
      (∀ i ∈ rest, ∀ key, i ≠ .keyPressed key) →
      (run h rest).input.key_repeat_state_ = 0 ∧
      ∃ es, (run h rest).log = h.log ++ es ∧ scheduledDelays es = [] ∧
        ∀ d ∈ injected es, d.type = .kSbInputEventTypeUnpress := by
  induction rest with
  | nil => intro h _ hs _; exact ⟨hs, [], by simp [run], rfl, by simp [injected]⟩
  | cons i is ih =>
    intro h hi hs hno
    have hnp : ∀ key, i ≠ .keyPressed key := hno i (List.mem_cons_self _ _)
    have hstep : (step h i).input.key_repeat_state_ = 0 ∧
        ∃ es, (step h i).log = h.log ++ es ∧ scheduledDelays es = [] ∧
          ∀ d ∈ injected es, d.type = .kSbInputEventTypeUnpress := by
      rcases step_cases hi i with ⟨m', he, -⟩ | ⟨id, -, he⟩ | ⟨key, type, hty, -, he⟩ |
          ⟨key, hik, -, -, -⟩ | ⟨id, -, -, hs', -⟩
      · rw [he]; exact ⟨hs, [], by simp, rfl, by simp [injected]⟩
      · rw [he]; exact ⟨hs, [], by simp, rfl, by simp [injected]⟩
      · rw [he]
        have hty2 : type = .kSbInputEventTypeUnpress := by
          rcases hty with ⟨hik, -, -⟩ | ⟨-, ht⟩
          · exact absurd hik (hnp key)
          · exact ht
        refine ⟨rfl, _, rfl, ?_, ?_⟩
        · rw [cancelLog_idle hi hs]; rfl
        · rw [cancelLog_idle hi hs]
          intro d hd
          simp only [List.append_nil, injected, List.mem_singleton] at hd
          rw [hd, hty2]; rfl
      · exact absurd hik (hnp key)
      · exact absurd hs hs'
    obtain ⟨hs1, es1, hl1, hd1, hi1⟩ := hstep
    obtain ⟨hs2, es2, hl2, hd2, hi2⟩ :=
      ih (step h i) (Inv_step hi i) hs1 (fun j hj => hno j (List.mem_cons_of_mem _ hj))
    refine ⟨hs2, es1 ++ es2, ?_, ?_, ?_⟩
    · show (run (step h i) is).log = _
      rw [hl2, hl1, List.append_assoc]
    · rw [scheduledDelays_append, hd1, hd2]; rfl
    · intro d hd
      rw [injected_append, List.mem_append] at hd
      rcases hd with hd | hd
      · exact hi1 d hd
      · exact hi2 d hd

/-- C7: in a reachable state in which key `k` is armed or repeating, a release of `k`
emits exactly one event, a release event, and cancels the scheduled callback; afterwards
no callback is pending, `key_repeat_state_` is 0, no handle is held and the next delay is
500 ms again; and in every continuation without a press, nothing is scheduled and every
event emitted is a release event, so no repeat event is emitted until a new press. -/
theorem release_of_armed_key (h : Host) (hr : Reachable h) (k : Nat) (hk : armedFor h k) :
    emitted h (.keyReleased k) =
        [Effect.inject (keyEvent .kSbInputEventTypeUnpress (remapKey h.input.key_modifiers_ k)),
         Effect.cancel h.input.key_repeat_event_id_] ∧
      h.pending = [(h.input.key_repeat_event_id_, h.input.key_repeat_interval_)] ∧
      (step h (.keyReleased k)).pending = [] ∧
      (step h (.keyReleased k)).input.key_repeat_state_ = 0 ∧
      (step h (.keyReleased k)).input.key_repeat_event_id_ = kSbEventIdInvalid ∧
      (step h (.keyReleased k)).input.key_repeat_interval_ = 500 * kSbTimeMillisecond ∧
      ∀ rest : List Input, (∀ i ∈ rest, ∀ key, i ≠ .keyPressed key) →
        ∃ es, (run h (.keyReleased k :: rest)).log = (step h (.keyReleased k)).log ++ es ∧
          scheduledDelays es = [] ∧
          ∀ d ∈ injected es, d.type = .kSbInputEventTypeUnpress := by
  have hi := Inv_of_reachable hr
  have he : step h (.keyReleased k) = _ :=
    step_idle hi k .kSbInputEventTypeUnpress (not_modifier_of_armedFor hi hk)
      (Or.inl (by decide))
  have hi1 : Inv (step h (.keyReleased k)) := Inv_step hi _
  have hs1 : (step h (.keyReleased k)).input.key_repeat_state_ = 0 := by rw [he]
  refine ⟨?_, (hi.armed hk.1).2.2, ?_, hs1, ?_, ?_, ?_⟩
  · rw [emitted_of_log (congrArg Host.log he), cancelLog_armed hi hk.1]; rfl
  · rw [he]
  · rw [he]
  · rw [he]; rfl
  · intro rest hrest
    exact (run_no_press rest _ hi1 hs1 hrest).2

/-- Witness for C7: the left key pressed on a fresh `EssInput`, then released. -/
theorem release_of_armed_key_witness :
    Reachable (run Host.fresh [.keyPressed KEY_LEFT]) ∧
      armedFor (run Host.fresh [.keyPressed KEY_LEFT]) KEY_LEFT ∧
      (step (run Host.fresh [.keyPressed KEY_LEFT]) (.keyReleased KEY_LEFT)).pending = [] :=
  ⟨⟨_, rfl⟩, ⟨by decide, Or.inl (by decide)⟩,
    (release_of_armed_key (run Host.fresh [.keyPressed KEY_LEFT]) ⟨_, rfl⟩ KEY_LEFT
      ⟨by decide, Or.inl (by decide)⟩).2.2.1⟩

/-- C8 as amended: in a reachable state in which a repeatable key is armed or repeating, a
press or a release of a key that is neither repeatable nor a modifier emits exactly one
event, for that key, and schedules nothing; it cancels the scheduled callback and ends
the repeat in flight: no callback is pending afterwards, `key_repeat_state_` is 0 and
`key_repeat_interval_` is the hold time, while `key_repeat_key_` and the modifiers are
unchanged. -/
theorem other_key_ends_repeat (h : Host) (hr : Reachable h)
    (hs : h.input.key_repeat_state_ ≠ 0) (B : Nat)
    (hm : KeyCodeToSbKeyModifiers (toUInt16 B) = kSbKeyModifiersNone)
    (hB : isRepeatable B h.input.key_modifiers_ = false) (i : Input)
    (type : SbInputEventType)
    (hin : i = .keyPressed B ∧ type = .kSbInputEventTypePress ∨
      i = .keyReleased B ∧ type = .kSbInputEventTypeUnpress) :
    emitted h i =
        [Effect.inject (keyEvent type (remapKey h.input.key_modifiers_ B)),
         Effect.cancel h.input.key_repeat_event_id_] ∧
      h.pending = [(h.input.key_repeat_event_id_, h.input.key_repeat_interval_)] ∧
      (step h i).pending = [] ∧
      (step h i).input.key_repeat_state_ = 0 ∧
      (step h i).input.key_repeat_event_id_ = kSbEventIdInvalid ∧
      (step h i).input.key_repeat_interval_ = kKeyHoldTime ∧
      (step h i).input.key_repeat_key_ = h.input.key_repeat_key_ ∧
      (step h i).input.key_modifiers_ = h.input.key_modifiers_ ∧
      (step h i).next_event_id = h.next_event_id := by
  have hi := Inv_of_reachable hr
  have he : step h i =
      { input := { h.input with
                    key_repeat_state_ := 0
                    key_repeat_event_id_ := kSbEventIdInvalid
                    key_repeat_interval_ := kKeyHoldTime }
        pending := []
        next_event_id := h.next_event_id
        log := h.log ++ ([Effect.inject (keyEvent type (remapKey h.input.key_modifiers_ B))]
                ++ cancelLog h) } := by
    rcases hin with ⟨h1, h2⟩ | ⟨h1, h2⟩ <;> subst h1 <;> subst h2 <;>
      exact step_idle hi B _ hm (Or.inr hB)
  refine ⟨?_, (hi.armed hs).2.2, ?_, ?_, ?_, ?_, ?_, ?_, ?_⟩
  · rw [emitted_of_log (congrArg Host.log he), cancelLog_armed hi hs]; rfl
  all_goals rw [he]

/-- Witness for C8 as amended: Enter pressed while the left key is armed. -/
theorem other_key_ends_repeat_witness :
    Reachable (run Host.fresh [.keyPressed KEY_LEFT]) ∧
      (run Host.fresh [.keyPressed KEY_LEFT]).input.key_repeat_state_ ≠ 0 ∧
      KeyCodeToSbKeyModifiers (toUInt16 KEY_ENTER) = kSbKeyModifiersNone ∧
      isRepeatable KEY_ENTER (run Host.fresh [.keyPressed KEY_LEFT]).input.key_modifiers_
        = false ∧
      (step (run Host.fresh [.keyPressed KEY_LEFT]) (.keyPressed KEY_ENTER)).pending = [] :=
  ⟨⟨_, rfl⟩, by decide, by decide, by decide,
    (other_key_ends_repeat (run Host.fresh [.keyPressed KEY_LEFT]) ⟨_, rfl⟩ (by decide)
      KEY_ENTER (by decide) (by decide) (.keyPressed KEY_ENTER) .kSbInputEventTypePress
      (Or.inl ⟨rfl, rfl⟩)).2.2.1⟩

/-! ## Theorems: `APIContext` -/

/-- C10: `RequestStop` performs `RequestQuit` if and only if no stop override is
registered or the registered override returns a non-zero value; a registered override is
invoked exactly once, with the user data registered with it, and no callback is invoked
when none is registered; and when the override returns 0 the invocation is all that
happens: `RequestQuit` is not entered, the application is not called, and the context is
unchanged. -/
theorem RequestStop_override (invoke : SbRdkCallbackFunc → Nat → Int) (c : APIContext) :
    (Obs.RequestQuit ∈ (APIContext.RequestStop invoke c).2 ↔
        (c.stop_request_cb_ = 0 ∨ invoke c.stop_request_cb_ c.stop_request_cb_data_ ≠ 0)) ∧
      (c.stop_request_cb_ ≠ 0 →
        callbacks (APIContext.RequestStop invoke c).2 =
          [(c.stop_request_cb_, c.stop_request_cb_data_)]) ∧
      (c.stop_request_cb_ = 0 → callbacks (APIContext.RequestStop invoke c).2 = []) ∧
      (c.stop_request_cb_ ≠ 0 → invoke c.stop_request_cb_ c.stop_request_cb_data_ = 0 →
        APIContext.RequestStop invoke c =
          (c, [Obs.callback c.stop_request_cb_ c.stop_request_cb_data_]) ∧
        Obs.RequestQuit ∉ (APIContext.RequestStop invoke c).2 ∧
        appCalls (APIContext.RequestStop invoke c).2 = []) := by
  unfold APIContext.RequestStop APIContext.RequestQuit
  by_cases hcb : c.stop_request_cb_ = 0
  · by_cases hr : c.running_ = true <;> simp [hcb, hr, callbacks, appCalls]
  · by_cases hv : invoke c.stop_request_cb_ c.stop_request_cb_data_ = 0
    · simp [hcb, hv, callbacks, appCalls]
    · by_cases hr : c.running_ = true <;> simp [hcb, hv, hr, callbacks, appCalls]

/-- Witness for C10: a running context with the override at address 7 and user data 9;
the override returns 0. -/
theorem RequestStop_override_witness :
    ({ running_ := true, stop_request_cb_ := 7, stop_request_cb_data_ := 9 } : APIContext).stop_request_cb_
        ≠ 0 ∧
      APIContext.RequestStop (fun _ _ => 0)
          { running_ := true, stop_request_cb_ := 7, stop_request_cb_data_ := 9 } =
        ({ running_ := true, stop_request_cb_ := 7, stop_request_cb_data_ := 9 },
          [Obs.callback 7 9]) :=
  ⟨by decide,
    ((RequestStop_override (fun _ _ => 0)
      { running_ := true, stop_request_cb_ := 7, stop_request_cb_data_ := 9 }).2.2.2
        (by decide) rfl).1⟩

theorem lookup_set {l : List Thread} {tid : Nat} {th' : Thread} {j : Nat} {t : Thread}
    (hj : (l.set tid th')[j]? = some t) :
    (j = tid ∧ t = th') ∨ (j ≠ tid ∧ l[j]? = some t) := by
  rw [List.getElem?_set] at hj
  by_cases h : tid = j
  · left
    rw [if_pos h] at hj
    split at hj
    · exact ⟨h.symm, (Option.some.inj hj).symm⟩
    · exact absurd hj (by simp)
  · right
    rw [if_neg h] at hj
    exact ⟨fun hc => h hc.symm, hj⟩

theorem lookup_set_op {l : List Thread} {tid : Nat} {th : Thread} (th' : Thread)
    (h : l[tid]? = some th) (hop : th'.op = th.op) {j : Nat} {t : Thread}
    (hj : l[j]? = some t) :
    ∃ t', (l.set tid th')[j]? = some t' ∧ t'.op = t.op := by
  by_cases hjt : j = tid
  · subst hjt
    have hlt : j < l.length := by
      rcases Nat.lt_or_ge j l.length with h1 | h1
      · exact h1
      · rw [List.getElem?_eq_none h1] at h; exact absurd h (by simp)
    refine ⟨th', by rw [List.getElem?_set_self hlt], ?_⟩
    rw [h] at hj
    rw [hop, Option.some.inj hj]
  · exact ⟨t, by rw [List.getElem?_set_ne (fun hc => hjt hc.symm)]; exact hj, rfl⟩

theorem lookup_broadcast {l : List Thread} {j : Nat} {t : Thread}
    (hj : (broadcast l)[j]? = some t) :
    ∃ t0, l[j]? = some t0 ∧ t.op = t0.op ∧ t.sem = t0.sem ∧
      (t.pc = t0.pc ∨ (t0.pc = .condWait ∧ t.pc = .condWake)) := by
  unfold broadcast at hj
  rw [List.getElem?_map] at hj
  cases h0 : l[j]? with
  | none => rw [h0] at hj; exact absurd hj (by simp)
  | some t0 =>
    rw [h0] at hj
    simp only [Option.map_some'] at hj
    have ht := Option.some.inj hj
    refine ⟨t0, rfl, ?_⟩
    by_cases hp : t0.pc = .condWait
    · rw [if_pos hp] at ht
      subst ht
      exact ⟨rfl, rfl, Or.inr ⟨hp, rfl⟩⟩
    · rw [if_neg hp] at ht
      subst ht
      exact ⟨rfl, rfl, Or.inl rfl⟩

theorem lookup_broadcast_op {l : List Thread} {j : Nat} {t : Thread}
    (hj : l[j]? = some t) : ∃ t', (broadcast l)[j]? = some t' ∧ t'.op = t.op := by
  unfold broadcast
  rw [List.getElem?_map, hj]
  by_cases hp : t.pc = .condWait
  · exact ⟨{ t with pc := .condWake }, by simp only [Option.map_some', if_pos hp], rfl⟩
  · exact ⟨t, by simp only [Option.map_some', if_neg hp], rfl⟩

theorem lookup_append {l : List Thread} {x : Thread} {j : Nat} {t : Thread}
    (hj : (l ++ [x])[j]? = some t) : l[j]? = some t ∨ (j = l.length ∧ t = x) := by
  rcases Nat.lt_or_ge j l.length with h1 | h1
  · left; rw [List.getElem?_append_left h1] at hj; exact hj
  · right
    rw [List.getElem?_append_right h1] at hj
    have h2 : j - l.length = 0 := by
      by_contra hc
      have : ([x] : List Thread)[j - l.length]? = none := by
        apply List.getElem?_eq_none
        simp only [List.length_singleton]
        omega
      rw [this] at hj; exact absurd hj (by simp)
    rw [h2] at hj
    exact ⟨by omega, (Option.some.inj hj).symm⟩

theorem lookup_putSemaphore {l : List Thread} {c : Option Nat} {j : Nat} {t : Thread}
    (hj : (putSemaphore l c)[j]? = some t) :
    l[j]? = some t ∨
      (c = some j ∧ ∃ t0, l[j]? = some t0 ∧ t = { t0 with sem := t0.sem + 1 }) := by
  unfold putSemaphore at hj
  cases c with
  | none => exact Or.inl hj
  | some tid =>
    simp only at hj
    cases h0 : l[tid]? with
    | none => rw [h0] at hj; exact Or.inl hj
    | some t0 =>
      rw [h0] at hj
      simp only at hj
      rcases lookup_set hj with ⟨h1, h2⟩ | ⟨-, h2⟩
      · subst h1
        exact Or.inr ⟨rfl, t0, h0, h2⟩
      · exact Or.inl h2

theorem lookup_putSemaphore_op {l : List Thread} (c : Option Nat) {j : Nat} {t : Thread}
    (hj : l[j]? = some t) : ∃ t', (putSemaphore l c)[j]? = some t' ∧ t'.op = t.op := by
  unfold putSemaphore
  cases c with
  | none => exact ⟨t, hj, rfl⟩
  | some tid =>
    cases h0 : l[tid]? with
    | none => exact ⟨t, by simp only [h0]; exact hj, rfl⟩
    | some t0 =>
      obtain ⟨t', h1, h2⟩ :=
        lookup_set_op { t0 with sem := t0.sem + 1 } h0 rfl hj
      exact ⟨t', by simp only [h0]; exact h1, h2⟩

theorem eventOf_context {api tid t : Nat} {op : BlockingOp}
    (h : (eventOf api tid op).context = some t) : t = tid := by
  unfold eventOf at h
  simp only at h
  split at h
  · exact (Option.some.inj h).symm
  · exact absurd h (by simp)

/-- The invariant survives a step of thread `tid` that changes its own record, the holder
of the mutex and the queue, under the conditions each of the five properties asks for. -/
theorem Inv_update {s : Sys} (hi : s.Inv) {tid : Nat} {th : Thread} (th' : Thread)
    (hth : s.threads[tid]? = some th) (hop : th'.op = th.op) (m' : Option Nat)
    (q' : List AppEvent)
    (hm : (th'.pc = .atTest ∨ th'.pc = .ready ∨ th'.pc = .take) → m' = some tid)
    (hm2 : m' = s.mutex_ ∨ s.mutex_ = none ∨ s.mutex_ = some tid)
    (hrun : th'.pc = .ready → s.ctx.running_ = true)
    (hq : ∀ e ∈ q', e = eventOf s.sb_api_version tid th.op)
    (hput : 0 < th'.sem → eventOf s.sb_api_version tid th.op ∈ s.handled)
    (hret : th'.pc = .done → th.op.usesSemaphore = true →
      eventOf s.sb_api_version tid th.op ∈ s.handled) :
    Sys.Inv { s with mutex_ := m', threads := s.threads.set tid th', queue := s.queue ++ q' } := by
  constructor
  · intro j t hj hpc
    rcases lookup_set hj with ⟨h1, h2⟩ | ⟨h1, h2⟩
    · subst h1; subst h2; exact hm hpc
    · have h3 := hi.holds j t h2 hpc
      rcases hm2 with h4 | h4 | h4
      · show m' = some j
        rw [h4]; exact h3
      · rw [h4] at h3; exact absurd h3 (by simp)
      · rw [h4] at h3; exact absurd (Option.some.inj h3).symm h1
  · intro j t hj hpc
    rcases lookup_set hj with ⟨h1, h2⟩ | ⟨-, h2⟩
    · subst h2; exact hrun hpc
    · exact hi.running j t h2 hpc
  · intro e he j hc
    show ∃ t, (s.threads.set tid th')[j]? = some t ∧ e = eventOf s.sb_api_version j t.op
    rcases List.mem_append.mp he with he | he
    · obtain ⟨t, h1, h2⟩ := hi.queued e he j hc
      obtain ⟨t', h3, h4⟩ := lookup_set_op th' hth hop h1
      exact ⟨t', h3, by rw [h4]; exact h2⟩
    · have h1 := hq e he
      have h2 : j = tid := by rw [h1] at hc; exact eventOf_context hc
      subst h2
      obtain ⟨t', h3, h4⟩ := lookup_set_op th' hth hop hth
      exact ⟨t', h3, by rw [h4]; exact h1⟩
  · intro j t hj hs
    rcases lookup_set hj with ⟨h1, h2⟩ | ⟨-, h2⟩
    · subst h1; subst h2
      show eventOf s.sb_api_version j t.op ∈ s.handled
      rw [hop]; exact hput hs
    · exact hi.put j t h2 hs
  · intro j t hj hpc hu
    rcases lookup_set hj with ⟨h1, h2⟩ | ⟨-, h2⟩
    · subst h1; subst h2
      show eventOf s.sb_api_version j t.op ∈ s.handled
      rw [hop]; exact hret hpc (by rw [← hop]; exact hu)
    · exact hi.returned j t h2 hpc hu

/-- The invariant survives a step that leaves the threads, the mutex, `running_` and the
dispatched events alone and adds to the queue only events without a semaphore. -/
theorem Inv_other {s : Sys} (hi : s.Inv) (c : APIContext) (hc : c.running_ = s.ctx.running_)
    (q' : List AppEvent) (hq : ∀ e ∈ q', e.context = none) :
    Sys.Inv { s with ctx := c, queue := s.queue ++ q' } := by
  refine ⟨hi.holds, ?_, ?_, hi.put, hi.returned⟩
  · intro j t hj hpc
    show c.running_ = true
    rw [hc]; exact hi.running j t hj hpc
  · intro e he j hcx
    rcases List.mem_append.mp he with he | he
    · exact hi.queued e he j hcx
    · rw [hq e he] at hcx; exact absurd hcx (by simp)

theorem Inv_threadStep {s s' : Sys} (hi : s.Inv) {tid : Nat} {th : Thread}
    (hth : s.threads[tid]? = some th) {a : Action} (hs : s.threadStep tid th a = some s') :
    s'.Inv := by
  cases a with
  | acquire _ =>
    simp only [Sys.threadStep] at hs
    split at hs
    · rename_i hc
      have h1 := Inv_update hi { th with pc := .atTest } hth rfl (some tid) []
        (fun _ => rfl) (Or.inr (Or.inl hc.2)) (by simp)
        (by simp) (fun h => hi.put tid th hth h) (by simp)
      simp only [List.append_nil] at h1
      rw [← Option.some.inj hs]; exact h1
    · exact absurd hs (by simp)
  | test _ =>
    simp only [Sys.threadStep] at hs
    split at hs
    · rename_i hc
      have hm := hi.holds tid th hth (Or.inl hc)
      split at hs
      · have h1 := Inv_update hi { th with pc := .condWait } hth rfl none []
          (by simp) (Or.inr (Or.inr hm)) (by simp)
          (by simp) (fun h => hi.put tid th hth h) (by simp)
        simp only [List.append_nil] at h1
        rw [← Option.some.inj hs]; exact h1
      · rename_i hr
        have h1 := Inv_update hi { th with pc := .ready } hth rfl s.mutex_ []
          (fun _ => hm) (Or.inl rfl) (fun _ => by simpa using hr)
          (by simp) (fun h => hi.put tid th hth h) (by simp)
        simp only [List.append_nil] at h1
        rw [← Option.some.inj hs]; exact h1
    · exact absurd hs (by simp)
  | wake _ =>
    simp only [Sys.threadStep] at hs
    split at hs
    · have h1 := Inv_update hi { th with pc := .condWake } hth rfl s.mutex_ []
        (by simp) (Or.inl rfl) (by simp)
        (by simp) (fun h => hi.put tid th hth h) (by simp)
      simp only [List.append_nil] at h1
      rw [← Option.some.inj hs]; exact h1
    · exact absurd hs (by simp)
  | submit _ =>
    simp only [Sys.threadStep] at hs
    split at hs
    · rename_i hc
      have hm := hi.holds tid th hth (Or.inr (Or.inl hc))
      split at hs
      · have h1 := Inv_update hi { th with pc := .take, sem := 0 } hth rfl s.mutex_
          [eventOf s.sb_api_version tid th.op]
          (fun _ => hm) (Or.inl rfl) (by simp)
          (by simp) (by simp) (by simp)
        rw [← Option.some.inj hs]; exact h1
      · rename_i hu
        have h1 := Inv_update hi { th with pc := .done } hth rfl none
          [eventOf s.sb_api_version tid th.op]
          (by simp) (Or.inr (Or.inr hm)) (by simp)
          (by simp) (fun h => hi.put tid th hth h) (fun _ h => absurd h hu)
        rw [← Option.some.inj hs]; exact h1
    · exact absurd hs (by simp)
  | takeSem _ =>
    simp only [Sys.threadStep] at hs
    split at hs
    · rename_i hc
      have hm := hi.holds tid th hth (Or.inr (Or.inr hc.1))
      have hp := hi.put tid th hth hc.2
      have h1 := Inv_update hi { th with pc := .done, sem := th.sem - 1 } hth rfl
        none [] (by simp) (Or.inr (Or.inr hm)) (by simp)
        (by simp) (fun _ => hp) (fun _ _ => hp)
      simp only [List.append_nil] at h1
      rw [← Option.some.inj hs]; exact h1
    · exact absurd hs (by simp)
  | _ => exact absurd hs (by simp [Sys.threadStep])

theorem appCalls_RequestQuit_context (c : APIContext) :
    ∀ e ∈ appCalls (APIContext.RequestQuit c).2, e.context = none := by
  unfold APIContext.RequestQuit
  by_cases hr : c.running_ = true <;> simp [hr, appCalls]

theorem RequestQuit_running (c : APIContext) :
    (APIContext.RequestQuit c).1.running_ = c.running_ := by
  unfold APIContext.RequestQuit
  by_cases hr : c.running_ = true <;> simp [hr]

theorem SetCobaltExitStrategy_running (c : APIContext) (strategy : String) :
    (APIContext.SetCobaltExitStrategy c strategy).running_ = c.running_ := by
  unfold APIContext.SetCobaltExitStrategy
  split
  · rfl
  · split
    · rfl
    · split <;> rfl

theorem Sys.step_thread {s s' : Sys} {tid : Nat} {a : Action}
    (hs : (s.threads[tid]?).bind (fun th => s.threadStep tid th a) = some s') :
    ∃ th, s.threads[tid]? = some th ∧ s.threadStep tid th a = some s' := by
  cases h : s.threads[tid]? with
  | none => rw [h] at hs; exact absurd hs (by simp)
  | some th => rw [h] at hs; exact ⟨th, rfl, hs⟩

theorem Inv_init (application : Bool) (sb_api_version : Nat) :
    Sys.Inv { application := application, sb_api_version := sb_api_version } := by
  constructor <;> simp

theorem Inv_sys_step {s s' : Sys} (hi : s.Inv) {a : Action} (hs : s.step a = some s') :
    s'.Inv := by
  cases a with
  | call op =>
    simp only [Sys.step, Option.some.injEq] at hs
    subst hs
    constructor
    · intro j t hj hpc
      rcases lookup_append hj with h1 | ⟨-, h1⟩
      · exact hi.holds j t h1 hpc
      · subst h1; simp at hpc
    · intro j t hj hpc
      rcases lookup_append hj with h1 | ⟨-, h1⟩
      · exact hi.running j t h1 hpc
      · subst h1; simp at hpc
    · intro e he j hc
      obtain ⟨t, h1, h2⟩ := hi.queued e he j hc
      refine ⟨t, ?_, h2⟩
      show (s.threads ++ _)[j]? = some t
      rw [List.getElem?_append_left]
      · exact h1
      · rcases Nat.lt_or_ge j s.threads.length with h3 | h3
        · exact h3
        · rw [List.getElem?_eq_none h3] at h1; exact absurd h1 (by simp)
    · intro j t hj hsem
      rcases lookup_append hj with h1 | ⟨-, h1⟩
      · exact hi.put j t h1 hsem
      · subst h1; simp at hsem
    · intro j t hj hpc hu
      rcases lookup_append hj with h1 | ⟨-, h1⟩
      · exact hi.returned j t h1 hpc hu
      · subst h1; simp at hpc
  | acquire tid =>
    obtain ⟨th, h1, h2⟩ := Sys.step_thread hs; exact Inv_threadStep hi h1 h2
  | test tid =>
    obtain ⟨th, h1, h2⟩ := Sys.step_thread hs; exact Inv_threadStep hi h1 h2
  | wake tid =>
    obtain ⟨th, h1, h2⟩ := Sys.step_thread hs; exact Inv_threadStep hi h1 h2
  | submit tid =>
    obtain ⟨th, h1, h2⟩ := Sys.step_thread hs; exact Inv_threadStep hi h1 h2
  | takeSem tid =>
    obtain ⟨th, h1, h2⟩ := Sys.step_thread hs; exact Inv_threadStep hi h1 h2
  | beginInit =>
    simp only [Sys.step] at hs
    split at hs
    · rw [← Option.some.inj hs]
      exact ⟨hi.holds, hi.running, hi.queued, hi.put, hi.returned⟩
    · exact absurd hs (by simp)
  | beginTeardown =>
    simp only [Sys.step] at hs
    split at hs
    · rw [← Option.some.inj hs]
      exact ⟨hi.holds, hi.running, hi.queued, hi.put, hi.returned⟩
    · exact absurd hs (by simp)
  | enter =>
    simp only [Sys.step] at hs
    split at hs
    · rename_i hm
      split at hs
      · exact absurd hs (by simp)
      · rw [← Option.some.inj hs]
        constructor
        · intro j t hj hpc
          obtain ⟨t0, h1, -, -, h2⟩ := lookup_broadcast hj
          rcases h2 with h2 | ⟨-, h2⟩
          · rw [h2] at hpc; exact hi.holds j t0 h1 hpc
          · rw [h2] at hpc; simp at hpc
        · intro j t hj hpc
          obtain ⟨t0, h1, -, -, h2⟩ := lookup_broadcast hj
          rcases h2 with h2 | ⟨-, h2⟩
          · rw [h2] at hpc
            have := hi.holds j t0 h1 (Or.inr (Or.inl hpc))
            rw [hm] at this; exact absurd this (by simp)
          · rw [h2] at hpc; simp at hpc
        · intro e he j hc
          obtain ⟨t, h1, h2⟩ := hi.queued e he j hc
          obtain ⟨t', h3, h4⟩ := lookup_broadcast_op h1
          exact ⟨t', h3, by rw [h4]; exact h2⟩
        · intro j t hj hsem
          obtain ⟨t0, h1, h2, h3, -⟩ := lookup_broadcast hj
          show eventOf s.sb_api_version j t.op ∈ s.handled
          rw [h2]; exact hi.put j t0 h1 (by rw [← h3]; exact hsem)
        · intro j t hj hpc hu
          obtain ⟨t0, h1, h2, -, h3⟩ := lookup_broadcast hj
          show eventOf s.sb_api_version j t.op ∈ s.handled
          rcases h3 with h3 | ⟨-, h3⟩
          · rw [h2]; exact hi.returned j t0 h1 (by rw [← h3]; exact hpc) (by rw [← h2]; exact hu)
          · rw [h3] at hpc; simp at hpc
      · rw [← Option.some.inj hs]
        refine ⟨hi.holds, ?_, hi.queued, hi.put, hi.returned⟩
        intro j t hj hpc
        have := hi.holds j t hj (Or.inr (Or.inl hpc))
        rw [hm] at this; exact absurd this (by simp)
    · exact absurd hs (by simp)
  | dispatch =>
    simp only [Sys.step] at hs
    split at hs
    · split at hs
      · exact absurd hs (by simp)
      · rename_i e rest hq
        rw [← Option.some.inj hs]
        constructor
        · intro j t hj hpc
          rcases lookup_putSemaphore hj with h1 | ⟨-, t0, h1, h2⟩
          · exact hi.holds j t h1 hpc
          · subst h2; exact hi.holds j t0 h1 hpc
        · intro j t hj hpc
          rcases lookup_putSemaphore hj with h1 | ⟨-, t0, h1, h2⟩
          · exact hi.running j t h1 hpc
          · subst h2; exact hi.running j t0 h1 hpc
        · intro e' he j hc
          obtain ⟨t, h1, h2⟩ := hi.queued e' (by rw [hq]; exact List.mem_cons_of_mem _ he) j hc
          obtain ⟨t', h3, h4⟩ := lookup_putSemaphore_op e.context h1
          exact ⟨t', h3, by rw [h4]; exact h2⟩
        · intro j t hj hsem
          show eventOf s.sb_api_version j t.op ∈ s.handled ++ [e]
          rcases lookup_putSemaphore hj with h1 | ⟨hc, t0, h1, h2⟩
          · exact List.mem_append_left _ (hi.put j t h1 hsem)
          · obtain ⟨t1, h3, h4⟩ := hi.queued e (by rw [hq]; exact List.mem_cons_self _ _) j hc
            rw [h1] at h3
            have h5 := Option.some.inj h3
            subst h2
            apply List.mem_append_right
            rw [h4, ← h5]
            exact List.mem_singleton_self _
        · intro j t hj hpc hu
          show eventOf s.sb_api_version j t.op ∈ s.handled ++ [e]
          rcases lookup_putSemaphore hj with h1 | ⟨-, t0, h1, h2⟩
          · exact List.mem_append_left _ (hi.returned j t h1 hpc hu)
          · subst h2
            exact List.mem_append_left _ (hi.returned j t0 h1 hpc hu)
    · exact absurd hs (by simp)
  | quit =>
    simp only [Sys.step] at hs
    split at hs
    · rw [← Option.some.inj hs]
      exact Inv_other hi _ (RequestQuit_running _) _ (appCalls_RequestQuit_context _)
    · exact absurd hs (by simp)
  | setStopRequestHandler cb d =>
    simp only [Sys.step] at hs
    split at hs
    · rw [← Option.some.inj hs]
      have := Inv_other hi (APIContext.SetStopRequestHandler s.ctx cb d) rfl [] (by simp)
      simpa using this
    · exact absurd hs (by simp)
  | setConcealRequestHandler cb d =>
    simp only [Sys.step] at hs
    split at hs
    · rw [← Option.some.inj hs]
      have := Inv_other hi (APIContext.SetConcealRequestHandler s.ctx cb d) rfl [] (by simp)
      simpa using this
    · exact absurd hs (by simp)
  | conceal =>
    simp only [Sys.step, Option.some.injEq] at hs
    rw [← hs]
    have := Inv_other hi s.ctx rfl [concealEvent s.sb_api_version] (by simp [concealEvent])
    exact this
  | setCobaltExitStrategy strategy =>
    simp only [Sys.step, Option.some.injEq] at hs
    rw [← hs]
    have := Inv_other hi (APIContext.SetCobaltExitStrategy s.ctx strategy)
      (SetCobaltExitStrategy_running _ _) [] (by simp)
    simpa using this

theorem Inv_exec (as : List Action) :
    ∀ {s s' : Sys}, s.Inv → s.exec as = some s' → s'.Inv := by
  induction as with
  | nil =>
    intro s s' hi hs
    simp only [Sys.exec, Option.some.injEq] at hs
    rw [← hs]; exact hi
  | cons a as ih =>
    intro s s' hi hs
    simp only [Sys.exec] at hs
    cases h : s.step a with
    | none => rw [h] at hs; exact absurd hs (by simp)
    | some s1 =>
      rw [h] at hs
      exact ih (Inv_sys_step hi h) hs

theorem Inv_of_sys_reachable {s : Sys} (hr : s.Reachable) : s.Inv := by
  obtain ⟨app, api, as, h⟩ := hr
  exact Inv_exec as (Inv_init app api) h

/-- What a step of a caller thread does: it replaces its own record, keeping the
operation and not raising the semaphore; it leaves `WaitForApp` only through the `while`
test with `running_` true; and it adds to the queue only in `submit`, its own event. -/
theorem threadStep_shape {s s' : Sys} {j : Nat} {tj : Thread} {a : Action}
    (hs : s.threadStep j tj a = some s') :
    ∃ tj', s'.threads = s.threads.set j tj' ∧ s'.ctx = s.ctx ∧ tj'.op = tj.op ∧
      tj'.sem ≤ tj.sem ∧
      (tj.pc.inWaitForApp → tj'.pc.inWaitForApp ∨
        ((∃ t, a = .test t) ∧ s.ctx.running_ = true ∧ tj'.pc = .ready)) ∧
      (s'.queue = s.queue ∨
        ((∃ t, a = .submit t) ∧ tj.pc = .ready ∧
          s'.queue = s.queue ++ [eventOf s.sb_api_version j tj.op])) ∧
      (tj'.pc = .take → tj.pc ≠ .take → tj'.sem = 0) := by
  cases a with
  | acquire _ =>
    simp only [Sys.threadStep] at hs
    split at hs
    · rw [← Option.some.inj hs]
      exact ⟨_, rfl, rfl, rfl, Nat.le_refl _, fun _ => Or.inl (Or.inl rfl), Or.inl rfl,
        by simp⟩
    · exact absurd hs (by simp)
  | test t =>
    simp only [Sys.threadStep] at hs
    split at hs
    · split at hs
      · rw [← Option.some.inj hs]
        exact ⟨_, rfl, rfl, rfl, Nat.le_refl _, fun _ => Or.inl (Or.inr (Or.inl rfl)),
          Or.inl rfl, by simp⟩
      · rename_i hr
        rw [← Option.some.inj hs]
        exact ⟨_, rfl, rfl, rfl, Nat.le_refl _,
          fun _ => Or.inr ⟨⟨t, rfl⟩, by simpa using hr, rfl⟩, Or.inl rfl, by simp⟩
    · exact absurd hs (by simp)
  | wake _ =>
    simp only [Sys.threadStep] at hs
    split at hs
    · rw [← Option.some.inj hs]
      exact ⟨_, rfl, rfl, rfl, Nat.le_refl _, fun _ => Or.inl (Or.inr (Or.inr rfl)),
        Or.inl rfl, by simp⟩
    · exact absurd hs (by simp)
  | submit t =>
    simp only [Sys.threadStep] at hs
    split at hs
    · rename_i hc
      split at hs
      · rw [← Option.some.inj hs]
        refine ⟨_, rfl, rfl, rfl, Nat.zero_le _, ?_, Or.inr ⟨⟨t, rfl⟩, hc, rfl⟩, fun _ _ => rfl⟩
        intro hw
        rw [hc] at hw
        exact absurd hw (by simp [Pc.inWaitForApp])
      · rw [← Option.some.inj hs]
        refine ⟨_, rfl, rfl, rfl, Nat.le_refl _, ?_, Or.inr ⟨⟨t, rfl⟩, hc, rfl⟩, by simp⟩
        intro hw
        rw [hc] at hw
        exact absurd hw (by simp [Pc.inWaitForApp])
    · exact absurd hs (by simp)
  | takeSem _ =>
    simp only [Sys.threadStep] at hs
    split at hs
    · rename_i hc
      rw [← Option.some.inj hs]
      refine ⟨_, rfl, rfl, rfl, Nat.sub_le _ _, ?_, Or.inl rfl, by simp⟩
      intro hw
      rw [hc.1] at hw
      exact absurd hw (by simp [Pc.inWaitForApp])
    · exact absurd hs (by simp)
  | _ => exact absurd hs (by simp [Sys.threadStep])

/-- How one step changes the record of a thread: the operation stays; the semaphore is
raised only by the dispatch of an event that carries it; the thread leaves `WaitForApp`
only through its own `while` test with `running_` true. -/
theorem step_thread_change {s s' : Sys} {a : Action} (hs : s.step a = some s')
    {tid : Nat} {th th' : Thread} (h0 : s.threads[tid]? = some th)
    (h1 : s'.threads[tid]? = some th') :
    (th.sem < th'.sem →
      a = .dispatch ∧ ∃ e rest, s.queue = e :: rest ∧ e.context = some tid) ∧
    (th.pc.inWaitForApp → th'.pc.inWaitForApp ∨
      (a = .test tid ∧ s.ctx.running_ = true ∧ th'.pc = .ready)) := by
  have thread_case : ∀ (j : Nat) (a' : Action),
      (s.threads[j]?).bind (fun tj => s.threadStep j tj a') = some s' →
      ((∃ t, a' = .test t) → a' = .test j) →
      (th.sem < th'.sem →
        a' = .dispatch ∧ ∃ e rest, s.queue = e :: rest ∧ e.context = some tid) ∧
      (th.pc.inWaitForApp → th'.pc.inWaitForApp ∨
        (a' = .test tid ∧ s.ctx.running_ = true ∧ th'.pc = .ready)) := by
    intro j a' hs' hta
    obtain ⟨tj, h2, h3⟩ := Sys.step_thread hs'
    obtain ⟨tj', h4, -, -, h6, h7, -, -⟩ := threadStep_shape h3
    rw [h4] at h1
    rcases lookup_set h1 with ⟨h8, h9⟩ | ⟨-, h9⟩
    · subst h8; subst h9
      rw [h0] at h2
      have h10 := Option.some.inj h2
      subst h10
      refine ⟨fun hlt => absurd hlt (Nat.not_lt.mpr h6), ?_⟩
      intro hw
      rcases h7 hw with h11 | ⟨h11, h12, h13⟩
      · exact Or.inl h11
      · exact Or.inr ⟨hta h11, h12, h13⟩
    · rw [h0] at h9
      have h10 := Option.some.inj h9
      subst h10
      exact ⟨fun hlt => absurd hlt (Nat.lt_irrefl _), fun hw => Or.inl hw⟩
  have same : s'.threads = s.threads →
      (th.sem < th'.sem →
        a = .dispatch ∧ ∃ e rest, s.queue = e :: rest ∧ e.context = some tid) ∧
      (th.pc.inWaitForApp → th'.pc.inWaitForApp ∨
        (a = .test tid ∧ s.ctx.running_ = true ∧ th'.pc = .ready)) := by
    intro he
    rw [he, h0] at h1
    have h10 := Option.some.inj h1
    subst h10
    exact ⟨fun hlt => absurd hlt (Nat.lt_irrefl _), fun hw => Or.inl hw⟩
  cases a with
  | call op =>
    simp only [Sys.step, Option.some.injEq] at hs
    rw [← hs] at h1
    rcases lookup_append h1 with h2 | ⟨h2, -⟩
    · rw [h0] at h2
      have h10 := Option.some.inj h2
      subst h10
      exact ⟨fun hlt => absurd hlt (Nat.lt_irrefl _), fun hw => Or.inl hw⟩
    · rw [h2, List.getElem?_eq_none (Nat.le_refl _)] at h0
      exact absurd h0 (by simp)
  | acquire j => exact thread_case j _ hs (by simp)
  | test j => exact thread_case j _ hs (fun _ => rfl)
  | wake j => exact thread_case j _ hs (by simp)
  | submit j => exact thread_case j _ hs (by simp)
  | takeSem j => exact thread_case j _ hs (by simp)
  | beginInit =>
    simp only [Sys.step] at hs
    split at hs
    · exact same (by rw [← Option.some.inj hs])
    · exact absurd hs (by simp)
  | beginTeardown =>
    simp only [Sys.step] at hs
    split at hs
    · exact same (by rw [← Option.some.inj hs])
    · exact absurd hs (by simp)
  | enter =>
    simp only [Sys.step] at hs
    split at hs
    · split at hs
      · exact absurd hs (by simp)
      · rw [← Option.some.inj hs] at h1
        obtain ⟨t0, h2, -, h3, h4⟩ := lookup_broadcast h1
        rw [h0] at h2
        have h10 := Option.some.inj h2
        subst h10
        refine ⟨fun hlt => absurd hlt (by rw [h3]; exact Nat.lt_irrefl _), ?_⟩
        intro hw
        rcases h4 with h4 | ⟨-, h4⟩
        · rw [h4]; exact Or.inl hw
        · rw [h4]; exact Or.inl (Or.inr (Or.inr rfl))
      · exact same (by rw [← Option.some.inj hs])
    · exact absurd hs (by simp)
  | dispatch =>
    simp only [Sys.step] at hs
    split at hs
    · split at hs
      · exact absurd hs (by simp)
      · rename_i e rest hq
        rw [← Option.some.inj hs] at h1
        rcases lookup_putSemaphore h1 with h2 | ⟨hc, t0, h2, h3⟩
        · rw [h0] at h2
          have h10 := Option.some.inj h2
          subst h10
          exact ⟨fun hlt => absurd hlt (Nat.lt_irrefl _), fun hw => Or.inl hw⟩
        · rw [h0] at h2
          have h10 := Option.some.inj h2
          subst h10
          subst h3
          exact ⟨fun _ => ⟨rfl, e, rest, hq, hc⟩, fun hw => Or.inl hw⟩
    · exact absurd hs (by simp)
  | quit =>
    simp only [Sys.step] at hs
    split at hs
    · exact same (by rw [← Option.some.inj hs])
    · exact absurd hs (by simp)
  | setStopRequestHandler cb d =>
    simp only [Sys.step] at hs
    split at hs
    · exact same (by rw [← Option.some.inj hs])
    · exact absurd hs (by simp)
  | setConcealRequestHandler cb d =>
    simp only [Sys.step] at hs
    split at hs
    · exact same (by rw [← Option.some.inj hs])
    · exact absurd hs (by simp)
  | conceal =>
    simp only [Sys.step, Option.some.injEq] at hs
    exact same (by rw [← hs])
  | setCobaltExitStrategy strategy =>
    simp only [Sys.step, Option.some.injEq] at hs
    exact same (by rw [← hs])

/-- C1: in every reachable state of the system of caller threads and run loop,
(1) a thread that has returned from `RequestSuspend`, `RequestResume`, `RequestPause` or
`RequestUnpause` has had its own event, the transition with its semaphore and the `Put`
callback, dispatched by the run loop;
(2) the call into the application leaves the caller at `sem.Take()` with its fresh
semaphore at count 0;
(3) a step raises the count of a thread's semaphore only if it is the run loop
dispatching an event that carries this semaphore, that is, running its callback;
(4) `sem.Take()` goes through only when the count is positive, and then the event of
the thread has been dispatched. -/
theorem request_returns_after_callback (s : Sys) (hr : s.Reachable) :
    (∀ (tid : Nat) (th : Thread), s.threads[tid]? = some th → th.op.usesSemaphore = true →
        th.pc = .done → eventOf s.sb_api_version tid th.op ∈ s.handled) ∧
      (∀ (tid : Nat) (s' : Sys) (th th' : Thread), s.step (.submit tid) = some s' →
        s.threads[tid]? = some th → s'.threads[tid]? = some th' →
        th.op.usesSemaphore = true → th'.pc = .take ∧ th'.sem = 0) ∧
      (∀ (a : Action) (s' : Sys) (tid : Nat) (th th' : Thread), s.step a = some s' →
        s.threads[tid]? = some th → s'.threads[tid]? = some th' → th.sem < th'.sem →
        a = .dispatch ∧ ∃ e rest, s.queue = e :: rest ∧ e.context = some tid ∧
          e = eventOf s.sb_api_version tid th.op) ∧
      (∀ (tid : Nat) (s' : Sys), s.step (.takeSem tid) = some s' →
        ∃ th, s.threads[tid]? = some th ∧ th.pc = .take ∧ 0 < th.sem ∧
          eventOf s.sb_api_version tid th.op ∈ s.handled) := by
  have hi := Inv_of_sys_reachable hr
  refine ⟨fun tid th h0 hu hpc => hi.returned tid th h0 hpc hu, ?_, ?_, ?_⟩
  · intro tid s' th th' hs h0 h1 hu
    simp only [Sys.step, h0, Option.some_bind, Sys.threadStep, hu, if_true] at hs
    by_cases hpc : th.pc = .ready
    · rw [if_pos hpc] at hs
      rw [← Option.some.inj hs] at h1
      rcases lookup_set h1 with ⟨-, h2⟩ | ⟨h2, -⟩
      · rw [h2]; exact ⟨rfl, rfl⟩
      · exact absurd rfl h2
    · rw [if_neg hpc] at hs
      exact absurd hs (by simp)
  · intro a s' tid th th' hs h0 h1 hlt
    obtain ⟨h2, e, rest, h3, h4⟩ := (step_thread_change hs h0 h1).1 hlt
    refine ⟨h2, e, rest, h3, h4, ?_⟩
    obtain ⟨t, h5, h6⟩ := hi.queued e (by rw [h3]; exact List.mem_cons_self _ _) tid h4
    rw [h0] at h5
    rw [h6, ← Option.some.inj h5]
  · intro tid s' hs
    simp only [Sys.step] at hs
    obtain ⟨th, h0, h1⟩ := Sys.step_thread hs
    simp only [Sys.threadStep] at h1
    split at h1
    · rename_i hc
      exact ⟨th, h0, hc.1, hc.2, hi.put tid th h0 hc.2⟩
    · exact absurd h1 (by simp)

/-- Witness for C1: `RequestSuspend` called before the run loop is ready returns, and the
`Freeze` event with the semaphore of thread 0 has then been dispatched. -/
theorem request_returns_after_callback_witness :
    Sys.Reachable suspendReturned ∧
      suspendReturned.threads[0]? = some { op := .RequestSuspend, pc := .done, sem := 0 } ∧
      eventOf 13 0 .RequestSuspend ∈ suspendReturned.handled :=
  ⟨⟨true, 13, suspendBeforeReady, by decide⟩, by decide,
    (request_returns_after_callback suspendReturned ⟨true, 13, suspendBeforeReady, by decide⟩).1
      0 { op := .RequestSuspend, pc := .done, sem := 0 } (by decide) (by decide) (by decide)⟩

/-- C2: in every reachable state of the system,
(1) a blocking operation calls into the application only in a state in which `running_`
is true, and the call adds exactly its own transition to the queue;
(2) a thread at the `while` test of `WaitForApp` with `running_` false takes the step
into `condition_.Wait()`, and that step hands nothing to the application;
(3) a thread inside `WaitForApp` stays inside under every step of the system except its
own `while` test in a state with `running_` true;
(4) the only step that makes `running_` true is the run loop running the body of
`OnInitialize`.
The operations return nothing: a thread has no place at which it has failed. -/
theorem transitions_only_when_running (s : Sys) (hr : s.Reachable) :
    (∀ (tid : Nat) (s' : Sys), s.step (.submit tid) = some s' →
        s.ctx.running_ = true ∧
        ∃ th, s.threads[tid]? = some th ∧ th.pc = .ready ∧
          s'.queue = s.queue ++ [eventOf s.sb_api_version tid th.op]) ∧
      (∀ (tid : Nat) (th : Thread), s.threads[tid]? = some th → th.pc = .atTest →
        s.ctx.running_ = false →
        ∃ s', s.step (.test tid) = some s' ∧ s'.queue = s.queue ∧
          s'.threads[tid]? = some { th with pc := .condWait }) ∧
      (∀ (a : Action) (s' : Sys) (tid : Nat) (th th' : Thread), s.step a = some s' →
        s.threads[tid]? = some th → s'.threads[tid]? = some th' → th.pc.inWaitForApp →
        th'.pc.inWaitForApp ∨ (a = .test tid ∧ s.ctx.running_ = true ∧ th'.pc = .ready)) ∧
      (∀ (a : Action) (s' : Sys), s.step a = some s' → s.ctx.running_ = false →
        s'.ctx.running_ = true → a = .enter ∧ s.runloop = .onInit) := by
  have hi := Inv_of_sys_reachable hr
  refine ⟨?_, ?_, ?_, ?_⟩
  · intro tid s' hs
    simp only [Sys.step] at hs
    obtain ⟨th, h0, h1⟩ := Sys.step_thread hs
    obtain ⟨tj', -, -, -, -, -, h2, -⟩ := threadStep_shape h1
    have hpc : th.pc = .ready := by
      simp only [Sys.threadStep] at h1
      split at h1
      · assumption
      · exact absurd h1 (by simp)
    refine ⟨hi.running tid th h0 hpc, th, h0, hpc, ?_⟩
    simp only [Sys.threadStep, if_pos hpc] at h1
    split at h1 <;> rw [← Option.some.inj h1]
  · intro tid th h0 hpc hrun
    have hlt : tid < s.threads.length := by
      rcases Nat.lt_or_ge tid s.threads.length with h1 | h1
      · exact h1
      · rw [List.getElem?_eq_none h1] at h0; exact absurd h0 (by simp)
    refine ⟨{ s with mutex_ := none
                     threads := s.threads.set tid { th with pc := .condWait } }, ?_, rfl, ?_⟩
    · simp only [Sys.step, h0, Option.some_bind, Sys.threadStep, if_pos hpc, if_pos hrun]
    · exact List.getElem?_set_self hlt
  · intro a s' tid th th' hs h0 h1 hw
    exact (step_thread_change hs h0 h1).2 hw
  · intro a s' hs hf ht
    have same : s'.ctx.running_ = s.ctx.running_ → a = .enter ∧ s.runloop = .onInit := by
      intro he
      rw [he, hf] at ht
      exact absurd ht (by simp)
    have thread_case : ∀ (j : Nat) (a' : Action),
        (s.threads[j]?).bind (fun tj => s.threadStep j tj a') = some s' →
        a = .enter ∧ s.runloop = .onInit := by
      intro j a' hs'
      obtain ⟨tj, -, h3⟩ := Sys.step_thread hs'
      obtain ⟨-, -, h4, -⟩ := threadStep_shape h3
      exact same (by rw [h4])
    cases a with
    | call op =>
      simp only [Sys.step, Option.some.injEq] at hs
      exact same (by rw [← hs])
    | acquire j => exact thread_case j _ hs
    | test j => exact thread_case j _ hs
    | wake j => exact thread_case j _ hs
    | submit j => exact thread_case j _ hs
    | takeSem j => exact thread_case j _ hs
    | beginInit =>
      simp only [Sys.step] at hs
      split at hs
      · exact same (by rw [← Option.some.inj hs])
      · exact absurd hs (by simp)
    | beginTeardown =>
      simp only [Sys.step] at hs
      split at hs
      · exact same (by rw [← Option.some.inj hs])
      · exact absurd hs (by simp)
    | enter =>
      simp only [Sys.step] at hs
      split at hs
      · split at hs
        · exact absurd hs (by simp)
        · rename_i hrl
          exact ⟨rfl, hrl⟩
        · rw [← Option.some.inj hs] at ht
          exact absurd ht (by simp)
      · exact absurd hs (by simp)
    | dispatch =>
      simp only [Sys.step] at hs
      split at hs
      · split at hs
        · exact absurd hs (by simp)
        · exact same (by rw [← Option.some.inj hs])
      · exact absurd hs (by simp)
    | quit =>
      simp only [Sys.step] at hs
      split at hs
      · exact same (by rw [← Option.some.inj hs]; exact RequestQuit_running _)
      · exact absurd hs (by simp)
    | setStopRequestHandler cb d =>
      simp only [Sys.step] at hs
      split at hs
      · exact same (by rw [← Option.some.inj hs]; rfl)
      · exact absurd hs (by simp)
    | setConcealRequestHandler cb d =>
      simp only [Sys.step] at hs
      split at hs
      · exact same (by rw [← Option.some.inj hs]; rfl)
      · exact absurd hs (by simp)
    | conceal =>
      simp only [Sys.step, Option.some.injEq] at hs
      exact same (by rw [← hs])
    | setCobaltExitStrategy strategy =>
      simp only [Sys.step, Option.some.injEq] at hs
      exact same (by rw [← hs]; exact SetCobaltExitStrategy_running _ _)

/-- Witness for C2: in the run where `RequestSuspend` is called before the run loop is
ready, the caller hands over its transition in a state with `running_` true. -/
theorem transitions_only_when_running_witness :
    Sys.Reachable suspendReady ∧
      (∃ s', suspendReady.step (.submit 0) = some s') ∧ suspendReady.ctx.running_ = true :=
  ⟨⟨true, 13, suspendBeforeReady.take 7, by decide⟩, ⟨_, rfl⟩,
    ((transitions_only_when_running suspendReady
      ⟨true, 13, suspendBeforeReady.take 7, by decide⟩).1 0 _ rfl).1⟩

/-- C13: with `running_` true, `SetCobaltExitStrategy` changes no state, whatever the
strategy string: the context is the same and `GetCobaltExitStrategy` returns the same
string after the call as before it. -/
theorem SetCobaltExitStrategy_when_running (c : APIContext) (hr : c.running_ = true)
    (strategy : String) :
    APIContext.SetCobaltExitStrategy c strategy = c ∧
      (APIContext.SetCobaltExitStrategy c strategy).GetCobaltExitStrategy =
        c.GetCobaltExitStrategy := by
  unfold APIContext.SetCobaltExitStrategy
  simp [hr]

/-- Witness for C13: a running context with the strategy `stop`, asked for `suspend`. -/
theorem SetCobaltExitStrategy_when_running_witness :
    ({ running_ := true } : APIContext).running_ = true ∧
      (APIContext.SetCobaltExitStrategy { running_ := true } "suspend").GetCobaltExitStrategy
        = "stop" :=
  ⟨rfl, (SetCobaltExitStrategy_when_running { running_ := true } rfl "suspend").2⟩

/-- C14: with `running_` false, after `SetCobaltExitStrategy(s)` for `s` one of `stop`,
`suspend`, `noexit`, `GetCobaltExitStrategy` returns exactly `s`; and a freshly
constructed context returns `stop`. -/
theorem SetCobaltExitStrategy_stores (c : APIContext) (hr : c.running_ = false)
    (s : String) (hs : s = "stop" ∨ s = "suspend" ∨ s = "noexit") :
    (APIContext.SetCobaltExitStrategy c s).GetCobaltExitStrategy = s ∧
      ({} : APIContext).GetCobaltExitStrategy = "stop" := by
  refine ⟨?_, rfl⟩
  unfold APIContext.SetCobaltExitStrategy APIContext.GetCobaltExitStrategy
  rcases hs with h | h | h <;> subst h <;> simp [hr]

/-- Witness for C14: `noexit` set on a fresh context. -/
theorem SetCobaltExitStrategy_stores_witness :
    ({} : APIContext).running_ = false ∧
      (APIContext.SetCobaltExitStrategy {} "noexit").GetCobaltExitStrategy = "noexit" :=
  ⟨rfl, (SetCobaltExitStrategy_stores {} rfl "noexit" (Or.inr (Or.inr rfl))).1⟩

theorem RequestStop_running (invoke : SbRdkCallbackFunc → Nat → Int) (c : APIContext) :
    (APIContext.RequestStop invoke c).1.running_ = c.running_ := by
  unfold APIContext.RequestStop APIContext.RequestQuit
  by_cases hcb : c.stop_request_cb_ = 0
  · by_cases hr : c.running_ = true <;> simp [hcb, hr]
  · by_cases hv : invoke c.stop_request_cb_ c.stop_request_cb_data_ = 0
    · simp [hcb, hv]
    · by_cases hr : c.running_ = true <;> simp [hcb, hv, hr]

theorem RequestConceal_ctx (sb_api_version : Nat) (invoke : SbRdkCallbackFunc → Nat → Int)
    (c : APIContext) : (APIContext.RequestConceal sb_api_version invoke c).1 = c := by
  unfold APIContext.RequestConceal
  by_cases hcb : c.conceal_request_cb_ = 0
  · simp [hcb]
  · by_cases hv : invoke c.conceal_request_cb_ c.conceal_request_cb_data_ = 0 <;>
      simp [hcb, hv]

/-- An operation other than `OnInitialize` and `OnTeardown` leaves `running_` as it is. -/
theorem apply_running (sb_api_version : Nat) (invoke : SbRdkCallbackFunc → Nat → Int)
    (c : APIContext) (op : ApiOp) (hop : op.writesRunning = false) :
    (c.apply sb_api_version invoke op).running_ = c.running_ := by
  cases op with
  | OnInitialize application => simp [ApiOp.writesRunning] at hop
  | OnTeardown => simp [ApiOp.writesRunning] at hop
  | blocking op => rfl
  | RequestQuit => exact RequestQuit_running c
  | SetStopRequestHandler cb d => rfl
  | RequestStop => exact RequestStop_running invoke c
  | SetConcealRequestHandler cb d => rfl
  | RequestConceal =>
    show (APIContext.RequestConceal sb_api_version invoke c).1.running_ = c.running_
    rw [RequestConceal_ctx]
  | SetCobaltExitStrategy strategy => exact SetCobaltExitStrategy_running c strategy

theorem run_running (sb_api_version : Nat) (invoke : SbRdkCallbackFunc → Nat → Int)
    (ops : List ApiOp) :
    ∀ c : APIContext, (∀ op ∈ ops, op ≠ .OnTeardown ∧ op ≠ .OnInitialize false) →
      c.running_ = true → (c.run sb_api_version invoke ops).running_ = true := by
  induction ops with
  | nil => intro c _ hr; exact hr
  | cons op ops ih =>
    intro c hops hr
    apply ih (c.apply sb_api_version invoke op)
      (fun o ho => hops o (List.mem_cons_of_mem _ ho))
    have h1 := hops op (List.mem_cons_self _ _)
    cases hw : op.writesRunning with
    | false => rw [apply_running sb_api_version invoke c op hw]; exact hr
    | true =>
      cases op with
      | OnInitialize application =>
        cases application with
        | true => rfl
        | false => exact absurd rfl h1.2
      | OnTeardown => exact absurd rfl h1.1
      | _ => simp [ApiOp.writesRunning] at hw

/-- C15 fails as stated: `OnInitialize` makes `running_` true and the `OnTeardown` after
it makes it false again. -/
theorem OnTeardown_reverts_running :
    (APIContext.run 13 (fun _ _ => 0) {} [.OnInitialize true]).running_ = true ∧
      (APIContext.run 13 (fun _ _ => 0) {} [.OnInitialize true, .OnTeardown]).running_
        = false := by
  decide

/-- C15 as amended: `running_` is false in a freshly constructed context; `OnInitialize`
sets it to `nullptr != Application::Get()` and `OnTeardown` sets it to false; no other
operation changes it. So in a sequence of operations without `OnTeardown`, and without an
`OnInitialize` that finds no application, once `running_` is true it stays true. -/
theorem running_changes_only_by_run_loop (sb_api_version : Nat)
    (invoke : SbRdkCallbackFunc → Nat → Int) (c : APIContext) :
    ({} : APIContext).running_ = false ∧
      (∀ application : Bool,
        (c.apply sb_api_version invoke (.OnInitialize application)).running_ = application) ∧
      (c.apply sb_api_version invoke .OnTeardown).running_ = false ∧
      (∀ op : ApiOp, op.writesRunning = false →
        (c.apply sb_api_version invoke op).running_ = c.running_) ∧
      (∀ ops : List ApiOp, (∀ op ∈ ops, op ≠ .OnTeardown ∧ op ≠ .OnInitialize false) →
        c.running_ = true → (c.run sb_api_version invoke ops).running_ = true) :=
  ⟨rfl, fun _ => rfl, rfl, apply_running sb_api_version invoke c,
    fun ops => run_running sb_api_version invoke ops c⟩

/-- Witness for C15 as amended: a running context stays running through `RequestQuit`,
a setter and a second `OnInitialize`. -/
theorem running_changes_only_by_run_loop_witness :
    ApiOp.writesRunning .RequestQuit = false ∧
      (∀ op ∈ [ApiOp.RequestQuit, .SetCobaltExitStrategy "noexit", .OnInitialize true],
        op ≠ ApiOp.OnTeardown ∧ op ≠ ApiOp.OnInitialize false) ∧
      (APIContext.run 13 (fun _ _ => 0) { running_ := true }
        [.RequestQuit, .SetCobaltExitStrategy "noexit", .OnInitialize true]).running_ = true :=
  ⟨rfl, by decide,
    (running_changes_only_by_run_loop 13 (fun _ _ => 0) { running_ := true }).2.2.2.2
      [.RequestQuit, .SetCobaltExitStrategy "noexit", .OnInitialize true] (by decide) rfl⟩

theorem apply_stopOverride (sb_api_version : Nat) (invoke : SbRdkCallbackFunc → Nat → Int)
    (c : APIContext) (op : ApiOp) (hop : op.touchesStopOverride = false) :
    (c.apply sb_api_version invoke op).stopOverride = c.stopOverride := by
  cases op with
  | RequestQuit => simp [ApiOp.touchesStopOverride] at hop
  | SetStopRequestHandler cb d => simp [ApiOp.touchesStopOverride] at hop
  | RequestStop => simp [ApiOp.touchesStopOverride] at hop
  | RequestConceal =>
    show (APIContext.RequestConceal sb_api_version invoke c).1.stopOverride = c.stopOverride
    rw [RequestConceal_ctx]
  | SetCobaltExitStrategy strategy =>
    show (APIContext.SetCobaltExitStrategy c strategy).stopOverride = c.stopOverride
    unfold APIContext.SetCobaltExitStrategy
    split
    · rfl
    · split
      · rfl
      · split <;> rfl
  | _ => rfl

theorem run_stopOverride (sb_api_version : Nat) (invoke : SbRdkCallbackFunc → Nat → Int)
    (ops : List ApiOp) :
    ∀ c : APIContext, (∀ op ∈ ops, op.touchesStopOverride = false) →
      (c.run sb_api_version invoke ops).stopOverride = c.stopOverride := by
  induction ops with
  | nil => intro c _; rfl
  | cons op ops ih =>
    intro c hops
    show ((c.apply sb_api_version invoke op).run sb_api_version invoke ops).stopOverride = _
    rw [ih _ (fun o ho => hops o (List.mem_cons_of_mem _ ho)),
      apply_stopOverride sb_api_version invoke c op (hops op (List.mem_cons_self _ _))]

theorem APIContext.run_ops_append (sb_api_version : Nat) (invoke : SbRdkCallbackFunc → Nat → Int)
    (c : APIContext) (a b : List ApiOp) :
    c.run sb_api_version invoke (a ++ b) =
      (c.run sb_api_version invoke a).run sb_api_version invoke b := by
  simp [APIContext.run, List.foldl_append]

theorem apply_concealOverride (sb_api_version : Nat)
    (invoke : SbRdkCallbackFunc → Nat → Int) (c : APIContext) (op : ApiOp) :
    (c.apply sb_api_version invoke op).concealOverride =
      lastConcealHandler c.concealOverride [op] := by
  cases op with
  | RequestQuit =>
    show (APIContext.RequestQuit c).1.concealOverride = c.concealOverride
    unfold APIContext.RequestQuit
    by_cases hr : c.running_ = true <;> simp [hr, APIContext.concealOverride]
  | RequestStop =>
    show (APIContext.RequestStop invoke c).1.concealOverride = c.concealOverride
    unfold APIContext.RequestStop APIContext.RequestQuit
    by_cases hcb : c.stop_request_cb_ = 0
    · by_cases hr : c.running_ = true <;> simp [hcb, hr, APIContext.concealOverride]
    · by_cases hv : invoke c.stop_request_cb_ c.stop_request_cb_data_ = 0
      · simp [hcb, hv]
      · by_cases hr : c.running_ = true <;> simp [hcb, hv, hr, APIContext.concealOverride]
  | RequestConceal =>
    show (APIContext.RequestConceal sb_api_version invoke c).1.concealOverride = _
    rw [RequestConceal_ctx]; rfl
  | SetCobaltExitStrategy strategy =>
    show (APIContext.SetCobaltExitStrategy c strategy).concealOverride = c.concealOverride
    unfold APIContext.SetCobaltExitStrategy
    split
    · rfl
    · split
      · rfl
      · split <;> rfl
  | _ => rfl

theorem lastConcealHandler_cons (start : SbRdkCallbackFunc × Nat) (op : ApiOp)
    (ops : List ApiOp) :
    lastConcealHandler start (op :: ops) =
      lastConcealHandler (lastConcealHandler start [op]) ops := by
  cases op <;> rfl

theorem run_concealOverride (sb_api_version : Nat) (invoke : SbRdkCallbackFunc → Nat → Int)
    (ops : List ApiOp) :
    ∀ c : APIContext, (c.run sb_api_version invoke ops).concealOverride =
      lastConcealHandler c.concealOverride ops := by
  induction ops with
  | nil => intro c; rfl
  | cons op ops ih =>
    intro c
    show ((c.apply sb_api_version invoke op).run sb_api_version invoke ops).concealOverride = _
    rw [ih, apply_concealOverride, ← lastConcealHandler_cons]

/-- C16 fails as stated: after `SetStopRequestHandler` with the callback at address 7 and
user data 9, a `RequestQuit` resets the stop override, so the `RequestStop` that follows
consults no override although no later `SetStopRequestHandler` call replaced it. -/
theorem RequestQuit_drops_stop_override :
    (APIContext.run 13 (fun _ _ => 0) {} [.SetStopRequestHandler 7 9]).stopOverride = (7, 9) ∧
      (APIContext.run 13 (fun _ _ => 0) {}
        [.SetStopRequestHandler 7 9, .RequestQuit]).stopOverride = (0, 0) ∧
      callbacks (APIContext.RequestStop (fun _ _ => 0)
        (APIContext.run 13 (fun _ _ => 0) {} [.SetStopRequestHandler 7 9, .RequestQuit])).2
        = [] := by
  decide

/-- C16 as amended: `RequestStop` consults the stop override the context holds, and
`RequestConceal` the conceal override it holds. The stop override is written by
`SetStopRequestHandler`, which stores its arguments, by `RequestQuit`, which resets it to
none, and by `RequestStop` when it ends in `RequestQuit`; no other operation changes it,
so it is the one of the most recent `SetStopRequestHandler` call as long as neither
`RequestQuit` nor `RequestStop` has run since. The conceal override is, after every
sequence of operations, the one of the most recent `SetConcealRequestHandler` call. -/
theorem overrides_last_writer (sb_api_version : Nat)
    (invoke : SbRdkCallbackFunc → Nat → Int) (c : APIContext) :
    callbacks (APIContext.RequestStop invoke c).2 =
        (if c.stop_request_cb_ ≠ 0 then [c.stopOverride] else []) ∧
      callbacks (APIContext.RequestConceal sb_api_version invoke c).2 =
        (if c.conceal_request_cb_ ≠ 0 then [c.concealOverride] else []) ∧
      (∀ op : ApiOp, op.touchesStopOverride = false →
        (c.apply sb_api_version invoke op).stopOverride = c.stopOverride) ∧
      (∀ (cb : SbRdkCallbackFunc) (user_data : Nat),
        (c.apply sb_api_version invoke (.SetStopRequestHandler cb user_data)).stopOverride =
          (cb, user_data)) ∧
      (c.apply sb_api_version invoke .RequestQuit).stopOverride = (0, 0) ∧
      (c.apply sb_api_version invoke .RequestStop).stopOverride =
        (if c.stop_request_cb_ = 0 ∨
            invoke c.stop_request_cb_ c.stop_request_cb_data_ ≠ 0 then (0, 0)
          else c.stopOverride) ∧
      (∀ (pre post : List ApiOp) (cb : SbRdkCallbackFunc) (user_data : Nat),
        (∀ op ∈ post, op.touchesStopOverride = false) →
        (c.run sb_api_version invoke
          (pre ++ .SetStopRequestHandler cb user_data :: post)).stopOverride =
          (cb, user_data)) ∧
      (∀ ops : List ApiOp, (c.run sb_api_version invoke ops).concealOverride =
        lastConcealHandler c.concealOverride ops) := by
  refine ⟨?_, ?_, apply_stopOverride sb_api_version invoke c, fun _ _ => rfl, ?_, ?_, ?_,
    fun ops => run_concealOverride sb_api_version invoke ops c⟩
  · unfold APIContext.RequestStop APIContext.RequestQuit
    by_cases hcb : c.stop_request_cb_ = 0
    · by_cases hr : c.running_ = true <;> simp [hcb, hr, callbacks]
    · by_cases hv : invoke c.stop_request_cb_ c.stop_request_cb_data_ = 0
      · simp [hcb, hv, callbacks, APIContext.stopOverride]
      · by_cases hr : c.running_ = true <;>
          simp [hcb, hv, hr, callbacks, APIContext.stopOverride]
  · unfold APIContext.RequestConceal
    by_cases hcb : c.conceal_request_cb_ = 0
    · simp [hcb, callbacks]
    · by_cases hv : invoke c.conceal_request_cb_ c.conceal_request_cb_data_ = 0 <;>
        simp [hcb, hv, callbacks, APIContext.concealOverride]
  · show (APIContext.RequestQuit c).1.stopOverride = (0, 0)
    unfold APIContext.RequestQuit
    by_cases hr : c.running_ = true <;> simp [hr, APIContext.stopOverride]
  · show (APIContext.RequestStop invoke c).1.stopOverride = _
    unfold APIContext.RequestStop APIContext.RequestQuit
    by_cases hcb : c.stop_request_cb_ = 0
    · by_cases hr : c.running_ = true <;> simp [hcb, hr, APIContext.stopOverride]
    · by_cases hv : invoke c.stop_request_cb_ c.stop_request_cb_data_ = 0
      · simp [hcb, hv]
      · by_cases hr : c.running_ = true <;> simp [hcb, hv, hr, APIContext.stopOverride]
  · intro pre post cb d hpost
    rw [APIContext.run_ops_append]
    show (((c.run sb_api_version invoke pre).apply sb_api_version invoke
      (.SetStopRequestHandler cb d)).run sb_api_version invoke post).stopOverride = _
    rw [run_stopOverride sb_api_version invoke post _ hpost]
    rfl

/-- Witness for C16 as amended: the handler set last is the one held after a conceal
request and a change of exit strategy. -/
theorem overrides_last_writer_witness :
    (∀ op ∈ [ApiOp.RequestConceal, .SetCobaltExitStrategy "noexit"],
        op.touchesStopOverride = false) ∧
      (APIContext.run 13 (fun _ _ => 0) {}
        ([.SetStopRequestHandler 1 2, .RequestQuit] ++
          .SetStopRequestHandler 7 9 ::
            [.RequestConceal, .SetCobaltExitStrategy "noexit"])).stopOverride = (7, 9) :=
  ⟨by decide,
    (overrides_last_writer 13 (fun _ _ => 0) {}).2.2.2.2.2.2.1
      [.SetStopRequestHandler 1 2, .RequestQuit]
      [.RequestConceal, .SetCobaltExitStrategy "noexit"] 7 9 (by decide)⟩

/-- C17 fails as stated: once the run loop is ready, `SendLink` with the empty string goes
through `WaitForApp` and hands the link to the application: `Application::Link` is called
with the empty string. -/
theorem SendLink_empty_is_delivered :
    Sys.exec {} [.beginInit, .enter, .call (.SendLink (some "")), .acquire 0, .test 0,
        .submit 0] =
      some { ctx := { running_ := true }
             threads := [{ op := .SendLink (some ""), pc := .done, sem := 0 }]
             queue := [{ call := .Link (some ""), context := none }] } := by
  decide

/-- C17 as amended: `SendLink` looks at the link nowhere. For every string, the empty one
included, a caller that has passed `WaitForApp` calls `Application::Link` with exactly
that string, passing no completion callback, and returns, releasing the mutex; it has no
other step to take there, and no step at all once it has returned, so the link is handed
over once and nothing is reported. -/
theorem SendLink_delivers_any_string (s : Sys) (tid : Nat) (th : Thread) (link : String)
    (hth : s.threads[tid]? = some th) (hop : th.op = .SendLink (some link))
    (hpc : th.pc = .ready) :
    s.step (.submit tid) =
        some { s with queue := s.queue ++ [{ call := .Link (some link), context := none }]
                      mutex_ := none
                      threads := s.threads.set tid { th with pc := .done } } ∧
      s.step (.takeSem tid) = none ∧ s.step (.test tid) = none ∧
      s.step (.acquire tid) = none ∧ s.step (.wake tid) = none ∧
      ∀ (s' : Sys) (a : Action), s.step (.submit tid) = some s' →
        (a = .submit tid ∨ a = .takeSem tid ∨ a = .test tid ∨ a = .acquire tid ∨
          a = .wake tid) → s'.step a = none := by
  have hlt : tid < s.threads.length := by
    rcases Nat.lt_or_ge tid s.threads.length with h1 | h1
    · exact h1
    · rw [List.getElem?_eq_none h1] at hth; exact absurd hth (by simp)
  have hsub : s.step (.submit tid) =
      some { s with queue := s.queue ++ [{ call := .Link (some link), context := none }]
                    mutex_ := none
                    threads := s.threads.set tid { th with pc := .done } } := by
    simp [Sys.step, hth, Sys.threadStep, hpc, hop, BlockingOp.usesSemaphore, eventOf,
      transitionOf]
  refine ⟨hsub, ?_, ?_, ?_, ?_, ?_⟩
  · simp [Sys.step, hth, Sys.threadStep, hpc]
  · simp [Sys.step, hth, Sys.threadStep, hpc]
  · simp [Sys.step, hth, Sys.threadStep, hpc]
  · simp [Sys.step, hth, Sys.threadStep, hpc]
  · intro s' a hs' ha
    rw [hsub] at hs'
    have h1 : s'.threads[tid]? = some { th with pc := .done } := by
      rw [← Option.some.inj hs']
      exact List.getElem?_set_self hlt
    rcases ha with h | h | h | h | h <;> subst h <;>
      simp [Sys.step, h1, Sys.threadStep]

/-- Witness for C17 as amended: the state in which a caller of `SendLink` with the empty
string has passed `WaitForApp`. -/
theorem SendLink_delivers_any_string_witness :
    (∃ s : Sys, Sys.exec {} [.beginInit, .enter, .call (.SendLink (some "")), .acquire 0,
        .test 0] = some s ∧
      s.step (.submit 0) =
        some { s with queue := s.queue ++ [{ call := .Link (some ""), context := none }]
                      mutex_ := none
                      threads := s.threads.set 0
                        { op := .SendLink (some ""), pc := .done, sem := 0 } }) :=
  ⟨{ ctx := { running_ := true }, mutex_ := some 0,
     threads := [{ op := .SendLink (some ""), pc := .ready, sem := 0 }] }, by decide,
    (SendLink_delivers_any_string
      { ctx := { running_ := true }, mutex_ := some 0,
        threads := [{ op := .SendLink (some ""), pc := .ready, sem := 0 }] }
      0 { op := .SendLink (some ""), pc := .ready, sem := 0 } "" rfl rfl rfl).1⟩

/-! ## Theorems: `Application` -/

theorem driveTimes_chain (times : List SbTime) :
    ∀ a : Application,
      List.Chain (fun t1 t2 => t2 - t1 > 16666) a.ess_loop_last_ts_ (a.driveTimes times) := by
  induction times with
  | nil => intro a; exact List.Chain.nil
  | cons now rest ih =>
    intro a
    unfold Application.driveTimes Application.PollNextSystemEvent
    by_cases h : now - a.ess_loop_last_ts_ > kEssRunLoopPeriod
    · simp only [if_pos h, List.cons_ne_nil, if_false]
      exact List.Chain.cons h (ih { a with ess_loop_last_ts_ := now })
    · simp only [if_neg h, if_true]
      exact ih a

/-- C18: `PollNextSystemEvent` invokes the display-drive action if and only if
`now - ess_loop_last_ts_ > 16666`; when it does, it invokes it once and sets
`ess_loop_last_ts_` to `now`, and otherwise it changes nothing. Therefore, in every
sequence of polls, the first invocation comes more than 16666 microseconds after
`ess_loop_last_ts_` and any two consecutive invocations are more than 16666 microseconds
apart, however often the caller polls. -/
theorem display_drive_rate_limited (a : Application) (now : SbTime) :
    (AppEffect.EssContextRunEventLoopOnce ∈ (a.PollNextSystemEvent now).2 ↔
        now - a.ess_loop_last_ts_ > 16666) ∧
      (now - a.ess_loop_last_ts_ > 16666 →
        a.PollNextSystemEvent now =
          ({ a with ess_loop_last_ts_ := now }, [.EssContextRunEventLoopOnce])) ∧
      (¬ (now - a.ess_loop_last_ts_ > 16666) → a.PollNextSystemEvent now = (a, [])) ∧
      (∀ times : List SbTime,
        List.Chain (fun t1 t2 => t2 - t1 > 16666) a.ess_loop_last_ts_ (a.driveTimes times) ∧
        List.Chain' (fun t1 t2 => t2 - t1 > 16666) (a.driveTimes times)) := by
  refine ⟨?_, ?_, ?_, fun times => ⟨driveTimes_chain times a, ?_⟩⟩
  · unfold Application.PollNextSystemEvent
    by_cases h : now - a.ess_loop_last_ts_ > kEssRunLoopPeriod
    · simp only [if_pos h, List.mem_singleton, true_iff]; exact h
    · simp only [if_neg h, List.not_mem_nil, false_iff]; exact h
  · intro h
    have h' : now - a.ess_loop_last_ts_ > kEssRunLoopPeriod := h
    unfold Application.PollNextSystemEvent
    rw [if_pos h']
  · intro h
    have h' : ¬ (now - a.ess_loop_last_ts_ > kEssRunLoopPeriod) := h
    unfold Application.PollNextSystemEvent
    rw [if_neg h']
  · have h := driveTimes_chain times a
    cases hd : a.driveTimes times with
    | nil => exact List.chain'_nil
    | cons t ts =>
      rw [hd] at h
      exact (List.chain_cons.mp h).2

/-- Witness for C18: with the last display-drive action at 0, a poll at 16667 invokes the
action, and of the polls at 10, 16666, 16667, 20000, 33333, 33334 the ones that invoke it
are those at 16667 and 33334. -/
theorem display_drive_rate_limited_witness :
    (16667 : SbTime) - (0 : SbTime) > 16666 ∧
      Application.PollNextSystemEvent
          { ess_timer_fd_ := 4, wakeup_fd_ := 3, monitor_timer_fd_ := 5, hang_monitor_ := none,
            ess_loop_last_ts_ := 0 } 16667 =
        ({ ess_timer_fd_ := 4, wakeup_fd_ := 3, monitor_timer_fd_ := 5, hang_monitor_ := none,
           ess_loop_last_ts_ := 16667 }, [.EssContextRunEventLoopOnce]) ∧
      Application.driveTimes
          { ess_timer_fd_ := 4, wakeup_fd_ := 3, monitor_timer_fd_ := 5, hang_monitor_ := none,
            ess_loop_last_ts_ := 0 } [10, 16666, 16667, 20000, 33333, 33334] =
        [16667, 33334] :=
  ⟨by decide,
    (display_drive_rate_limited
      { ess_timer_fd_ := 4, wakeup_fd_ := 3, monitor_timer_fd_ := 5, hang_monitor_ := none,
        ess_loop_last_ts_ := 0 } 16667).2.1 (by decide),
    by decide⟩

theorem writeRevents_fd (fds : List PollFd) :
    ∀ (rs : List Nat) (p : PollFd), p ∈ writeRevents fds rs → ∃ q ∈ fds, p.fd = q.fd := by
  induction fds with
  | nil => intro rs p hp; simp [writeRevents] at hp
  | cons q qs ih =>
    intro rs p hp
    cases rs with
    | nil =>
      simp only [writeRevents, List.mem_cons] at hp
      rcases hp with hp | hp
      · exact ⟨q, List.mem_cons_self _ _, by rw [hp]⟩
      · obtain ⟨q', h1, h2⟩ := ih [] p hp
        exact ⟨q', List.mem_cons_of_mem _ h1, h2⟩
    | cons r rs =>
      simp only [writeRevents, List.mem_cons] at hp
      rcases hp with hp | hp
      · exact ⟨q, List.mem_cons_self _ _, by rw [hp]⟩
      · obtain ⟨q', h1, h2⟩ := ih rs p hp
        exact ⟨q', List.mem_cons_of_mem _ h1, h2⟩

theorem pollSet_fd_nonneg (a : Application) : ∀ p ∈ a.pollSet, ¬ (p.fd < 0) := by
  intro p hp
  unfold Application.pollSet at hp
  simp only [List.mem_append] at hp
  rcases hp with (hp | hp) | hp
  · split at hp
    · rename_i h; simp only [List.mem_singleton] at hp; rw [hp]; exact h
    · simp at hp
  · split at hp
    · rename_i h; simp only [List.mem_singleton] at hp; rw [hp]; exact h
    · simp at hp
  · split at hp
    · rename_i h; simp only [List.mem_singleton] at hp; rw [hp]; exact h
    · simp at hp

/-- The loop over entries none of which is the heartbeat timer: every entry that reports
`POLLIN` is read, in order, and nothing else happens. -/
theorem drain_without_monitor (fds : List PollFd) :
    ∀ a : Application, (∀ p ∈ fds, p.fd ≠ a.monitor_timer_fd_) →
      a.drain fds = some (a, (readyEntries fds).map (fun p => AppEffect.read p.fd)) := by
  induction fds with
  | nil => intro a _; rfl
  | cons p ps ih =>
    intro a h
    have hp := h p (List.mem_cons_self _ _)
    have hps := ih a (fun q hq => h q (List.mem_cons_of_mem _ hq))
    unfold Application.drain
    by_cases hr : p.revents &&& POLLIN = POLLIN
    · simp [hr, hp, hps, readyEntries, List.filter_cons]
    · simp [hr, hps, readyEntries, List.filter_cons]

theorem wait_without_monitor (b : Application) (hb : b.monitor_timer_fd_ = -1)
    (ppoll : List PollFd → Timespec → PollResult) (time : SbTime) :
    b.WaitForSystemEventWithTimeout ppoll time =
      some (b,
        if b.pollSet = [] then []
        else AppEffect.ppoll b.pollSet (toTimespec time) ::
          (if (ppoll b.pollSet (toTimespec time)).rc > 0 then
            (readyEntries (writeRevents b.pollSet
              (ppoll b.pollSet (toTimespec time)).revents)).map
                (fun p => AppEffect.read p.fd)
           else [])) := by
  unfold Application.WaitForSystemEventWithTimeout
  by_cases he : b.pollSet = []
  · simp [he]
  · have hl : b.pollSet.length ≠ 0 := fun hc => he (List.length_eq_zero.mp hc)
    simp only [hl, ne_eq, not_false_eq_true, if_true, he, if_false]
    by_cases hrc : (ppoll b.pollSet (toTimespec time)).rc > 0
    · have hd := drain_without_monitor
        (writeRevents b.pollSet (ppoll b.pollSet (toTimespec time)).revents) b (by
          intro p hp
          obtain ⟨q, hq, hpq⟩ := writeRevents_fd _ _ p hp
          have := pollSet_fd_nonneg b q hq
          rw [hb, hpq]
          omega)
      simp only [hrc, if_true, hd, List.singleton_append]
    · simp only [hrc, if_false]

theorem waitAll_without_monitor
    (calls : List ((List PollFd → Timespec → PollResult) × SbTime)) (b : Application)
    (hb : b.monitor_timer_fd_ = -1) :
    ∃ effs, b.waitAll calls = some (b, effs) ∧ AppEffect.HangMonitorReset ∉ effs := by
  induction calls with
  | nil => exact ⟨[], rfl, by simp⟩
  | cons w ws ih =>
    obtain ⟨effs, h1, h2⟩ := ih
    unfold Application.waitAll
    rw [wait_without_monitor b hb w.1 w.2]
    simp only [h1]
    refine ⟨_, rfl, ?_⟩
    intro hc
    rcases List.mem_append.mp hc with hc | hc
    · by_cases he : b.pollSet = []
      · simp [he] at hc
      · by_cases hrc : (w.1 b.pollSet (toTimespec w.2)).rc > 0 <;> simp [he, hrc] at hc
    · exact h2 hc

/-- C19: when the heartbeat timer cannot be created, `Initialize` leaves
`monitor_timer_fd_` at -1 and `hang_monitor_` null, and keeps the other two descriptors.
In every state with `monitor_timer_fd_` equal to -1, whatever the poll reports, a
`WaitForSystemEventWithTimeout` call completes, with no null dereference, and changes no
member variable; the array it polls holds the display-drive timer and the wakeup signal,
each when its descriptor is not negative; when the poll returns a positive value, each
polled entry that reports `POLLIN` is read; and `HangMonitor::Reset` is not invoked, in
this call and in every sequence of such calls. -/
theorem no_reset_without_heartbeat_timer (a : Application) (eventfd_result : Int)
    (ess_timerfd_result : Int) :
    (∃ effs, a.Initialize eventfd_result ess_timerfd_result (-1) =
        some ({ a with wakeup_fd_ := eventfd_result, ess_timer_fd_ := ess_timerfd_result,
                       monitor_timer_fd_ := -1, hang_monitor_ := none }, effs)) ∧
      ∀ b : Application, b.monitor_timer_fd_ = -1 →
        b.pollSet =
          (if ¬ (b.ess_timer_fd_ < 0) then
              [{ fd := b.ess_timer_fd_, events := POLLIN, revents := 0 }] else []) ++
          (if ¬ (b.wakeup_fd_ < 0) then
              [{ fd := b.wakeup_fd_, events := POLLIN, revents := 0 }] else []) ∧
        (∀ (ppoll : List PollFd → Timespec → PollResult) (time : SbTime),
          b.WaitForSystemEventWithTimeout ppoll time =
            some (b,
              if b.pollSet = [] then []
              else AppEffect.ppoll b.pollSet (toTimespec time) ::
                (if (ppoll b.pollSet (toTimespec time)).rc > 0 then
                  (readyEntries (writeRevents b.pollSet
                    (ppoll b.pollSet (toTimespec time)).revents)).map
                      (fun p => AppEffect.read p.fd)
                 else []))) ∧
        (∀ calls : List ((List PollFd → Timespec → PollResult) × SbTime),
          ∃ effs, b.waitAll calls = some (b, effs) ∧ AppEffect.HangMonitorReset ∉ effs) := by
  refine ⟨?_, ?_⟩
  · unfold Application.Initialize
    simp
  · intro b hb
    refine ⟨?_, wait_without_monitor b hb, fun calls => waitAll_without_monitor calls b hb⟩
    unfold Application.pollSet
    simp [hb]

/-- Witness for C19: descriptors 4 and 3 for the display-drive timer and the wakeup
signal, no heartbeat timer; the poll reports both ready, and both are read. -/
theorem no_reset_without_heartbeat_timer_witness :
    ({ ess_timer_fd_ := 4, wakeup_fd_ := 3, monitor_timer_fd_ := -1, hang_monitor_ := none,
       ess_loop_last_ts_ := 0 } : Application).monitor_timer_fd_ = -1 ∧
      Application.WaitForSystemEventWithTimeout
          { ess_timer_fd_ := 4, wakeup_fd_ := 3, monitor_timer_fd_ := -1, hang_monitor_ := none,
            ess_loop_last_ts_ := 0 }
          (fun _ _ => { rc := 2, revents := [1, 1] }) 2500000 =
        some ({ ess_timer_fd_ := 4, wakeup_fd_ := 3, monitor_timer_fd_ := -1,
                hang_monitor_ := none, ess_loop_last_ts_ := 0 },
          [.ppoll [{ fd := 4, events := 1, revents := 0 }, { fd := 3, events := 1, revents := 0 }]
              { tv_sec := 2, tv_nsec := 500000000 },
           .read 4, .read 3]) :=
  ⟨rfl,
    ((no_reset_without_heartbeat_timer
      { ess_timer_fd_ := 4, wakeup_fd_ := 3, monitor_timer_fd_ := -1, hang_monitor_ := none,
        ess_loop_last_ts_ := 0 } 3 4).2
      { ess_timer_fd_ := 4, wakeup_fd_ := 3, monitor_timer_fd_ := -1, hang_monitor_ := none,
        ess_loop_last_ts_ := 0 } rfl).2.1 (fun _ _ => { rc := 2, revents := [1, 1] }) 2500000⟩

/-! ## Theorems: `system_get_path.cc` -/

/-- C20, the code at the failing inputs: the executable is `/usr/bin/cobalt`, 15
characters, and `path_size` is 15, so the path does not fit in `path_size - 1`
characters. `GetExecutablePath`, and `SbSystemGetPath` for the executable file, return
true and leave the first 14 characters in `out_path`. Likewise the content directory
`/usr/share/content/data`, 23 characters, with `path_size` 23: `SbSystemGetPath` returns
true with the first 22 characters. With one character more room both paths come out in
full, and with one less the calls fail. -/
theorem path_of_exactly_path_size_is_truncated :
    "/usr/bin/cobalt".toList.length = 15 ∧
      GetExecutablePath plainEnv [] 15 =
        { ok := true, out_path := "/usr/bin/cobal".toList } ∧
      SbSystemGetPath plainEnv .kSbSystemPathExecutableFile (some []) 15 =
        some (true, some "/usr/bin/cobal".toList) ∧
      "/usr/share/content/data".toList.length = 23 ∧
      SbSystemGetPath plainEnv .kSbSystemPathContentDirectory (some []) 23 =
        some (true, some "/usr/share/content/dat".toList) ∧
      SbSystemGetPath plainEnv .kSbSystemPathExecutableFile (some []) 16 =
        some (true, some "/usr/bin/cobalt".toList) ∧
      SbSystemGetPath plainEnv .kSbSystemPathContentDirectory (some []) 24 =
        some (true, some "/usr/share/content/data".toList) ∧
      SbSystemGetPath plainEnv .kSbSystemPathExecutableFile (some []) 14 =
        some (false, some []) ∧
      SbSystemGetPath plainEnv .kSbSystemPathContentDirectory (some []) 22 =
        some (false, some []) := by
  decide

/-! ## Theorems: the exit strategy -/

theorem beginsWith_iff (p s : String) :
    beginsWith p s ↔ p.toList.isPrefixOf s.toList = true := by
  rw [List.isPrefixOf_iff_prefix]
  constructor
  · rintro ⟨rest, h⟩; exact ⟨rest, h.symm⟩
  · rintro ⟨rest, h⟩; exact ⟨rest, h.symm⟩

theorem SetCobaltExitStrategy_values (c : APIContext) (s : String)
    (h : c.exit_strategy_ = "stop" ∨ c.exit_strategy_ = "suspend" ∨
      c.exit_strategy_ = "noexit") :
    (c.SetCobaltExitStrategy s).exit_strategy_ = "stop" ∨
      (c.SetCobaltExitStrategy s).exit_strategy_ = "suspend" ∨
      (c.SetCobaltExitStrategy s).exit_strategy_ = "noexit" := by
  unfold APIContext.SetCobaltExitStrategy
  split
  · exact h
  · split
    · exact Or.inr (Or.inl rfl)
    · split
      · exact Or.inr (Or.inr rfl)
      · exact Or.inl rfl

theorem apply_exit_strategy (sb_api_version : Nat) (invoke : SbRdkCallbackFunc → Nat → Int)
    (c : APIContext) (op : ApiOp)
    (h : c.exit_strategy_ = "stop" ∨ c.exit_strategy_ = "suspend" ∨
      c.exit_strategy_ = "noexit") :
    (c.apply sb_api_version invoke op).exit_strategy_ = "stop" ∨
      (c.apply sb_api_version invoke op).exit_strategy_ = "suspend" ∨
      (c.apply sb_api_version invoke op).exit_strategy_ = "noexit" := by
  cases op with
  | SetCobaltExitStrategy strategy => exact SetCobaltExitStrategy_values c strategy h
  | RequestQuit =>
    have : (c.apply sb_api_version invoke .RequestQuit).exit_strategy_ = c.exit_strategy_ := by
      show (APIContext.RequestQuit c).1.exit_strategy_ = _
      unfold APIContext.RequestQuit
      by_cases hr : c.running_ = true <;> simp [hr]
    rw [this]; exact h
  | RequestStop =>
    have : (c.apply sb_api_version invoke .RequestStop).exit_strategy_ = c.exit_strategy_ := by
      show (APIContext.RequestStop invoke c).1.exit_strategy_ = _
      unfold APIContext.RequestStop APIContext.RequestQuit
      by_cases hcb : c.stop_request_cb_ = 0
      · by_cases hr : c.running_ = true <;> simp [hcb, hr]
      · by_cases hv : invoke c.stop_request_cb_ c.stop_request_cb_data_ = 0
        · simp [hcb, hv]
        · by_cases hr : c.running_ = true <;> simp [hcb, hv, hr]
    rw [this]; exact h
  | RequestConceal =>
    have : (c.apply sb_api_version invoke .RequestConceal) = c :=
      RequestConceal_ctx sb_api_version invoke c
    rw [this]; exact h
  | _ => exact h

theorem run_exit_strategy (sb_api_version : Nat) (invoke : SbRdkCallbackFunc → Nat → Int)
    (ops : List ApiOp) :
    ∀ c : APIContext,
      (c.exit_strategy_ = "stop" ∨ c.exit_strategy_ = "suspend" ∨
        c.exit_strategy_ = "noexit") →
      (c.run sb_api_version invoke ops).exit_strategy_ = "stop" ∨
        (c.run sb_api_version invoke ops).exit_strategy_ = "suspend" ∨
        (c.run sb_api_version invoke ops).exit_strategy_ = "noexit" := by
  induction ops with
  | nil => intro c h; exact h
  | cons op ops ih =>
    intro c h
    exact ih _ (apply_exit_strategy sb_api_version invoke c op h)

/-- C26: with `running_` false, after `SetCobaltExitStrategy(s)` the stored strategy is
`suspend` if `s` begins with `suspend`, otherwise `noexit` if `s` begins with `noexit`,
otherwise `stop`, whatever was stored before; and after every sequence of operations on a
freshly constructed context `GetCobaltExitStrategy` returns one of `stop`, `suspend`,
`noexit`. -/
theorem SetCobaltExitStrategy_by_beginning (c : APIContext) (hr : c.running_ = false)
    (s : String) :
    (beginsWith "suspend" s →
        (c.SetCobaltExitStrategy s).GetCobaltExitStrategy = "suspend") ∧
      (¬ beginsWith "suspend" s → beginsWith "noexit" s →
        (c.SetCobaltExitStrategy s).GetCobaltExitStrategy = "noexit") ∧
      (¬ beginsWith "suspend" s → ¬ beginsWith "noexit" s →
        (c.SetCobaltExitStrategy s).GetCobaltExitStrategy = "stop") ∧
      ∀ (sb_api_version : Nat) (invoke : SbRdkCallbackFunc → Nat → Int) (ops : List ApiOp),
        (APIContext.run sb_api_version invoke {} ops).GetCobaltExitStrategy = "stop" ∨
        (APIContext.run sb_api_version invoke {} ops).GetCobaltExitStrategy = "suspend" ∨
        (APIContext.run sb_api_version invoke {} ops).GetCobaltExitStrategy = "noexit" := by
  refine ⟨?_, ?_, ?_, fun api invoke ops => run_exit_strategy api invoke ops {} (Or.inl rfl)⟩
  · intro h1
    rw [beginsWith_iff] at h1
    unfold APIContext.SetCobaltExitStrategy APIContext.GetCobaltExitStrategy
    rw [if_neg (by rw [hr]; decide), if_pos h1]
  · intro h1 h2
    rw [beginsWith_iff] at h1 h2
    unfold APIContext.SetCobaltExitStrategy APIContext.GetCobaltExitStrategy
    rw [if_neg (by rw [hr]; decide), if_neg h1, if_pos h2]
  · intro h1 h2
    rw [beginsWith_iff] at h1 h2
    unfold APIContext.SetCobaltExitStrategy APIContext.GetCobaltExitStrategy
    rw [if_neg (by rw [hr]; decide), if_neg h1, if_neg h2]

/-- Witness for C26: on a fresh context holding `stop`, the string `suspend-now` stores
`suspend`. -/
theorem SetCobaltExitStrategy_by_beginning_witness :
    ({} : APIContext).running_ = false ∧ beginsWith "suspend" "suspend-now" ∧
      (APIContext.SetCobaltExitStrategy {} "suspend-now").GetCobaltExitStrategy = "suspend" :=
  ⟨rfl, ⟨"-now".toList, by decide⟩,
    (SetCobaltExitStrategy_by_beginning {} rfl "suspend-now").1 ⟨"-now".toList, by decide⟩⟩

/-! ## Theorems: the temporary directory, time conversion and settings -/

/-- C27: with `COBALT_TEMP` set, whatever its value, `SbSystemGetPath` for the temporary
directory returns false and leaves `out_path` as it was: `GetTemporaryDirectory` only
reassigns its own pointer, so the local buffer of `SbSystemGetPath` stays empty and the
length test fails. For `COBALT_TEMP=/var/tmp` and `path_size` 100 the call returns false
and writes nothing, where the variable should have given `/var/tmp`. -/
theorem COBALT_TEMP_is_not_returned :
    (∀ (env : PathEnv) (t out : List Char) (path_size : Int),
      GetTemporaryDirectory { env with COBALT_TEMP := some t } [] env.kSbFileMaxPath =
          some { ok := true, out_path := [] } ∧
        SbSystemGetPath { env with COBALT_TEMP := some t } .kSbSystemPathTempDirectory
          (some out) path_size = some (false, some out)) ∧
      ("/var/tmp".toList ≠ [] ∧ (("/var/tmp".toList.length : Nat) : Int) ≤ 100 - 1 ∧
        SbSystemGetPath { plainEnv with COBALT_TEMP := some "/var/tmp".toList }
          .kSbSystemPathTempDirectory (some []) 100 = some (false, some [])) := by
  refine ⟨fun env t out path_size => ⟨rfl, ?_⟩, by decide, by decide, ?_⟩
  · unfold SbSystemGetPath SbSystemGetPathFuel
    by_cases h0 : path_size = 0
    · simp [h0]
    · simp [h0, GetTemporaryDirectory, copyOut]
  · exact (by
      unfold SbSystemGetPath SbSystemGetPathFuel
      simp [GetTemporaryDirectory, copyOut])

theorem drain_cons_skip (a : Application) (p : PollFd) (ps : List PollFd)
    (hr : p.revents &&& POLLIN ≠ POLLIN) : a.drain (p :: ps) = a.drain ps := by
  rw [Application.drain, if_pos hr]

theorem drain_cons_monitor (a : Application) (p : PollFd) (ps : List PollFd)
    (hr : p.revents &&& POLLIN = POLLIN) (hf : p.fd = a.monitor_timer_fd_)
    (m : HangMonitor) (hm : a.hang_monitor_ = some m) :
    a.drain (p :: ps) =
      (Application.drain { a with hang_monitor_ := some m.Reset } ps).map
        (fun r => (r.1, [AppEffect.read p.fd, AppEffect.HangMonitorReset] ++ r.2)) := by
  rw [Application.drain, if_neg (not_not.mpr hr), if_pos hf]
  simp only [hm]
  cases Application.drain { a with hang_monitor_ := some m.Reset } ps <;> rfl

theorem drain_cons_null (a : Application) (p : PollFd) (ps : List PollFd)
    (hr : p.revents &&& POLLIN = POLLIN) (hf : p.fd = a.monitor_timer_fd_)
    (hm : a.hang_monitor_ = none) : a.drain (p :: ps) = none := by
  rw [Application.drain, if_neg (not_not.mpr hr), if_pos hf]
  simp only [hm]

theorem drain_cons_read (a : Application) (p : PollFd) (ps : List PollFd)
    (hr : p.revents &&& POLLIN = POLLIN) (hf : p.fd ≠ a.monitor_timer_fd_) :
    a.drain (p :: ps) =
      (a.drain ps).map (fun r => (r.1, [AppEffect.read p.fd] ++ r.2)) := by
  rw [Application.drain, if_neg (not_not.mpr hr), if_neg hf]
  cases a.drain ps <;> rfl

theorem drain_no_ppoll (ps : List PollFd) :
    ∀ (a : Application) (d : Application × List AppEffect), a.drain ps = some d →
      ∀ (fds : List PollFd) (t : Timespec), AppEffect.ppoll fds t ∉ d.2 := by
  induction ps with
  | nil =>
    intro a d hd fds t
    simp only [Application.drain] at hd
    cases hd
    exact List.not_mem_nil _
  | cons p ps ih =>
    intro a d hd fds t
    by_cases hr : p.revents &&& POLLIN = POLLIN
    · by_cases hf : p.fd = a.monitor_timer_fd_
      · cases hm : a.hang_monitor_ with
        | none => rw [drain_cons_null a p ps hr hf hm] at hd; cases hd
        | some m =>
          rw [drain_cons_monitor a p ps hr hf m hm] at hd
          cases hd2 : Application.drain { a with hang_monitor_ := some m.Reset } ps with
          | none => rw [hd2] at hd; cases hd
          | some r =>
            rw [hd2] at hd
            cases hd
            have := ih _ r hd2 fds t
            simpa using this
      · rw [drain_cons_read a p ps hr hf] at hd
        cases hd2 : Application.drain a ps with
        | none => rw [hd2] at hd; cases hd
        | some r =>
          rw [hd2] at hd
          cases hd
          have := ih _ r hd2 fds t
          simpa using this
    · rw [drain_cons_skip a p ps hr] at hd
      exact ih a d hd fds t

/-- C29: for every duration `time ≥ 0` in microseconds the `timespec` that
`setTimerInterval` and `WaitForSystemEventWithTimeout` compute has
`tv_sec = time / 1000000` and `tv_nsec = (time mod 1000000) * 1000`, with
`0 ≤ tv_nsec < 1000000000` and `tv_sec * 1000000000 + tv_nsec = time * 1000`;
`setTimerInterval` passes it both as initial expiry and as repeat interval; the poll of
`WaitForSystemEventWithTimeout` gets it as its timeout; and for `kEssRunLoopPeriod` it is
0 s and 16666000 ns. -/
theorem toTimespec_normalised (time : SbTime) (h : 0 ≤ time) :
    (toTimespec time).tv_sec = time / 1000000 ∧
      (toTimespec time).tv_nsec = (time % 1000000) * 1000 ∧
      0 ≤ (toTimespec time).tv_nsec ∧ (toTimespec time).tv_nsec < 1000000000 ∧
      (toTimespec time).tv_sec * 1000000000 + (toTimespec time).tv_nsec = time * 1000 ∧
      (∀ fd : Int, setTimerInterval fd time =
        AppEffect.timerfd_settime fd (toTimespec time) (toTimespec time)) ∧
      (∀ (a : Application) (ppoll : List PollFd → Timespec → PollResult)
          (r : Application × List AppEffect) (fds : List PollFd) (timeout : Timespec),
        a.WaitForSystemEventWithTimeout ppoll time = some r →
        AppEffect.ppoll fds timeout ∈ r.2 → timeout = toTimespec time) ∧
      toTimespec kEssRunLoopPeriod = { tv_sec := 0, tv_nsec := 16666000 } := by
  have hs : (toTimespec time).tv_sec = time / 1000000 := by
    show Int.tdiv time kSbTimeSecond = _
    exact Int.tdiv_eq_ediv h (by decide)
  have hn : (toTimespec time).tv_nsec = (time % 1000000) * 1000 := by
    show Int.tmod time kSbTimeSecond * kSbTimeNanosecondsPerMicrosecond = _
    rw [Int.tmod_eq_emod h (by decide)]
    rfl
  refine ⟨hs, hn, ?_, ?_, ?_, fun _ => rfl, ?_, by decide⟩
  · rw [hn]; omega
  · rw [hn]; omega
  · rw [hs, hn]; omega
  · intro a ppoll r fds timeout hr hm
    unfold Application.WaitForSystemEventWithTimeout at hr
    by_cases he : a.pollSet.length ≠ 0
    · by_cases hrc : (ppoll a.pollSet (toTimespec time)).rc > 0
      · simp only [he, hrc, ne_eq, not_false_eq_true, if_true] at hr
        cases hd : a.drain (writeRevents a.pollSet (ppoll a.pollSet (toTimespec time)).revents) with
        | none => rw [hd] at hr; cases hr
        | some d =>
          rw [hd] at hr
          cases hr
          simp only [List.singleton_append, List.mem_cons] at hm
          rcases hm with hm | hm
          · cases hm; rfl
          · exact absurd hm (drain_no_ppoll _ a d hd fds timeout)
      · simp only [he, hrc, ne_eq, not_false_eq_true, if_true, if_false] at hr
        cases hr
        simp only [List.mem_singleton] at hm
        cases hm; rfl
    · simp only [he, if_false] at hr
      cases hr
      cases hm

/-- Witness for C29: 2.5 seconds are 2 s and 500000000 ns. -/
theorem toTimespec_normalised_witness :
    (0 : Int) ≤ 2500000 ∧ (toTimespec 2500000).tv_sec = 2500000 / 1000000 ∧
      toTimespec 2500000 = { tv_sec := 2, tv_nsec := 500000000 } :=
  ⟨by decide, (toTimespec_normalised 2500000 (by decide)).1, by decide⟩

/-- C30: `SbRdkGetSetting` returns 0 if and only if `key` is neither null nor empty,
`out_json` is not null, `*out_json` is null on entry, `key` is `accessibility` or
`systemproperties`, and the getter for that key succeeds with a non-empty string; then
`*out_json` is a copy of exactly that string. In every other case it returns -1 and
`*out_json` is as before. -/
theorem SbRdkGetSetting_result (g : SettingsGetters) (key : Option String)
    (out_json : Option (Option String)) :
    ((SbRdkGetSetting g key out_json).1 = 0 ↔
      ∃ k : String, key = some k ∧ k ≠ "" ∧ out_json = some none ∧
        ((k = "accessibility" ∧ g.accessibility.1 = true ∧ g.accessibility.2 ≠ "") ∨
         (k = "systemproperties" ∧ g.systemproperties.1 = true ∧
            g.systemproperties.2 ≠ ""))) ∧
      ((SbRdkGetSetting g key out_json).1 = 0 →
        (key = some "accessibility" →
          (SbRdkGetSetting g key out_json).2 = some (some g.accessibility.2)) ∧
        (key = some "systemproperties" →
          (SbRdkGetSetting g key out_json).2 = some (some g.systemproperties.2))) ∧
      ((SbRdkGetSetting g key out_json).1 ≠ 0 →
        (SbRdkGetSetting g key out_json).1 = -1 ∧
          (SbRdkGetSetting g key out_json).2 = out_json) := by
  cases key with
  | none => simp [SbRdkGetSetting]
  | some k =>
    cases out_json with
    | none => simp [SbRdkGetSetting]
    | some target =>
      cases target with
      | some old => simp [SbRdkGetSetting]
      | none =>
        by_cases hk : k = ""
        · simp [SbRdkGetSetting, hk]
        · by_cases ha : k = "accessibility"
          · subst ha
            by_cases h1 : g.accessibility.1 = true ∧ g.accessibility.2 ≠ ""
            · simp [SbRdkGetSetting, h1]
            · simp [SbRdkGetSetting, h1]
          · by_cases hs : k = "systemproperties"
            · subst hs
              by_cases h1 : g.systemproperties.1 = true ∧ g.systemproperties.2 ≠ ""
              · simp [SbRdkGetSetting, h1]
              · simp [SbRdkGetSetting, h1]
            · simp [SbRdkGetSetting, hk, ha, hs]

/-! ## Theorems: the poll set -/

theorem pollSet_fds (a : Application) :
    a.pollSet.map (fun p => p.fd) = a.nonNegativeHandles := by
  unfold Application.pollSet Application.nonNegativeHandles
  by_cases h1 : a.ess_timer_fd_ < 0 <;> by_cases h2 : a.wakeup_fd_ < 0 <;>
    by_cases h3 : a.monitor_timer_fd_ < 0 <;>
    simp [h1, h2, h3, List.filter_cons, not_le.mpr, not_lt.mp]

theorem drain_reads (ps : List PollFd) :
    ∀ (a : Application) (d : Application × List AppEffect), a.drain ps = some d →
      reads d.2 = (readyEntries ps).map (fun p => p.fd) := by
  induction ps with
  | nil =>
    intro a d hd
    simp only [Application.drain] at hd
    cases hd
    rfl
  | cons p ps ih =>
    intro a d hd
    by_cases hr : p.revents &&& POLLIN = POLLIN
    · have hre : readyEntries (p :: ps) = p :: readyEntries ps := by
        simp [readyEntries, List.filter_cons, hr]
      by_cases hf : p.fd = a.monitor_timer_fd_
      · cases hm : a.hang_monitor_ with
        | none => rw [drain_cons_null a p ps hr hf hm] at hd; cases hd
        | some m =>
          rw [drain_cons_monitor a p ps hr hf m hm] at hd
          cases hd2 : Application.drain { a with hang_monitor_ := some m.Reset } ps with
          | none => rw [hd2] at hd; cases hd
          | some r =>
            rw [hd2] at hd
            cases hd
            rw [hre]
            simp [reads, ih _ r hd2]
      · rw [drain_cons_read a p ps hr hf] at hd
        cases hd2 : Application.drain a ps with
        | none => rw [hd2] at hd; cases hd
        | some r =>
          rw [hd2] at hd
          cases hd
          rw [hre]
          simp [reads, ih _ r hd2]
    · have hre : readyEntries (p :: ps) = readyEntries ps := by
        simp [readyEntries, List.filter_cons, hr]
      rw [drain_cons_skip a p ps hr] at hd
      rw [hre]
      exact ih a d hd

theorem readyEntries_sub (ps : List PollFd) : ∀ p ∈ readyEntries ps, p ∈ ps := by
  intro p hp
  exact (List.mem_filter.mp hp).1

/-- C25: for every combination of the three handles, the array that
`WaitForSystemEventWithTimeout` polls holds exactly the handles that are not negative, in
the order display-drive timer, wakeup signal, heartbeat timer, each with `POLLIN`
requested; its length `fds_sz` is the number of those handles and is at most 3; a call
polls this array and nothing else, and reads only descriptors of the array, so never a
negative handle; and when the array is empty the call does nothing. -/
theorem pollSet_is_the_nonnegative_handles (a : Application) :
    a.pollSet.map (fun p => p.fd) = a.nonNegativeHandles ∧
      (∀ p ∈ a.pollSet, p.events = POLLIN ∧ p.revents = 0 ∧ 0 ≤ p.fd) ∧
      a.pollSet.length = a.nonNegativeHandles.length ∧
      a.pollSet.length ≤ 3 ∧
      (∀ (ppoll : List PollFd → Timespec → PollResult) (time : SbTime)
          (r : Application × List AppEffect),
        a.WaitForSystemEventWithTimeout ppoll time = some r →
          (∀ (fds : List PollFd) (t : Timespec),
            AppEffect.ppoll fds t ∈ r.2 → fds = a.pollSet) ∧
          (∀ fd ∈ reads r.2, 0 ≤ fd ∧ fd ∈ a.nonNegativeHandles)) ∧
      (a.pollSet = [] →
        ∀ (ppoll : List PollFd → Timespec → PollResult) (time : SbTime),
          a.WaitForSystemEventWithTimeout ppoll time = some (a, [])) := by
  have hlen : a.pollSet.length = a.nonNegativeHandles.length := by
    rw [← pollSet_fds a, List.length_map]
  have hmem : ∀ fd : Int, fd ∈ a.nonNegativeHandles → 0 ≤ fd := by
    intro fd hfd
    unfold Application.nonNegativeHandles at hfd
    have := (List.mem_filter.mp hfd).2
    exact of_decide_eq_true this
  refine ⟨pollSet_fds a, ?_, hlen, ?_, ?_, ?_⟩
  · intro p hp
    have h0 : 0 ≤ p.fd := not_lt.mp (pollSet_fd_nonneg a p hp)
    unfold Application.pollSet at hp
    simp only [List.mem_append] at hp
    rcases hp with (hp | hp) | hp
    · split at hp
      · simp only [List.mem_singleton] at hp; subst hp; exact ⟨rfl, rfl, h0⟩
      · cases hp
    · split at hp
      · simp only [List.mem_singleton] at hp; subst hp; exact ⟨rfl, rfl, h0⟩
      · cases hp
    · split at hp
      · simp only [List.mem_singleton] at hp; subst hp; exact ⟨rfl, rfl, h0⟩
      · cases hp
  · rw [hlen]
    unfold Application.nonNegativeHandles
    exact List.length_filter_le _ _
  · intro ppoll time r hr
    have hsub : ∀ (d : Application × List AppEffect),
        a.drain (writeRevents a.pollSet (ppoll a.pollSet (toTimespec time)).revents) = some d →
        ∀ fd ∈ reads d.2, 0 ≤ fd ∧ fd ∈ a.nonNegativeHandles := by
      intro d hd fd hfd
      rw [drain_reads _ a d hd] at hfd
      obtain ⟨p, hp, rfl⟩ := List.mem_map.mp hfd
      obtain ⟨q, hq, hpq⟩ := writeRevents_fd a.pollSet _ p (readyEntries_sub _ p hp)
      have : p.fd ∈ a.nonNegativeHandles := by
        rw [← pollSet_fds a, hpq]
        exact List.mem_map.mpr ⟨q, hq, rfl⟩
      exact ⟨hmem _ this, this⟩
    unfold Application.WaitForSystemEventWithTimeout at hr
    by_cases he : a.pollSet.length ≠ 0
    · by_cases hrc : (ppoll a.pollSet (toTimespec time)).rc > 0
      · simp only [he, hrc, ne_eq, not_false_eq_true, if_true] at hr
        cases hd : a.drain (writeRevents a.pollSet (ppoll a.pollSet (toTimespec time)).revents) with
        | none => rw [hd] at hr; cases hr
        | some d =>
          rw [hd] at hr
          cases hr
          refine ⟨?_, ?_⟩
          · intro fds t hm
            simp only [List.singleton_append, List.mem_cons] at hm
            rcases hm with hm | hm
            · cases hm; rfl
            · exact absurd hm (drain_no_ppoll _ a d hd fds t)
          · intro fd hfd
            exact hsub d hd fd (by simpa [reads] using hfd)
      · simp only [he, hrc, ne_eq, not_false_eq_true, if_true, if_false] at hr
        cases hr
        refine ⟨?_, ?_⟩
        · intro fds t hm
          simp only [List.mem_singleton] at hm
          cases hm; rfl
        · intro fd hfd
          simp [reads] at hfd
    · simp only [he, if_false] at hr
      cases hr
      exact ⟨fun fds t hm => (by cases hm), fun fd hfd => (by cases hfd)⟩
  · intro he ppoll time
    unfold Application.WaitForSystemEventWithTimeout
    simp [he]

/-! ## Theorems: the heartbeat -/

theorem resets_cons_read (fd : Int) (es : List AppEffect) :
    resets (AppEffect.read fd :: es) = resets es := rfl

theorem writeRevents_map_fd (fds : List PollFd) :
    ∀ rs : List Nat, (writeRevents fds rs).map (fun p => p.fd) = fds.map (fun p => p.fd) := by
  induction fds with
  | nil => intro rs; rfl
  | cons q qs ih =>
    intro rs
    cases rs with
    | nil => simp [writeRevents, ih]
    | cons r rs => simp [writeRevents, ih]

theorem drain_resets (ps : List PollFd) :
    ∀ (a : Application),
      ((∃ p ∈ ps, p.fd = a.monitor_timer_fd_ ∧ p.revents &&& POLLIN = POLLIN) →
        a.hang_monitor_ ≠ none) →
      ∃ d : Application × List AppEffect, a.drain ps = some d ∧
        resets d.2 = ((readyEntries ps).filter
          (fun p => decide (p.fd = a.monitor_timer_fd_))).length ∧
        d.1.ess_timer_fd_ = a.ess_timer_fd_ ∧ d.1.wakeup_fd_ = a.wakeup_fd_ ∧
        d.1.monitor_timer_fd_ = a.monitor_timer_fd_ ∧
        d.1.ess_loop_last_ts_ = a.ess_loop_last_ts_ ∧
        d.1.hang_monitor_ = a.hang_monitor_.map
          (fun m => { m with resets := m.resets + resets d.2 }) := by
  induction ps with
  | nil =>
    intro a _
    refine ⟨(a, []), rfl, rfl, rfl, rfl, rfl, rfl, ?_⟩
    cases a.hang_monitor_ <;> rfl
  | cons p ps ih =>
    intro a hnull
    by_cases hr : p.revents &&& POLLIN = POLLIN
    · have hre : readyEntries (p :: ps) = p :: readyEntries ps := by
        simp [readyEntries, List.filter_cons, hr]
      by_cases hf : p.fd = a.monitor_timer_fd_
      · cases hm : a.hang_monitor_ with
        | none => exact absurd hm (hnull ⟨p, List.mem_cons_self _ _, hf, hr⟩)
        | some m =>
          obtain ⟨d, hd, h1, h2, h3, h4, h5, h6⟩ :=
            ih { a with hang_monitor_ := some m.Reset } (fun _ => by simp)
          refine ⟨(d.1, [AppEffect.read p.fd, AppEffect.HangMonitorReset] ++ d.2), ?_, ?_,
            h2, h3, h4, h5, ?_⟩
          · rw [drain_cons_monitor a p ps hr hf m hm, hd]; rfl
          · rw [hre]
            simp only [List.filter_cons, hf, decide_True, if_true, List.length_cons]
            show resets d.2 + 1 = _
            rw [h1]
          · rw [h6]
            show some _ = some _
            congr 1
            show ({ m.Reset with resets := m.Reset.resets + resets d.2 } : HangMonitor) =
              { m with resets := m.resets + (resets d.2 + 1) }
            simp [HangMonitor.Reset]; omega
      · obtain ⟨d, hd, h1, h2, h3, h4, h5, h6⟩ := ih a (fun ⟨q, hq, hq1, hq2⟩ =>
          hnull ⟨q, List.mem_cons_of_mem _ hq, hq1, hq2⟩)
        refine ⟨(d.1, [AppEffect.read p.fd] ++ d.2), ?_, ?_, h2, h3, h4, h5, h6⟩
        · rw [drain_cons_read a p ps hr hf, hd]; rfl
        · rw [hre]
          simp only [List.filter_cons, hf, decide_False, if_false]
          exact h1
    · have hre : readyEntries (p :: ps) = readyEntries ps := by
        simp [readyEntries, List.filter_cons, hr]
      obtain ⟨d, hd, h1, h2, h3, h4, h5, h6⟩ := ih a (fun ⟨q, hq, hq1, hq2⟩ =>
        hnull ⟨q, List.mem_cons_of_mem _ hq, hq1, hq2⟩)
      refine ⟨d, ?_, ?_, h2, h3, h4, h5, h6⟩
      · rw [drain_cons_skip a p ps hr, hd]
      · rw [hre]; exact h1

theorem filter_fd_length_le_count (x : Int) (l : List PollFd) :
    ((readyEntries l).filter (fun p => decide (p.fd = x))).length ≤
      (l.map (fun p => p.fd)).count x := by
  induction l with
  | nil => simp [readyEntries]
  | cons p ps ih =>
    have hc : List.count x (ps.map (fun p => p.fd)) ≤
        List.count x ((p :: ps).map (fun p => p.fd)) := by
      rw [List.map_cons]; exact List.count_le_count_cons _ _ _
    by_cases hr : p.revents &&& POLLIN = POLLIN
    · have hre : readyEntries (p :: ps) = p :: readyEntries ps := by
        simp [readyEntries, List.filter_cons, hr]
      rw [hre]
      by_cases hf : p.fd = x
      · rw [List.filter_cons_of_pos (by simpa using hf), List.map_cons, List.length_cons,
          hf, List.count_cons_self]
        omega
      · rw [List.filter_cons_of_neg (by simpa using hf)]
        omega
    · have hre : readyEntries (p :: ps) = readyEntries ps := by
        simp [readyEntries, List.filter_cons, hr]
      rw [hre]
      omega

theorem count_monitor_le_one (a : Application)
    (hd : 0 ≤ a.monitor_timer_fd_ →
      a.ess_timer_fd_ ≠ a.monitor_timer_fd_ ∧ a.wakeup_fd_ ≠ a.monitor_timer_fd_) :
    a.nonNegativeHandles.count a.monitor_timer_fd_ ≤ 1 := by
  unfold Application.nonNegativeHandles
  by_cases h3 : 0 ≤ a.monitor_timer_fd_
  · obtain ⟨h1, h2⟩ := hd h3
    by_cases e1 : 0 ≤ a.ess_timer_fd_ <;> by_cases e2 : 0 ≤ a.wakeup_fd_ <;>
      simp [List.filter_cons, e1, e2, h3, List.count_cons, h1, h2]
  · have hn : ∀ fd ∈ [a.ess_timer_fd_, a.wakeup_fd_, a.monitor_timer_fd_].filter
        (fun fd => decide (0 ≤ fd)), fd ≠ a.monitor_timer_fd_ := by
      intro fd hfd he
      have := of_decide_eq_true (List.mem_filter.mp hfd).2
      rw [he] at this
      exact h3 this
    have : List.count a.monitor_timer_fd_
        ([a.ess_timer_fd_, a.wakeup_fd_, a.monitor_timer_fd_].filter
          (fun fd => decide (0 ≤ fd))) = 0 :=
      List.count_eq_zero.mpr (fun hm => hn _ hm rfl)
    omega

/-- C24: in one call of `WaitForSystemEventWithTimeout`, on an application whose open
heartbeat descriptor differs from the two other descriptors and has its hang monitor,
`HangMonitor::Reset` is called exactly once if the poll returns a positive value and the
entry of the heartbeat timer reports `POLLIN`, and not at all otherwise; the descriptors
read are those of the entries reporting `POLLIN`, each once, in the order of the array,
and none is read when the poll returns 0 or fails; and the application keeps its
descriptors, so the same holds for the next call. -/
theorem heartbeat_reset_once_per_wait (a : Application)
    (ppoll : List PollFd → Timespec → PollResult) (time : SbTime)
    (hwf : 0 ≤ a.monitor_timer_fd_ →
      a.ess_timer_fd_ ≠ a.monitor_timer_fd_ ∧ a.wakeup_fd_ ≠ a.monitor_timer_fd_ ∧
        a.hang_monitor_ ≠ none) :
    ∃ r : Application × List AppEffect,
      a.WaitForSystemEventWithTimeout ppoll time = some r ∧
      (((ppoll a.pollSet (toTimespec time)).rc > 0 ∧
          ∃ p ∈ writeRevents a.pollSet (ppoll a.pollSet (toTimespec time)).revents,
            p.fd = a.monitor_timer_fd_ ∧ p.revents &&& POLLIN = POLLIN) →
        resets r.2 = 1) ∧
      (¬ ((ppoll a.pollSet (toTimespec time)).rc > 0 ∧
          ∃ p ∈ writeRevents a.pollSet (ppoll a.pollSet (toTimespec time)).revents,
            p.fd = a.monitor_timer_fd_ ∧ p.revents &&& POLLIN = POLLIN) →
        resets r.2 = 0) ∧
      ((ppoll a.pollSet (toTimespec time)).rc > 0 →
        reads r.2 = (readyEntries (writeRevents a.pollSet
          (ppoll a.pollSet (toTimespec time)).revents)).map (fun p => p.fd)) ∧
      (¬ (ppoll a.pollSet (toTimespec time)).rc > 0 → reads r.2 = []) ∧
      r.1.hang_monitor_ =
        a.hang_monitor_.map (fun m => { m with resets := m.resets + resets r.2 }) ∧
      r.1.ess_timer_fd_ = a.ess_timer_fd_ ∧ r.1.wakeup_fd_ = a.wakeup_fd_ ∧
      r.1.monitor_timer_fd_ = a.monitor_timer_fd_ := by
  have hk1 : ((readyEntries (writeRevents a.pollSet
      (ppoll a.pollSet (toTimespec time)).revents)).filter
        (fun p => decide (p.fd = a.monitor_timer_fd_))).length ≤ 1 := by
    refine le_trans (filter_fd_length_le_count _ _) ?_
    rw [writeRevents_map_fd, pollSet_fds]
    exact count_monitor_le_one a (fun h => ⟨(hwf h).1, (hwf h).2.1⟩)
  have hex : (∃ p ∈ writeRevents a.pollSet (ppoll a.pollSet (toTimespec time)).revents,
        p.fd = a.monitor_timer_fd_ ∧ p.revents &&& POLLIN = POLLIN) ↔
      0 < ((readyEntries (writeRevents a.pollSet
        (ppoll a.pollSet (toTimespec time)).revents)).filter
          (fun p => decide (p.fd = a.monitor_timer_fd_))).length := by
    rw [List.length_pos_iff_exists_mem]
    constructor
    · rintro ⟨p, hp, h1, h2⟩
      exact ⟨p, List.mem_filter.mpr ⟨List.mem_filter.mpr ⟨hp, by simpa using h2⟩,
        by simpa using h1⟩⟩
    · rintro ⟨p, hp⟩
      have h1 := List.mem_filter.mp hp
      have h2 := List.mem_filter.mp h1.1
      exact ⟨p, h2.1, by simpa using h1.2, by simpa using h2.2⟩
  have hnone : a.hang_monitor_.map (fun m => { m with resets := m.resets + 0 }) =
      a.hang_monitor_ := by
    cases a.hang_monitor_ <;> rfl
  unfold Application.WaitForSystemEventWithTimeout
  by_cases he : a.pollSet.length ≠ 0
  · by_cases hrc : (ppoll a.pollSet (toTimespec time)).rc > 0
    · obtain ⟨d, hd, h1, h2, h3, h4, -, h6⟩ := drain_resets
        (writeRevents a.pollSet (ppoll a.pollSet (toTimespec time)).revents) a
        (fun ⟨p, hp, hf, _⟩ => by
          obtain ⟨q, hq, hpq⟩ := writeRevents_fd _ _ p hp
          have h0 := pollSet_fd_nonneg a q hq
          rw [← hpq, hf] at h0
          exact (hwf (not_lt.mp h0)).2.2)
      have hreads := drain_reads _ a d hd
      refine ⟨(d.1, [AppEffect.ppoll a.pollSet (toTimespec time)] ++ d.2), ?_, ?_, ?_, ?_, ?_,
        ?_, h2, h3, h4⟩
      · simp only [he, hrc, ne_eq, not_false_eq_true, if_true, hd]
      · rintro ⟨-, hx⟩
        have := hex.mp hx
        show resets d.2 = 1
        omega
      · intro hx
        have : ¬ 0 < ((readyEntries (writeRevents a.pollSet
            (ppoll a.pollSet (toTimespec time)).revents)).filter
              (fun p => decide (p.fd = a.monitor_timer_fd_))).length :=
          fun hpos => hx ⟨hrc, hex.mpr hpos⟩
        show resets d.2 = 0
        omega
      · intro _
        exact hreads
      · intro hx
        exact absurd hrc hx
      · exact h6
    · refine ⟨(a, [AppEffect.ppoll a.pollSet (toTimespec time)]), ?_, ?_, ?_, ?_, ?_, ?_,
        rfl, rfl, rfl⟩
      · simp only [he, hrc, ne_eq, not_false_eq_true, if_true, if_false]
      · rintro ⟨hx, -⟩
        exact absurd hx hrc
      · intro _; rfl
      · intro hx
        exact absurd hx hrc
      · intro _; rfl
      · exact hnone.symm
  · have he2 : a.pollSet = [] := by
      cases hp : a.pollSet with
      | nil => rfl
      | cons p ps => rw [hp] at he; simp at he
    refine ⟨(a, []), ?_, ?_, ?_, ?_, ?_, ?_, rfl, rfl, rfl⟩
    · simp only [he, if_false]
    · rintro ⟨-, p, hp, -⟩
      rw [he2] at hp
      cases hp
    · intro _; rfl
    · intro _
      rw [he2]
      rfl
    · intro _; rfl
    · exact hnone.symm

/-- The application after `Initialize` has its hang monitor whenever the heartbeat
descriptor is open. -/
theorem Initialize_keeps_monitor (a : Application) (e t m : Int)
    (r : Application × List AppEffect) (h : a.Initialize e t m = some r) :
    0 ≤ r.1.monitor_timer_fd_ → r.1.hang_monitor_ ≠ none := by
  unfold Application.Initialize at h
  by_cases hm : m = -1
  · simp [hm] at h
    rw [← h]
    intro h0
    simp at h0
  · cases hh : a.hang_monitor_ with
    | none => simp [hm, hh] at h
    | some mon =>
      simp [hm, hh] at h
      rw [← h]
      intro _
      simp [hh]

/-- Witness for C24: with the descriptors 3, 4 and 5 and a poll that reports the
display-drive timer and the heartbeat timer, the hang monitor is reset once. -/
theorem heartbeat_reset_once_per_wait_witness :
    ∃ r : Application × List AppEffect,
      Application.WaitForSystemEventWithTimeout
        { ess_timer_fd_ := 3, wakeup_fd_ := 4, monitor_timer_fd_ := 5,
          hang_monitor_ := some { reset_interval := 1000000 }, ess_loop_last_ts_ := 0 }
        (fun _ _ => { rc := 2, revents := [1, 0, 1] }) 16666 = some r ∧
      resets r.2 = 1 ∧ reads r.2 = [3, 5] := by
  obtain ⟨r, h1, h2, -, h3, -⟩ := heartbeat_reset_once_per_wait
    { ess_timer_fd_ := 3, wakeup_fd_ := 4, monitor_timer_fd_ := 5,
      hang_monitor_ := some { reset_interval := 1000000 }, ess_loop_last_ts_ := 0 }
    (fun _ _ => { rc := 2, revents := [1, 0, 1] }) 16666
    (fun _ => ⟨by decide, by decide, by simp⟩)
  exact ⟨r, h1, h2 ⟨by decide, by decide⟩, h3 (by decide)⟩

/-! ## Theorems: the mutex during `sem.Take()` -/

theorem Stuck_step {s s' : Sys} {tid : Nat} (hi : s.Inv) (hst : s.Stuck tid) {a : Action}
    (hs : s.step a = some s') : s'.Stuck tid := by
  obtain ⟨hrl, hmx, th, hth, hpc, hsem⟩ := hst
  have thread_case : ∀ (j : Nat) (a' : Action),
      (a' = .acquire j ∨ a' = .test j ∨ a' = .wake j ∨ a' = .submit j ∨ a' = .takeSem j) →
      (s.threads[j]?).bind (fun tj => s.threadStep j tj a') = some s' → s'.Stuck tid := by
    intro j a' ha hs'
    obtain ⟨tj, htj, hstep⟩ := Sys.step_thread hs'
    have hne : ∀ pc', tj.pc = pc' → (pc' = .atTest ∨ pc' = .ready ∨ pc' = .take) →
        j = tid ∧ tj = th := by
      intro pc' h1 h2
      have := hi.holds j tj htj (h1 ▸ h2)
      rw [hmx] at this
      have hj : j = tid := (Option.some.inj this).symm
      subst hj
      rw [hth] at htj
      exact ⟨rfl, (Option.some.inj htj).symm⟩
    rcases ha with ha | ha | ha | ha | ha <;> subst ha <;>
      simp only [Sys.threadStep] at hstep
    · split at hstep
      · rename_i hc
        rw [hmx] at hc
        exact absurd hc.2 (by simp)
      · cases hstep
    · split at hstep
      · rename_i hc
        obtain ⟨-, h2⟩ := hne _ hc (Or.inl rfl)
        rw [h2, hpc] at hc
        cases hc
      · cases hstep
    · split at hstep
      · rename_i hc
        have hj : j ≠ tid := by
          intro hj
          subst hj
          rw [hth] at htj
          rw [← Option.some.inj htj, hpc] at hc
          cases hc
        rw [← Option.some.inj hstep]
        exact ⟨hrl, hmx, th, by rw [List.getElem?_set_ne hj]; exact hth, hpc, hsem⟩
      · cases hstep
    · split at hstep
      · rename_i hc
        obtain ⟨-, h2⟩ := hne _ hc (Or.inr (Or.inl rfl))
        rw [h2, hpc] at hc
        cases hc
      · cases hstep
    · split at hstep
      · rename_i hc
        obtain ⟨-, h2⟩ := hne _ hc.1 (Or.inr (Or.inr rfl))
        rw [h2, hsem] at hc
        exact absurd hc.2 (by decide)
      · cases hstep
  cases a with
  | call op =>
    simp only [Sys.step, Option.some.injEq] at hs
    rw [← hs]
    refine ⟨hrl, hmx, th, ?_, hpc, hsem⟩
    have hlt : tid < s.threads.length := by
      rcases Nat.lt_or_ge tid s.threads.length with h1 | h1
      · exact h1
      · rw [List.getElem?_eq_none h1] at hth; cases hth
    show (s.threads ++ _)[tid]? = some th
    rw [List.getElem?_append_left hlt]
    exact hth
  | acquire j => exact thread_case j _ (Or.inl rfl) hs
  | test j => exact thread_case j _ (Or.inr (Or.inl rfl)) hs
  | wake j => exact thread_case j _ (Or.inr (Or.inr (Or.inl rfl))) hs
  | submit j => exact thread_case j _ (Or.inr (Or.inr (Or.inr (Or.inl rfl)))) hs
  | takeSem j => exact thread_case j _ (Or.inr (Or.inr (Or.inr (Or.inr rfl)))) hs
  | beginInit => simp [Sys.step, hrl] at hs
  | beginTeardown => simp [Sys.step, hrl] at hs
  | enter => simp [Sys.step, hmx] at hs
  | dispatch => simp [Sys.step, hrl] at hs
  | quit => simp [Sys.step, hmx] at hs
  | setStopRequestHandler cb d => simp [Sys.step, hmx] at hs
  | setConcealRequestHandler cb d => simp [Sys.step, hmx] at hs
  | conceal =>
    simp only [Sys.step, Option.some.injEq] at hs
    rw [← hs]
    exact ⟨hrl, hmx, th, hth, hpc, hsem⟩
  | setCobaltExitStrategy strategy =>
    simp only [Sys.step, Option.some.injEq] at hs
    rw [← hs]
    exact ⟨hrl, hmx, th, hth, hpc, hsem⟩

theorem Stuck_exec (as : List Action) :
    ∀ {s s' : Sys} {tid : Nat}, s.Inv → s.Stuck tid → s.exec as = some s' →
      s'.Stuck tid := by
  induction as with
  | nil =>
    intro s s' tid _ hst hs
    simp only [Sys.exec, Option.some.injEq] at hs
    rw [← hs]; exact hst
  | cons a as ih =>
    intro s s' tid hi hst hs
    simp only [Sys.exec] at hs
    cases h : s.step a with
    | none => rw [h] at hs; exact absurd hs (by simp)
    | some s1 =>
      rw [h] at hs
      exact ih (Inv_sys_step hi h) (Stuck_step hi hst h) hs

/-- C23: a caller thread that waits at `sem.Take()` inside `RequestSuspend`,
`RequestResume`, `RequestPause` or `RequestUnpause` holds `mutex_`: in every reachable
state with such a thread the run-loop thread cannot enter `OnInitialize` or `OnTeardown`,
and `RequestQuit`, `SetStopRequestHandler` and `SetConcealRequestHandler` cannot go on.
After `RequestSuspend` on a running application followed by the run loop going into
`OnTeardown`, the caller waits for the run loop and the run loop for the caller: whatever
steps follow, the caller is still at `sem.Take()` and the run loop still outside
`OnTeardown`. -/
theorem blocked_caller_holds_mutex :
    (∀ s : Sys, s.Reachable → ∀ (tid : Nat) (th : Thread),
      s.threads[tid]? = some th → th.pc = .take →
        s.mutex_ = some tid ∧ s.step .enter = none ∧ s.step .quit = none ∧
        (∀ cb d, s.step (.setStopRequestHandler cb d) = none) ∧
        (∀ cb d, s.step (.setConcealRequestHandler cb d) = none)) ∧
      Sys.exec {} suspendThenTeardown = some suspendStuck ∧
      suspendStuck.Stuck 0 ∧
      (∀ (as : List Action) (s' : Sys), suspendStuck.exec as = some s' → s'.Stuck 0) := by
  have hex : Sys.exec {} suspendThenTeardown = some suspendStuck := by decide
  have hst : suspendStuck.Stuck 0 := ⟨rfl, rfl, _, rfl, rfl, rfl⟩
  refine ⟨?_, hex, hst, ?_⟩
  · intro s hr tid th hth hpc
    have hm := (Inv_of_sys_reachable hr).holds tid th hth (Or.inr (Or.inr hpc))
    refine ⟨hm, ?_, ?_, ?_, ?_⟩
    · simp [Sys.step, hm]
    · simp [Sys.step, hm]
    · intro cb d; simp [Sys.step, hm]
    · intro cb d; simp [Sys.step, hm]
  · intro as s' hs
    exact Stuck_exec as (Inv_of_sys_reachable ⟨true, 13, suspendThenTeardown, hex⟩) hst hs

/-! ## Theorems: one repeat timer -/

theorem uncancelled_append (a b : List Effect) :
    ∀ live : List SbEventId,
      uncancelled live (a ++ b) = (uncancelled live a).bind (fun l => uncancelled l b) := by
  induction a with
  | nil => intro live; rfl
  | cons e es ih =>
    intro live
    cases e with
    | inject d => simp only [List.cons_append, uncancelled]; exact ih live
    | cancel id => simp only [List.cons_append, uncancelled]; exact ih _
    | schedule id d =>
      simp only [List.cons_append, uncancelled]
      by_cases hl : live = []
      · rw [if_pos hl, if_pos hl]; exact ih _
      · rw [if_neg hl, if_neg hl]; rfl

theorem uncancelled_cancelLog {h : Host} (hi : Inv h) :
    uncancelled (liveOf h) (cancelLog h) = some [] := by
  unfold liveOf cancelLog
  by_cases hs : h.input.key_repeat_state_ = 0
  · obtain ⟨h1, -, -⟩ := hi.idle hs
    simp [hs, h1, uncancelled]
  · obtain ⟨-, h1, -⟩ := hi.armed hs
    simp [hs, h1, uncancelled]

theorem uncancelled_step {h : Host} (hi : Inv h) (hu : uncancelled [] h.log = some (liveOf h))
    (i : Input) : uncancelled [] (step h i).log = some (liveOf (step h i)) := by
  rcases step_cases hi i with ⟨m, he, -⟩ | ⟨id, -, he⟩ | ⟨key, type, -, -, he⟩ |
    ⟨key, -, -, -, he⟩ | ⟨id, -, -, hs, he⟩
  · rw [he]; exact hu
  · rw [he]; exact hu
  · rw [he]
    simp only [liveOf, if_true]
    rw [uncancelled_append, hu, Option.some_bind, uncancelled_append]
    simp only [uncancelled, Option.some_bind]
    exact uncancelled_cancelLog hi
  · rw [he]
    simp only [liveOf]
    rw [uncancelled_append, hu, Option.some_bind, uncancelled_append, uncancelled_append]
    simp only [uncancelled, Option.some_bind]
    rw [uncancelled_cancelLog hi]
    simp [uncancelled]
  · rw [he]
    simp only [liveOf]
    rw [uncancelled_append, hu, Option.some_bind]
    obtain ⟨-, h1, -⟩ := hi.armed hs
    simp [uncancelled, liveOf, hs]

theorem uncancelled_run (inputs : List Input) :
    ∀ {h : Host}, Inv h → uncancelled [] h.log = some (liveOf h) →
      uncancelled [] (run h inputs).log = some (liveOf (run h inputs)) := by
  induction inputs with
  | nil => intro h _ hu; exact hu
  | cons i is ih =>
    intro h hi hu
    exact ih (Inv_step hi i) (uncancelled_step hi hu i)

/-- C22: in every state that presses, releases and timer firings lead to from a fresh
`EssInput`, at most one callback is pending, a pending callback is the one of
`key_repeat_event_id_`, and one is pending only when `key_repeat_state_` is 1. In the
record of the effects so far, every `SbEventSchedule` comes when every handle scheduled
before it has been cancelled, and the handles scheduled and not cancelled are exactly
the handles pending. -/
theorem at_most_one_repeat_timer (h : Host) (hr : Reachable h) :
    h.pending.length ≤ 1 ∧
      (∀ t ∈ h.pending, t.1 = h.input.key_repeat_event_id_) ∧
      (h.pending ≠ [] → h.input.key_repeat_state_ = 1) ∧
      uncancelled [] h.log = some (h.pending.map (fun t => t.1)) := by
  have hi := Inv_of_reachable hr
  have hu : uncancelled [] h.log = some (liveOf h) := by
    obtain ⟨inputs, rfl⟩ := hr
    exact uncancelled_run inputs Inv_fresh rfl
  by_cases hs : h.input.key_repeat_state_ = 0
  · obtain ⟨-, h2, -⟩ := hi.idle hs
    refine ⟨by rw [h2]; exact Nat.zero_le _, ?_, fun hne => absurd h2 hne, ?_⟩
    · intro t ht; rw [h2] at ht; cases ht
    · rw [hu, h2]; simp [liveOf, hs]
  · obtain ⟨h1, -, h3⟩ := hi.armed hs
    refine ⟨by rw [h3]; exact Nat.le_refl _, ?_, fun _ => h1, ?_⟩
    · intro t ht
      rw [h3] at ht
      rw [List.mem_singleton.mp ht]
    · rw [hu, h3]; simp [liveOf, hs]

/-- Witness for C22: after a press of Left, a firing of its callback and a press of
Right, one callback is pending, the third one scheduled. -/
theorem at_most_one_repeat_timer_witness :
    Reachable (run Host.fresh [.keyPressed KEY_LEFT, .timerFired 1, .keyPressed KEY_RIGHT]) ∧
      (run Host.fresh [.keyPressed KEY_LEFT, .timerFired 1, .keyPressed KEY_RIGHT]).pending
        = [(3, kKeyRepeatTime)] ∧
      uncancelled []
        (run Host.fresh [.keyPressed KEY_LEFT, .timerFired 1, .keyPressed KEY_RIGHT]).log =
        some [3] :=
  ⟨⟨_, rfl⟩, by decide,
    (at_most_one_repeat_timer _ ⟨[.keyPressed KEY_LEFT, .timerFired 1, .keyPressed KEY_RIGHT],
      rfl⟩).2.2.2.trans (by decide)⟩

/-! ## Theorems: the content directory -/

theorem dropEmptyLast_cons (x : List Char) (l : List (List Char)) (hl : l ≠ []) :
    dropEmptyLast (x :: l) = x :: dropEmptyLast l := by
  cases l with
  | nil => exact absurd rfl hl
  | cons y ys =>
    unfold dropEmptyLast
    rw [List.getLast?_cons_cons, List.dropLast_cons₂]
    by_cases h : (y :: ys).getLast? = some []
    · rw [if_pos h, if_pos h]
    · rw [if_neg h, if_neg h]

theorem modifyHead_nil_reverse (l : List (List Char)) :
    l.modifyHead (fun p => ([] : List Char).reverse ++ p) = l := by
  cases l <;> simp [List.modifyHead]

theorem modifyHead_cons_reverse (c : Char) (cur : List Char) (l : List (List Char)) :
    (l.modifyHead (List.cons c)).modifyHead (fun p => cur.reverse ++ p) =
      l.modifyHead (fun p => (c :: cur).reverse ++ p) := by
  cases l <;> simp [List.modifyHead]

theorem getlines_splitOn (s : List Char) :
    ∀ cur : List Char,
      getlines ':' cur s =
        dropEmptyLast ((s.splitOn ':').modifyHead (fun p => cur.reverse ++ p)) := by
  induction s with
  | nil =>
    intro cur
    unfold getlines List.splitOn
    rw [List.splitOnP_nil]
    by_cases hc : cur = []
    · subst hc; rfl
    · rw [if_neg hc]
      have : cur.reverse ≠ [] := by simpa using hc
      simp [List.modifyHead, dropEmptyLast, this]
  | cons c cs ih =>
    intro cur
    unfold getlines List.splitOn
    rw [List.splitOnP_cons]
    by_cases hc : c = ':'
    · subst hc
      have h1 : ((':' : Char) == ':') = true := rfl
      rw [if_pos rfl, if_pos h1]
      show cur.reverse :: getlines ':' [] cs = dropEmptyLast ((cur.reverse ++ []) :: _)
      rw [List.append_nil, dropEmptyLast_cons _ _ (List.splitOnP_ne_nil _ _), ih [],
        modifyHead_nil_reverse]
      rfl
    · have h1 : (c == ':') = false := by simpa using hc
      rw [if_neg hc]
      simp only [h1]
      rw [ih (c :: cur), ← modifyHead_cons_reverse]
      rfl

theorem getlines_colonSeparated (s : List Char) : getlines ':' [] s = colonSeparated s := by
  rw [getlines_splitOn s []]
  rw [modifyHead_nil_reverse]
  rfl

theorem searchContentDir_first (env : PathEnv) (out_path : List Char) (path_size : Int)
    (e : List Char) (post : List (List Char)) (he : env.SbFileExists (fontsFile e) = true) :
    ∀ pre : List (List Char), (∀ p ∈ pre, env.SbFileExists (fontsFile p) = false) →
      searchContentDir env out_path path_size (pre ++ e :: post) =
        { ok := decide ((strlcat out_path e path_size).2 < path_size)
          out_path := (strlcat out_path e path_size).1 } := by
  intro pre
  induction pre with
  | nil =>
    intro _
    have he2 : env.SbFileExists (e ++ "/fonts/fonts.xml".toList) = true := he
    simp only [List.nil_append, searchContentDir, he2, if_true]
  | cons p ps ih =>
    intro hp
    have h1 : env.SbFileExists (p ++ "/fonts/fonts.xml".toList) = false :=
      hp p (List.mem_cons_self _ _)
    simp only [List.cons_append, searchContentDir, h1, Bool.false_eq_true, if_false]
    exact ih (fun q hq => hp q (List.mem_cons_of_mem _ hq))

theorem searchContentDir_none (env : PathEnv) (out_path : List Char) (path_size : Int) :
    ∀ entries : List (List Char), (∀ p ∈ entries, env.SbFileExists (fontsFile p) = false) →
      searchContentDir env out_path path_size entries =
        { ok := false, out_path := out_path } := by
  intro entries
  induction entries with
  | nil => intro _; rfl
  | cons p ps ih =>
    intro hp
    have h1 : env.SbFileExists (p ++ "/fonts/fonts.xml".toList) = false :=
      hp p (List.mem_cons_self _ _)
    simp only [searchContentDir, h1, Bool.false_eq_true, if_false]
    exact ih (fun q hq => hp q (List.mem_cons_of_mem _ hq))

theorem strlcat_empty (e : List Char) (size : Int) (h : (e.length : Int) < size) :
    strlcat [] e size = (e, (e.length : Int)) := by
  have h0 : ¬ size ≤ 0 := by omega
  have h1 : e.length ≤ size.toNat - 1 := by omega
  simp [strlcat, strlcpy, h0, List.take_of_length_le h1]

theorem copyOut_fits (e out : List Char) (size : Int) (h0 : e ≠ [])
    (h : (e.length : Int) < size) : copyOut e out size = { ok := true, out_path := e } := by
  have hpos : 0 < e.length := List.length_pos.mpr h0
  have h1 : ¬ ((e.length : Int) < 1 ∨ (e.length : Int) > size) := by omega
  have h2 : ¬ size ≤ 0 := by omega
  have h3 : e.length ≤ size.toNat - 1 := by omega
  simp only [copyOut, h1, if_false, strlcpy, h2, List.take_of_length_le h3]

/-- C21: when `COBALT_CONTENT_DIR` is set, `getline` reads exactly its colon-separated
entries, and `GetContentDirectory` gives the first of them, in order, in which
`/fonts/fonts.xml` exists: it appends that entry to `out_path` with `strlcat` and returns
whether it fitted, so with an empty `out_path` and room for the entry the result is the
entry and true, and `SbSystemGetPath` hands out the same entry; when no entry has the
file the function returns false and `out_path` is unchanged. When the variable is not set
the result is `/usr/share/content/data`. In the search path `/a:/b:/c` with the fonts
under `/b` and `/c` the result is `/b`. -/
theorem GetContentDirectory_first_entry (env : PathEnv) (out_path : List Char)
    (path_size : Int) :
    (∀ paths : List Char, env.COBALT_CONTENT_DIR = some paths →
      getlines ':' [] paths = colonSeparated paths ∧
      (∀ (pre : List (List Char)) (e : List Char) (post : List (List Char)),
        colonSeparated paths = pre ++ e :: post →
        (∀ p ∈ pre, env.SbFileExists (fontsFile p) = false) →
        env.SbFileExists (fontsFile e) = true →
          GetContentDirectory env out_path path_size =
            { ok := decide ((strlcat out_path e path_size).2 < path_size)
              out_path := (strlcat out_path e path_size).1 } ∧
          ((e.length : Int) < path_size →
            GetContentDirectory env [] path_size = { ok := true, out_path := e }) ∧
          (e ≠ [] → e.length < env.kSbFileMaxPath → (e.length : Int) < path_size →
            SbSystemGetPath env .kSbSystemPathContentDirectory (some out_path) path_size =
              some (true, some e))) ∧
      ((∀ p ∈ colonSeparated paths, env.SbFileExists (fontsFile p) = false) →
        GetContentDirectory env out_path path_size = { ok := false, out_path := out_path } ∧
        SbSystemGetPath env .kSbSystemPathContentDirectory (some out_path) path_size =
          some (false, some out_path))) ∧
      (env.COBALT_CONTENT_DIR = none →
        GetContentDirectory env out_path path_size =
          { ok := decide ((strlcat out_path "/usr/share/content/data".toList path_size).2
                    < path_size)
            out_path := (strlcat out_path "/usr/share/content/data".toList path_size).1 } ∧
        (23 < path_size →
          GetContentDirectory env [] path_size =
            { ok := true, out_path := "/usr/share/content/data".toList })) ∧
      GetContentDirectory searchEnv [] 4096 = { ok := true, out_path := "/b".toList } := by
  refine ⟨fun paths hset => ⟨getlines_colonSeparated paths, ?_, ?_⟩, ?_, by decide⟩
  · intro pre e post hsplit hpre he
    have hgen : ∀ (out : List Char) (size : Int), GetContentDirectory env out size =
        { ok := decide ((strlcat out e size).2 < size), out_path := (strlcat out e size).1 } := by
      intro out size
      unfold GetContentDirectory
      simp only [hset]
      rw [getlines_colonSeparated, hsplit]
      exact searchContentDir_first env out size e post he pre hpre
    refine ⟨hgen _ _, ?_, ?_⟩
    · intro hfit
      rw [hgen, strlcat_empty e path_size hfit]
      simp [hfit]
    · intro hne hmax hfit
      have hmax2 : (e.length : Int) < (env.kSbFileMaxPath : Int) := by omega
      have h0 : path_size ≠ 0 := by omega
      unfold SbSystemGetPath SbSystemGetPathFuel
      simp only [h0, if_false]
      rw [hgen, strlcat_empty e _ hmax2]
      simp only [hmax2, decide_True, Bool.true_eq_false, if_false,
        copyOut_fits e out_path path_size hne hfit]
  · intro hall
    have hgen : ∀ (out : List Char) (size : Int), GetContentDirectory env out size =
        { ok := false, out_path := out } := by
      intro out size
      unfold GetContentDirectory
      simp only [hset]
      rw [getlines_colonSeparated]
      exact searchContentDir_none env out size _ hall
    refine ⟨hgen _ _, ?_⟩
    unfold SbSystemGetPath SbSystemGetPathFuel
    by_cases h0 : path_size = 0
    · simp [h0]
    · simp [h0, hgen]
  · intro hunset
    have hgen : ∀ (out : List Char) (size : Int), GetContentDirectory env out size =
        { ok := decide ((strlcat out "/usr/share/content/data".toList size).2 < size)
          out_path := (strlcat out "/usr/share/content/data".toList size).1 } := by
      intro out size
      unfold GetContentDirectory
      simp only [hunset]
    refine ⟨hgen _ _, ?_⟩
    intro hfit
    have hlen : (("/usr/share/content/data".toList.length : Nat) : Int) < path_size := by
      have : "/usr/share/content/data".toList.length = 23 := by decide
      rw [this]; exact hfit
    rw [hgen, strlcat_empty _ path_size hlen]
    simp [hfit]

/-! ## Theorems: the modifier mask -/

theorem modifierOf_values (key : Nat) :
    modifierOf key = kSbKeyModifiersNone ∨ modifierOf key ∈ modifierBits := by
  unfold modifierOf KeyCodeToSbKeyModifiers modifierBits
  split
  · right; simp
  · split
    · right; simp
    · split
      · right; simp
      · split
        · right; simp
        · left; rfl

theorem modifier_press (h : Host) (key : Nat) (hm : modifierOf key ≠ kSbKeyModifiersNone) :
    step h (.keyPressed key) =
      { h with input := { h.input with
          key_modifiers_ := h.input.key_modifiers_ ||| modifierOf key } } := by
  show EssInput.OnKeyboardHandleKey h key .kSbInputEventTypePress = _
  rw [handleKey_modifier h key _ hm]
  unfold EssInput.UpdateModifiers
  have hm2 : KeyCodeToSbKeyModifiers (toUInt16 key) ≠ kSbKeyModifiersNone := hm
  simp [hm2, modifierOf]

theorem modifier_release (h : Host) (key : Nat) (hm : modifierOf key ≠ kSbKeyModifiersNone) :
    step h (.keyReleased key) =
      { h with input := { h.input with
          key_modifiers_ := h.input.key_modifiers_ &&& not32 (modifierOf key) } } := by
  show EssInput.OnKeyboardHandleKey h key .kSbInputEventTypeUnpress = _
  rw [handleKey_modifier h key _ hm]
  unfold EssInput.UpdateModifiers
  have hm2 : KeyCodeToSbKeyModifiers (toUInt16 key) ≠ kSbKeyModifiersNone := hm
  simp [hm2, modifierOf]

theorem step_other_mask {h : Host} (hi : Inv h) (i : Input)
    (hn : ∀ key, (i = .keyPressed key ∨ i = .keyReleased key) →
      modifierOf key = kSbKeyModifiersNone) :
    (step h i).input.key_modifiers_ = h.input.key_modifiers_ := by
  rcases step_cases hi i with ⟨m, he, key, hk, hc⟩ | ⟨id, -, he⟩ | ⟨key, type, -, -, he⟩ |
    ⟨key, -, -, -, he⟩ | ⟨id, -, -, hs, he⟩
  · rcases hc with hc | ⟨-, -, -, -, hc⟩
    · exact absurd (hn key hk) hc
    · rw [he, hc]
  · rw [he]
  · rw [he]
  · rw [he]
  · rw [he]

theorem lor_land_bit (m md b : Nat) : (m ||| md) &&& b = (m &&& b) ||| (md &&& b) := by
  apply Nat.eq_of_testBit_eq
  intro i
  simp [Nat.testBit_and, Nat.testBit_or, Bool.and_or_distrib_right]

theorem bits_disjoint :
    ∀ md ∈ modifierBits, ∀ b ∈ modifierBits,
      (md &&& b = if md = b then b else 0) ∧
      (not32 md &&& b = if md = b then 0 else b) ∧ b ≠ 0 ∧ md < 2 ^ 4 := by
  decide

theorem press_bit (m : Nat) {md b : Nat} (hmd : md ∈ modifierBits) (hb : b ∈ modifierBits) :
    ((m ||| md) &&& b = b ↔ (md = b ∨ m &&& b = b)) := by
  obtain ⟨h1, -, h3, -⟩ := bits_disjoint md hmd b hb
  rw [lor_land_bit, h1]
  by_cases he : md = b
  · subst he
    simp only [if_true, true_or, iff_true]
    apply Nat.eq_of_testBit_eq
    intro i
    simp [Nat.testBit_and, Nat.testBit_or]
  · simp [he]

theorem release_bit (m : Nat) {md b : Nat} (hmd : md ∈ modifierBits)
    (hb : b ∈ modifierBits) :
    ((m &&& not32 md) &&& b = b ↔ (md ≠ b ∧ m &&& b = b)) := by
  obtain ⟨-, h2, h3, -⟩ := bits_disjoint md hmd b hb
  rw [Nat.land_assoc, h2]
  by_cases he : md = b
  · subst he
    simp only [if_true, ne_eq, not_true_eq_false, false_and, iff_false]
    rw [Nat.and_zero]
    exact fun hc => h3 hc.symm
  · simp [he]

theorem mask_tracks {bit : Nat} (hb : bit ∈ modifierBits) (inputs : List Input) :
    ∀ (h : Host) (held : Bool), Inv h → h.input.key_modifiers_ < 2 ^ 4 →
      (h.input.key_modifiers_ &&& bit = bit ↔ held = true) →
      (run h inputs).input.key_modifiers_ < 2 ^ 4 ∧
        ((run h inputs).input.key_modifiers_ &&& bit = bit ↔
          lastModifierEventWasPress bit held inputs = true) := by
  induction inputs with
  | nil => intro h held _ hlt hh; exact ⟨hlt, hh⟩
  | cons i is ih =>
    intro h held hi hlt hh
    have hi2 := Inv_step hi i
    cases i with
    | keyPressed key =>
      show (run (step h (.keyPressed key)) is).input.key_modifiers_ < 2 ^ 4 ∧
        ((run (step h (.keyPressed key)) is).input.key_modifiers_ &&& bit = bit ↔
          lastModifierEventWasPress bit (if modifierOf key = bit then true else held) is
            = true)
      rcases modifierOf_values key with hm | hm
      · have hne : modifierOf key ≠ bit := by
          rw [hm]
          exact fun hc => (bits_disjoint bit hb bit hb).2.2.1 hc.symm
        have hmask := step_other_mask hi (.keyPressed key) (fun k hk => by
          rcases hk with hk | hk
          · cases hk; exact hm
          · cases hk)
        rw [if_neg hne]
        exact ih _ held hi2 (by rw [hmask]; exact hlt) (by rw [hmask]; exact hh)
      · have hm0 : modifierOf key ≠ kSbKeyModifiersNone :=
          fun hc => (bits_disjoint _ hm _ hm).2.2.1 hc
        have he := modifier_press h key hm0
        refine ih _ _ hi2 ?_ ?_
        · rw [he]
          exact Nat.or_lt_two_pow hlt (bits_disjoint _ hm _ hm).2.2.2
        · rw [he]
          show (h.input.key_modifiers_ ||| modifierOf key) &&& bit = bit ↔ _
          rw [press_bit _ hm hb]
          by_cases hc : modifierOf key = bit
          · simp [hc]
          · simp [hc, hh]
    | keyReleased key =>
      show (run (step h (.keyReleased key)) is).input.key_modifiers_ < 2 ^ 4 ∧
        ((run (step h (.keyReleased key)) is).input.key_modifiers_ &&& bit = bit ↔
          lastModifierEventWasPress bit (if modifierOf key = bit then false else held) is
            = true)
      rcases modifierOf_values key with hm | hm
      · have hne : modifierOf key ≠ bit := by
          rw [hm]
          exact fun hc => (bits_disjoint bit hb bit hb).2.2.1 hc.symm
        have hmask := step_other_mask hi (.keyReleased key) (fun k hk => by
          rcases hk with hk | hk
          · cases hk
          · cases hk; exact hm)
        rw [if_neg hne]
        exact ih _ held hi2 (by rw [hmask]; exact hlt) (by rw [hmask]; exact hh)
      · have hm0 : modifierOf key ≠ kSbKeyModifiersNone :=
          fun hc => (bits_disjoint _ hm _ hm).2.2.1 hc
        have he := modifier_release h key hm0
        refine ih _ _ hi2 ?_ ?_
        · rw [he]
          exact lt_of_le_of_lt Nat.and_le_left hlt
        · rw [he]
          show (h.input.key_modifiers_ &&& not32 (modifierOf key)) &&& bit = bit ↔ _
          rw [release_bit _ hm hb]
          by_cases hc : modifierOf key = bit
          · simp [hc]
          · simp [hc, hh]
    | timerFired id =>
      have hmask := step_other_mask hi (.timerFired id) (fun k hk => by
        rcases hk with hk | hk <;> cases hk)
      exact ih _ held hi2 (by rw [hmask]; exact hlt) (by rw [hmask]; exact hh)

theorem remapKey_mask (m key : Nat) :
    (remapKey m key).2 = if m = kSbKeyModifiersCtrl ∧ key ∈ ctrlChordKeys then 0 else m := by
  unfold remapKey
  by_cases hm : m = kSbKeyModifiersCtrl
  · rw [if_pos hm]
    by_cases hk : key ∈ ctrlChordKeys
    · rw [if_pos ⟨hm, hk⟩]
      unfold ctrlChordKeys at hk
      simp only [List.mem_cons, List.mem_singleton, List.not_mem_nil, or_false] at hk
      rcases hk with h | h | h | h | h | h | h | h <;> subst h <;> rfl
    · rw [if_neg (fun hc => hk hc.2)]
      unfold ctrlChordKeys at hk
      simp only [List.mem_cons, List.mem_singleton, List.not_mem_nil, or_false,
        not_or] at hk
      obtain ⟨h1, h2, h3, h4, h5, h6, h7, h8⟩ := hk
      simp [remapCtrl, h1, h2, h3, h4, h5, h6, h7, h8]
  · rw [if_neg hm, if_neg (fun hc => hm hc.1)]

theorem injected_cancelLog (h : Host) : injected (cancelLog h) = [] := by
  unfold cancelLog
  split <;> rfl

theorem mem_injected (d : SbInputData) (es : List Effect) :
    Effect.inject d ∈ es ↔ d ∈ injected es := by
  induction es with
  | nil => simp [injected]
  | cons e es ih => cases e <;> simp [injected, ih]

theorem injected_emitted_release {h : Host} (hi : Inv h) (key : Nat)
    (hm : modifierOf key = kSbKeyModifiersNone) :
    injected (emitted h (.keyReleased key)) =
      [keyEvent .kSbInputEventTypeUnpress (remapKey h.input.key_modifiers_ key)] := by
  have he := step_idle hi key .kSbInputEventTypeUnpress hm (Or.inl (by decide))
  have hl : (step h (.keyReleased key)).log = h.log ++
      ([Effect.inject (keyEvent .kSbInputEventTypeUnpress
        (remapKey h.input.key_modifiers_ key))] ++ cancelLog h) := congrArg Host.log he
  rw [emitted_of_log hl, injected_append, injected_cancelLog]
  rfl

theorem injected_emitted_press {h : Host} (hi : Inv h) (key : Nat)
    (hm : modifierOf key = kSbKeyModifiersNone)
    (hk : ¬ (isRepeatable key h.input.key_modifiers_ = true ∧
      key = h.input.key_repeat_key_ ∧ h.input.key_repeat_state_ ≠ 0)) :
    injected (emitted h (.keyPressed key)) =
      [keyEvent .kSbInputEventTypePress (remapKey h.input.key_modifiers_ key)] := by
  by_cases hr : isRepeatable key h.input.key_modifiers_ = true
  · have he := step_arm hi key hr (fun hc => hk ⟨hr, hc⟩)
    have hl : (step h (.keyPressed key)).log = h.log ++
        ([Effect.inject (keyEvent .kSbInputEventTypePress
          (remapKey h.input.key_modifiers_ key))] ++ cancelLog h ++
          [Effect.schedule h.next_event_id h.input.key_repeat_interval_]) :=
      congrArg Host.log he
    rw [emitted_of_log hl, injected_append, injected_append, injected_cancelLog]
    rfl
  · have hr2 : isRepeatable key h.input.key_modifiers_ = false := by simpa using hr
    have he := step_idle hi key .kSbInputEventTypePress hm (Or.inr hr2)
    have hl : (step h (.keyPressed key)).log = h.log ++
        ([Effect.inject (keyEvent .kSbInputEventTypePress
          (remapKey h.input.key_modifiers_ key))] ++ cancelLog h) := congrArg Host.log he
    rw [emitted_of_log hl, injected_append, injected_cancelLog]
    rfl

theorem key_event_mask {h : Host} (hi : Inv h) (key : Nat) (d : SbInputData)
    (hd : Effect.inject d ∈ emitted h (.keyPressed key) ∨
      Effect.inject d ∈ emitted h (.keyReleased key)) :
    d.key_modifiers =
      if h.input.key_modifiers_ = kSbKeyModifiersCtrl ∧ key ∈ ctrlChordKeys then 0
      else h.input.key_modifiers_ := by
  rw [← remapKey_mask]
  by_cases hm : modifierOf key = kSbKeyModifiersNone
  · rcases hd with hd | hd
    · by_cases hk : isRepeatable key h.input.key_modifiers_ = true ∧
          key = h.input.key_repeat_key_ ∧ h.input.key_repeat_state_ ≠ 0
      · have he : step h (.keyPressed key) = h :=
          handleKey_suppressed h key hm hk.1 hk.2.1 hk.2.2
        have : emitted h (.keyPressed key) = [] := emitted_of_log (by rw [he]; simp)
        rw [this] at hd; cases hd
      · rw [mem_injected, injected_emitted_press hi key hm hk, List.mem_singleton] at hd
        rw [hd]; rfl
    · rw [mem_injected, injected_emitted_release hi key hm, List.mem_singleton] at hd
      rw [hd]; rfl
  · rcases hd with hd | hd
    · have : emitted h (.keyPressed key) = [] :=
        emitted_of_log (by rw [modifier_press h key hm]; simp)
      rw [this] at hd; cases hd
    · have : emitted h (.keyReleased key) = [] :=
        emitted_of_log (by rw [modifier_release h key hm]; simp)
      rw [this] at hd; cases hd

theorem chord_key_not_modifier {key : Nat} (hk : key ∈ ctrlChordKeys) :
    modifierOf key = kSbKeyModifiersNone := by
  unfold ctrlChordKeys at hk
  simp only [List.mem_cons, List.mem_singleton, List.not_mem_nil, or_false] at hk
  rcases hk with h | h | h | h | h | h | h | h <;> subst h <;> decide

theorem chord_key_not_stored {key k : Nat} (hk : key ∈ ctrlChordKeys) (hs : storedKey k) :
    key ≠ k := by
  unfold ctrlChordKeys at hk
  simp only [List.mem_cons, List.mem_singleton, List.not_mem_nil, or_false] at hk
  rcases hk with h | h | h | h | h | h | h | h <;>
    rcases hs with h2 | h2 | h2 | h2 | h2 | h2 | h2 <;> subst h <;> subst h2 <;> decide

/-- Counterexample for C28: with Ctrl held (its last event a press, `key_modifiers_` is
`kSbKeyModifiersCtrl`) a press of L gives one event, for `kSbKeyBack`, and the mask it
carries is 0, not the Ctrl bit. -/
theorem ctrl_chord_event_carries_no_modifier :
    lastModifierEventWasPress kSbKeyModifiersCtrl false [.keyPressed KEY_LEFTCTRL] = true ∧
      (run Host.fresh [.keyPressed KEY_LEFTCTRL]).input.key_modifiers_ = kSbKeyModifiersCtrl ∧
      (injected (emitted (run Host.fresh [.keyPressed KEY_LEFTCTRL])
        (.keyPressed KEY_L))).map (fun d => (d.key, d.key_modifiers)) = [(kSbKeyBack, 0)] := by
  decide

/-- C28: in every state a press or a release of a modifier key emits nothing and changes
`key_modifiers_` only: the press sets the bit of the modifier, the release clears it, the
other three bits stay, and the left and the right key of a modifier have the same bit;
the repeat key, the repeat state, the pending callback and the interval are as before.
After any inputs on a fresh `EssInput`, `key_modifiers_` has no other bit and a bit is set
exactly when the last press or release of a key of that modifier was a press. The event
of a press or release of a key carries exactly this: 0 when Ctrl is the only modifier set
and the key is one of those the Ctrl table remaps, and `key_modifiers_` in every other
case; a release of a key that is no modifier, and a press of one that is not the
duplicate of the armed key, gives exactly one event, and with only Ctrl set the one event
of a key of the Ctrl table carries 0. -/
theorem modifier_key_changes_only_mask (h : Host) (key : Nat)
    (hm : modifierOf key ≠ kSbKeyModifiersNone) :
    step h (.keyPressed key) =
        { h with input := { h.input with
            key_modifiers_ := h.input.key_modifiers_ ||| modifierOf key } } ∧
      step h (.keyReleased key) =
        { h with input := { h.input with
            key_modifiers_ := h.input.key_modifiers_ &&& not32 (modifierOf key) } } ∧
      emitted h (.keyPressed key) = [] ∧ emitted h (.keyReleased key) = [] ∧
      (∀ b ∈ modifierBits,
        ((h.input.key_modifiers_ ||| modifierOf key) &&& b = b ↔
          (modifierOf key = b ∨ h.input.key_modifiers_ &&& b = b)) ∧
        ((h.input.key_modifiers_ &&& not32 (modifierOf key)) &&& b = b ↔
          (modifierOf key ≠ b ∧ h.input.key_modifiers_ &&& b = b))) ∧
      (modifierOf KEY_LEFTCTRL = modifierOf KEY_RIGHTCTRL ∧
        modifierOf KEY_LEFTSHIFT = modifierOf KEY_RIGHTSHIFT ∧
        modifierOf KEY_LEFTALT = modifierOf KEY_RIGHTALT ∧
        modifierOf KEY_LEFTMETA = modifierOf KEY_RIGHTMETA) ∧
      (∀ inputs : List Input,
        (run Host.fresh inputs).input.key_modifiers_ < 16 ∧
        ∀ bit ∈ modifierBits,
          ((run Host.fresh inputs).input.key_modifiers_ &&& bit = bit ↔
            lastModifierEventWasPress bit false inputs = true)) ∧
      (∀ s : Host, Reachable s → ∀ k : Nat,
        (∀ d : SbInputData,
          (Effect.inject d ∈ emitted s (.keyPressed k) ∨
            Effect.inject d ∈ emitted s (.keyReleased k)) →
          d.key_modifiers =
            if s.input.key_modifiers_ = kSbKeyModifiersCtrl ∧ k ∈ ctrlChordKeys then 0
            else s.input.key_modifiers_) ∧
        (modifierOf k = kSbKeyModifiersNone →
          injected (emitted s (.keyReleased k)) =
            [keyEvent .kSbInputEventTypeUnpress (remapKey s.input.key_modifiers_ k)] ∧
          (¬ (isRepeatable k s.input.key_modifiers_ = true ∧
                k = s.input.key_repeat_key_ ∧ s.input.key_repeat_state_ ≠ 0) →
            injected (emitted s (.keyPressed k)) =
              [keyEvent .kSbInputEventTypePress (remapKey s.input.key_modifiers_ k)])) ∧
        (s.input.key_modifiers_ = kSbKeyModifiersCtrl → k ∈ ctrlChordKeys →
          (injected (emitted s (.keyPressed k))).map (fun d => d.key_modifiers) = [0] ∧
          (injected (emitted s (.keyReleased k))).map (fun d => d.key_modifiers) = [0])) := by
  have hmd : modifierOf key ∈ modifierBits := by
    rcases modifierOf_values key with h0 | h0
    · exact absurd h0 hm
    · exact h0
  refine ⟨modifier_press h key hm, modifier_release h key hm, ?_, ?_, ?_,
    ⟨rfl, rfl, rfl, rfl⟩, ?_, ?_⟩
  · exact emitted_of_log (by rw [modifier_press h key hm]; simp)
  · exact emitted_of_log (by rw [modifier_release h key hm]; simp)
  · intro b hb
    exact ⟨press_bit _ hmd hb, release_bit _ hmd hb⟩
  · intro inputs
    refine ⟨(mask_tracks (List.mem_cons_self _ _) inputs Host.fresh false Inv_fresh
      (by decide) (by decide)).1, ?_⟩
    intro bit hb
    have h0 : Host.fresh.input.key_modifiers_ &&& bit = bit ↔ false = true := by
      have : Host.fresh.input.key_modifiers_ = 0 := rfl
      rw [this, Nat.zero_and]
      constructor
      · intro hc; exact absurd hc.symm (bits_disjoint bit hb bit hb).2.2.1
      · intro hc; cases hc
    exact (mask_tracks hb inputs Host.fresh false Inv_fresh (by decide) h0).2
  · intro s hs k
    have hi := Inv_of_reachable hs
    refine ⟨fun d hd => key_event_mask hi k d hd,
      fun hk => ⟨injected_emitted_release hi k hk, fun hn => injected_emitted_press hi k hk hn⟩,
      ?_⟩
    intro hctrl hk
    have hnm := chord_key_not_modifier hk
    have hmask : (remapKey s.input.key_modifiers_ k).2 = 0 := by
      rw [remapKey_mask, if_pos ⟨hctrl, hk⟩]
    have hns : ¬ (isRepeatable k s.input.key_modifiers_ = true ∧
        k = s.input.key_repeat_key_ ∧ s.input.key_repeat_state_ ≠ 0) :=
      fun hc => chord_key_not_stored hk hi.stored hc.2.1
    rw [injected_emitted_press hi k hnm hns, injected_emitted_release hi k hnm]
    exact ⟨congrArg (fun x => [x]) hmask, congrArg (fun x => [x]) hmask⟩

/-- Witness for C28: on a fresh `EssInput` the press of the right Ctrl key leaves
`key_modifiers_` at `kSbKeyModifiersCtrl` and the record of effects empty. -/
theorem modifier_key_changes_only_mask_witness :
    modifierOf KEY_RIGHTCTRL ≠ kSbKeyModifiersNone ∧
      step Host.fresh (.keyPressed KEY_RIGHTCTRL) =
        { Host.fresh with input := { Host.fresh.input with
            key_modifiers_ := Host.fresh.input.key_modifiers_ ||| modifierOf KEY_RIGHTCTRL } } ∧
      (step Host.fresh (.keyPressed KEY_RIGHTCTRL)).input.key_modifiers_ =
        kSbKeyModifiersCtrl :=
  ⟨by decide, (modifier_key_changes_only_mask Host.fresh KEY_RIGHTCTRL (by decide)).1,
    by decide⟩

end Cobalt
